import Mathlib

/-!
Verification of the `muscles-asgi` gateway engine: a shallow embedding of
`src/muscles/asgi/asgi/request.py` and `src/muscles/asgi/asgi/server.py`
(body materializer, request entity, transport phase engine, server
dispatcher), with theorems settling the specification's claims.

Conventions of the embedding:
* Python `bytes` become `List Nat` (each entry one byte value);
* Python `str` becomes `List Char`;
* Python exceptions become explicit `Except` results or an `Exc` value;
* the ASGI receive channel becomes a `List InMsg` of pending messages,
  and an exhausted list models a receive that blocks forever (`Option`);
* the ASGI send channel becomes an accumulated `List OutMsg`.

Collaborator modules of the repository that are not present under `src/`
(`response.py`, `routers.py`, `error_handler.py`) are modelled from the
spec where a claim needs them; such definitions carry a doc comment
starting with `Modelled from the spec:`.
-/

namespace Muscles

/-- A byte of a Python `bytes` value. -/
abbrev Byte := Nat

/-- Python `bytes`: a list of byte values. -/
abbrev Bytes := List Nat

/-- Python `str`: a list of characters. -/
abbrev Str := List Char

/-- An inbound ASGI channel message as consumed by
`RequestMaker.get_request_body`: a `type` string plus the optional
`body` / `more_body` entries read with `message.get('body', b'')` and
`message.get('more_body', False)`. -/
structure InMsg where
  type : Str
  body : Option Bytes := none
  more_body : Option Bool := none
deriving Repr, DecidableEq

/-- The string `'lifespan.startup'`. -/
def lifespanStartupT : Str := "lifespan.startup".data

/-- The string `'lifespan.shutdown'`. -/
def lifespanShutdownT : Str := "lifespan.shutdown".data

/-- The string `'http.request'`. -/
def httpRequestT : Str := "http.request".data

/-- The `while more_body:` loop of `RequestMaker.get_request_body`
(request.py lines 831-846), with the accumulated `body` threaded
explicitly.  A message of type `lifespan.startup` or `http.request`
appends `message.get('body', b'')` and replaces `more_body` with
`message.get('more_body', False)`; any other message leaves `more_body`
(still `True`) unchanged, so the loop keeps receiving.  An exhausted
message list models a receive that never completes: `none`. -/
def get_request_body_loop : Bytes → List InMsg → Option Bytes
  | _, [] => none
  | acc, m :: rest =>
    if m.type = lifespanStartupT then
      let acc := acc ++ m.body.getD []
      if m.more_body.getD false then get_request_body_loop acc rest else some acc
    else if m.type = httpRequestT then
      let acc := acc ++ m.body.getD []
      if m.more_body.getD false then get_request_body_loop acc rest else some acc
    else
      get_request_body_loop acc rest

/-- Models `RequestMaker.get_request_body`: starts with `body = b''` and
`more_body = True`. -/
def get_request_body (msgs : List InMsg) : Option Bytes :=
  get_request_body_loop [] msgs

/-- Encode a non-empty list of chunks as `http.request` messages with
`more_body` true on all but the last. -/
def chunksToMessages : List Bytes → List InMsg
  | [] => []
  | [c] => [{ type := httpRequestT, body := some c, more_body := some false }]
  | c :: c' :: rest =>
      { type := httpRequestT, body := some c, more_body := some true }
        :: chunksToMessages (c' :: rest)

/-! ## Python exceptions -/

/-- The exception classes that occur in `request.py` / `server.py` and in the
collaborator modules they import. -/
inductive ExcKind where
  | applicationExc
  | attributeExc
  | attributeErrorExc
  | notFoundExc
  | errorExc
  | importErr
  | keyErr
  | indexErr
  | typeErr
  | valueErr
  | unicodeDecodeErr
  | jsonDecodeErr
  | lookupErr
  | unsupportedOperation
  | genericExc
deriving Repr, DecidableEq

/-- A Python exception value: its class, the optional `status` attribute
(present only when the constructor received one), a `reason` string, and —
for `withCause` — an originating exception carried in the `body` keyword
(as in `ApplicationException(reason=..., body=e)`). -/
inductive Exc where
  | mk (kind : ExcKind) (status : Option Int) (reason : Str)
  | withCause (kind : ExcKind) (status : Option Int) (reason : Str) (cause : Exc)
deriving Repr, DecidableEq

/-- The class of the exception. -/
def Exc.kind : Exc → ExcKind
  | .mk k _ _ => k
  | .withCause k _ _ _ => k

/-- The `status` attribute when set (`hasattr(err, 'status')`). -/
def Exc.status : Exc → Option Int
  | .mk _ s _ => s
  | .withCause _ s _ _ => s

/-- The `reason` attribute. -/
def Exc.reason : Exc → Str
  | .mk _ _ r => r
  | .withCause _ _ r _ => r

/-- The originating exception carried in the `body` keyword, when any. -/
def Exc.cause : Exc → Option Exc
  | .mk _ _ _ => Option.none
  | .withCause _ _ _ c => some c

/-! ## Python values

A single value universe for request bodies, decoded JSON, handler return
values and tuple elements.  `vfile` summarizes a `FileStorage` produced by
the body materializer (its on-disk backing file is modelled separately in
the `FileStorage` section). -/

inductive PyVal where
  | none
  | vbool (b : Bool)
  | vint (n : Int)
  | vfloat (lit : Str)
  | vstr (s : Str)
  | vbytes (b : Bytes)
  | vlist (xs : List PyVal)
  | vtuple (xs : List PyVal)
  | vdict (entries : List (Str × PyVal))
  | vfield (name : Str) (value : Str)
  | vfile (name : Option Str) (value : Bytes) (mimeType : Str) (bytesRead : Nat)
  | vexc (e : Exc)

/-! ## Python dict and query-string parsing -/

/-- Lookup in a Python dict modelled as an insertion-ordered association
list (first matching key). -/
def pyGet {V : Type} : List (Str × V) → Str → Option V
  | [], _ => Option.none
  | (k', v) :: rest, k => if k' = k then some v else pyGet rest k

/-- Python `d[k] = v` / `d.update(\x7bk: v\x7d)`: replaces in place when the
key exists, appends otherwise. -/
def pySet {V : Type} : List (Str × V) → Str → V → List (Str × V)
  | [], k, v => [(k, v)]
  | (k', v') :: rest, k, v =>
    if k' = k then (k, v) :: rest else (k', v') :: pySet rest k v

/-- Python `del d[k]`: removes the entry. -/
def pyDel {V : Type} : List (Str × V) → Str → List (Str × V)
  | [], _ => []
  | (k', v') :: rest, k => if k' = k then rest else (k', v') :: pyDel rest k

/-- Numeric value of a hex digit character, if it is one. -/
def hexDigitVal (c : Char) : Option Nat :=
  if '0' ≤ c ∧ c ≤ '9' then some (c.toNat - '0'.toNat)
  else if 'a' ≤ c ∧ c ≤ 'f' then some (c.toNat - 'a'.toNat + 10)
  else if 'A' ≤ c ∧ c ≤ 'F' then some (c.toNat - 'A'.toNat + 10)
  else Option.none

/-- Models `urllib.parse.unquote_plus`: `+` becomes a space and `%XX` percent
escapes are decoded (modelled bytewise; an invalid escape is left as
literal text, as CPython does). -/
def unquote_plus : Str → Str
  | [] => []
  | '+' :: rest => ' ' :: unquote_plus rest
  | '%' :: h₁ :: h₂ :: rest' =>
    match hexDigitVal h₁, hexDigitVal h₂ with
    | some v₁, some v₂ => Char.ofNat (16 * v₁ + v₂) :: unquote_plus rest'
    | _, _ => '%' :: h₁ :: h₂ :: unquote_plus rest'
  | '%' :: rest => '%' :: rest
  | c :: rest => c :: unquote_plus rest

/-- Split a string at the first occurrence of `sep` (Python
`s.split(sep, 1)`), or `none` when `sep` does not occur. -/
def splitFirst (sep : Char) : Str → Option (Str × Str)
  | [] => Option.none
  | c :: rest =>
    if c = sep then some ([], rest)
    else (splitFirst sep rest).map (fun p => (c :: p.1, p.2))

/-- Models `urllib.parse.parse_qsl` with default arguments: split on `&`, keep
pairs that have `=` and a non-empty value, and `unquote_plus` names and
values. -/
def parse_qsl (s : Str) : List (Str × Str) :=
  (s.splitOn '&').flatMap fun piece =>
    if piece = [] then []
    else
      match splitFirst '=' piece with
      | Option.none => []
      | some (n, v) => if v = [] then [] else [(unquote_plus n, unquote_plus v)]

/-- One step of `urllib.parse.parse_qs` grouping: append `v` to the list
already held for `k`, or append a new singleton entry. -/
def qsAdd : List (Str × List Str) → Str → Str → List (Str × List Str)
  | [], k, v => [(k, [v])]
  | (k', vs) :: rest, k, v =>
    if k' = k then (k', vs ++ [v]) :: rest else (k', vs) :: qsAdd rest k v

/-- The `for name, value in pairs` grouping loop of `urllib.parse.parse_qs`. -/
def parse_qs_loop : List (Str × List Str) → List (Str × Str) → List (Str × List Str)
  | acc, [] => acc
  | acc, (k, v) :: rest => parse_qs_loop (qsAdd acc k v) rest

/-- Models `urllib.parse.parse_qs` with default arguments. -/
def parse_qs (s : Str) : List (Str × List Str) :=
  parse_qs_loop [] (parse_qsl s)

/-- A query value as produced by the two `Request` merge policies: either
a scalar string or a list of strings. -/
inductive QVal where
  | scalar (s : Str)
  | list (vs : List Str)
deriving Repr, DecidableEq

/-! ## The Request entity (request.py, class `Request`) -/

/-- The state of a `Request` after `Request.__init__` has run.  The URL
component fields hold what `urlparse` extracted from the constructor's
`url` argument; the late-bound `route` / `itinerary` attributes set during
dispatch are modelled as locals of `handle_request` (a `Request` cannot
store its matched handler here, since handlers are functions over
`Request`). -/
structure Request where
  type : Option Str
  _is_json : Bool
  _is_xml : Bool
  _is_form : Bool
  _is_buffer : Bool
  _method : Str
  protocol : Option Str
  headers : List (Str × Option Str)
  _body : PyVal
  _exception : Option Exc
  path : Str
  _query : Str

/-- Python `str.upper()` over ASCII. -/
def pyUpper (s : Str) : Str := s.map Char.toUpper

/-- Models `Request.__init__`: uppercases the method (the literal string `'None'`
when absent), uppercases the protocol, and routes an exception `body`
value into `_exception` with `_body = None` (`isinstance(body,
BaseException)`).  The `path` / `_query` arguments stand for the fields
`urlparse` derives from the constructed URL; the registered
`init_request` hooks run last, each receiving the new instance. -/
def Request.init (type : Option Str) (protocol : Option Str) (method : Option Str)
    (headers : List (Str × Option Str)) (body : PyVal)
    (is_json is_xml is_form is_buffer : Bool)
    (path : Str) (query : Str)
    (initHooks : List (Request → Request)) : Request :=
  let base : Request :=
    { type := type
      _is_json := is_json
      _is_xml := is_xml
      _is_form := is_form
      _is_buffer := is_buffer
      _method := match method with
        | some m => pyUpper m
        | Option.none => "None".data
      protocol := protocol.map pyUpper
      headers := headers
      _body := match body with
        | .vexc _ => PyVal.none
        | b => b
      _exception := match body with
        | .vexc e => some e
        | _ => Option.none
      path := path
      _query := query }
  initHooks.foldl (fun r f => f r) base

/-- The `Request.is_exception` property: an exception was carried either
in `_exception` or as the `_body` value itself. -/
def Request.is_exception (r : Request) : Bool :=
  r._exception.isSome ||
    (match r._body with
     | .vexc _ => true
     | _ => false)

/-- The `Request.exception` property. -/
def Request.exception (r : Request) : Option Exc :=
  match r._exception with
  | some e => some e
  | Option.none =>
    match r._body with
    | .vexc e => some e
    | _ => Option.none

/-- The `Request.body` property: raises `AttributeException` when `_body`
is `None`, otherwise returns `_body` — except that a buffer-classified
request yields `None` (`self._body if not self._is_buffer else None`). -/
def Request.body (r : Request) : Except Exc PyVal :=
  match r._body with
  | PyVal.none =>
    .error (.mk .attributeExc Option.none "request.body is empty".data)
  | v => .ok (if r._is_buffer then PyVal.none else v)

/-- The `q[item_key] if len(q[item_key]) > 1 else q[item_key][0]` collapse
of `Request.query`. -/
def collapseGroup (vs : List Str) : QVal :=
  if vs.length > 1 then .list vs else .scalar (vs.headD [])

/-- The `for item_key in q: p.update(...)` loop of `Request.query`. -/
def query_loop : List (Str × QVal) → List (Str × List Str) → List (Str × QVal)
  | acc, [] => acc
  | acc, (k, vs) :: rest => query_loop (pySet acc k (collapseGroup vs)) rest

/-- The `Request.query` property (request.py lines 483-492). -/
def Request.query (r : Request) : List (Str × QVal) :=
  query_loop [] (parse_qs r._query)

/-- The `for val in vals` loop of `Request.m_query`: on the second
occurrence of a key the scalar entry is deleted, re-added with the new
value, then overwritten with the two-element list; later occurrences
append to the list. -/
def m_query_loop : List (Str × QVal) → List (Str × Str) → List (Str × QVal)
  | acc, [] => acc
  | acc, (k, v) :: rest =>
    match pyGet acc k with
    | some (.scalar old) =>
      let d := QVal.list [old, v]
      let acc := pyDel acc k
      let acc := pySet acc k (.scalar v)
      let acc := pySet acc k d
      m_query_loop acc rest
    | some (.list vs) => m_query_loop (pySet acc k (.list (vs ++ [v]))) rest
    | Option.none => m_query_loop (pySet acc k (.scalar v)) rest

/-- The `Request.m_query` property (request.py lines 494-512). -/
def Request.m_query (r : Request) : List (Str × QVal) :=
  m_query_loop [] (parse_qsl r._query)

/-- A request carrying only a query string, as built by `Request.__init__`
for a URL whose query part is `q` (no hooks registered). -/
def requestWithQuery (q : Str) : Request :=
  Request.init (some "http".data) (some "http".data) (some "get".data) [] PyVal.none
    false false false false [] q []

/-- A concrete buffer-classified request with a present stored body. -/
def bufferRequestEx : Request :=
  Request.init (some "http".data) (some "http".data) (some "post".data) []
    (.vbytes [104, 105]) false false false true [] [] []

/-! ## Claim C6: the two query merge policies -/

/-- The values a key takes in a parsed pair list, in order. -/
def valuesOf : List (Str × Str) → Str → List Str
  | [], _ => []
  | (k', v) :: rest, k => if k' = k then v :: valuesOf rest k else valuesOf rest k

/-- How many entries of an association list carry the key `k`. -/
def countKeys {V : Type} : List (Str × V) → Str → Nat
  | [], _ => 0
  | (k', _) :: rest, k => (if k' = k then 1 else 0) + countKeys rest k

/-! ## Claim C4: FileStorage save / load / close

Python file objects are modelled explicitly: a handle records its path,
mode, position and closed flag, and a file system maps paths to byte
contents.  `tempfile.NamedTemporaryFile` opens mode `w+b` (read/write);
`open(path, 'wb')` opens write-only and truncates. -/

/-- The mode of an open Python file object. -/
inductive FMode where
  | readWrite
  | writeOnly
deriving Repr, DecidableEq

/-- A Python file object. -/
structure Handle where
  path : Str
  mode : FMode
  pos : Nat
  closed : Bool
deriving Repr, DecidableEq

/-- The file system: a mapping from paths to contents. -/
structure FS where
  files : List (Str × Bytes)
deriving Repr, DecidableEq

/-- Models `fp.read()`: fails on a closed handle (`ValueError`) or a handle
opened `'wb'` (`io.UnsupportedOperation: not readable`); otherwise
returns everything from the current position and moves to the end. -/
def hRead (fs : FS) (h : Handle) : Except Exc (Bytes × Handle) :=
  if h.closed then
    .error (.mk .valueErr Option.none "I/O operation on closed file".data)
  else if h.mode = .writeOnly then
    .error (.mk .unsupportedOperation Option.none "not readable".data)
  else
    let content := (pyGet fs.files h.path).getD []
    .ok (content.drop h.pos, { h with pos := content.length })

/-- Models `fp.write(b)`: overwrites from the current position and advances it. -/
def hWrite (fs : FS) (h : Handle) (b : Bytes) : Except Exc (FS × Handle) :=
  if h.closed then
    .error (.mk .valueErr Option.none "I/O operation on closed file".data)
  else
    let content := (pyGet fs.files h.path).getD []
    let content := content.take h.pos ++ b
    .ok ({ files := pySet fs.files h.path content }, { h with pos := h.pos + b.length })

/-- Models `fp.seek(n)`. -/
def hSeek (h : Handle) (n : Nat) : Handle := { h with pos := n }

/-- Models `fp.close()`: idempotent, as in Python. -/
def hClose (h : Handle) : Handle := { h with closed := true }

/-- Models `open(path, 'wb')`: truncates the target and yields a write-only
handle at position 0. -/
def pyOpenWb (fs : FS) (path : Str) : FS × Handle :=
  ({ files := pySet fs.files path [] }, { path := path, mode := .writeOnly, pos := 0, closed := false })

/-- Models `tempfile.NamedTemporaryFile(...)`: a fresh read/write handle on an
empty file at the given temporary path. -/
def pyTempFile (fs : FS) (path : Str) : FS × Handle :=
  ({ files := pySet fs.files path [] }, { path := path, mode := .readWrite, pos := 0, closed := false })

/-- The `FileStorage` value object of request.py, with its backing handle. -/
structure FileStorage where
  _name : Option Str
  _value : Bytes
  fp : Handle
  _filepath : Str
  _filename : Option Str
  _file_type : Option Str
  _mime_type : Str
  _bytes_read : Nat
deriving Repr, DecidableEq

/-- Models `FileStorage.__init__`: creates the backing temporary file (at the
fresh path `tmpPath`) writes `value` into it, seeks to 0, and records
`fp.name` as `_filepath`; the MIME type is sniffed from the buffer
(`magic`, modelled by the `sniff` parameter) when not supplied. -/
def FileStorage.init (fs : FS) (tmpPath : Str) (sniff : Bytes → Str)
    (name : Option Str) (value : Bytes) (filename : Option Str)
    (mime_type : Option Str) (file_type : Option Str) (bytes_read : Nat) :
    Except Exc (FS × FileStorage) := do
  let (fs, fp) := pyTempFile fs tmpPath
  let (fs, fp) ← hWrite fs fp value
  let fp := hSeek fp 0
  .ok (fs,
    { _name := name
      _value := value
      fp := fp
      _filepath := fp.path
      _filename := filename
      _file_type := file_type
      _mime_type := mime_type.getD (sniff value)
      _bytes_read := bytes_read })

/-- The `FileStorage.filepath` property. -/
def FileStorage.filepath (st : FileStorage) : Str := st._filepath

/-- Models `FileStorage.load`: `return self.fp.read()`. -/
def FileStorage.load (fs : FS) (st : FileStorage) : Except Exc (Bytes × FileStorage) := do
  let (b, fp) ← hRead fs st.fp
  .ok (b, { st with fp := fp })

/-- Models `os.path.basename`. -/
def pyBasename (p : Str) : Str := (p.splitOn '/').getLastD []

/-- Models `os.path.abspath`, for paths that are already absolute. -/
def pyAbspath (p : Str) : Str := p

/-- Models `FileStorage.save(filepath)` (request.py lines 197-208): records the
absolute path and its basename, opens the target with `open(filepath,
'wb')`, writes `self.fp.read()` into it, closes the old handle and
replaces it with the new (write-only) one. -/
def FileStorage.save (fs : FS) (st : FileStorage) (filepath : Str) :
    Except Exc (FS × FileStorage) := do
  let st := { st with _filepath := pyAbspath filepath }
  let st := { st with _filename := some (pyBasename st._filepath) }
  let (fs, fp) := pyOpenWb fs filepath
  let (data, oldFp) ← hRead fs st.fp
  let (fs, fp) ← hWrite fs fp data
  let oldFp := hClose oldFp
  let _ := oldFp
  .ok (fs, { st with fp := fp })

/-- A concrete run: a `FileStorage` over bytes `[1, 2, 3]` backed by the
temp file `/tmp/t0`, then saved to `/data/out.bin`. -/
def fsSaveRun : Except Exc (FS × FileStorage) := do
  let (fs, st) ← FileStorage.init { files := [] } "/tmp/t0".data (fun _ => "application/octet-stream".data)
    (some "f".data) [1, 2, 3] Option.none Option.none Option.none 0
  FileStorage.save fs st "/data/out.bin".data

/-! ## UTF-8 (`bytes.decode('utf-8')` / `str.encode('utf-8')`) -/

/-- UTF-8 encoding of one character. -/
def utf8EncodeChar (c : Char) : Bytes :=
  let v := c.toNat
  if v < 0x80 then [v]
  else if v < 0x800 then [0xC0 + v / 0x40, 0x80 + v % 0x40]
  else if v < 0x10000 then
    [0xE0 + v / 0x1000, 0x80 + v / 0x40 % 0x40, 0x80 + v % 0x40]
  else
    [0xF0 + v / 0x40000, 0x80 + v / 0x1000 % 0x40, 0x80 + v / 0x40 % 0x40, 0x80 + v % 0x40]

/-- UTF-8 encoding of a string. -/
def utf8Encode (s : Str) : Bytes := s.flatMap utf8EncodeChar

/-- Decode one UTF-8 character from the head of a byte list, rejecting
truncated, overlong, out-of-range and surrogate encodings. -/
def utf8DecodeChar : Bytes → Option (Char × Bytes)
  | [] => Option.none
  | b :: rest =>
    if b < 0x80 then some (Char.ofNat b, rest)
    else if b < 0xC2 then Option.none
    else if b < 0xE0 then
      match rest with
      | b₂ :: rest' =>
        if 0x80 ≤ b₂ ∧ b₂ < 0xC0 then
          some (Char.ofNat ((b - 0xC0) * 0x40 + (b₂ - 0x80)), rest')
        else Option.none
      | [] => Option.none
    else if b < 0xF0 then
      match rest with
      | b₂ :: b₃ :: rest' =>
        let v := (b - 0xE0) * 0x1000 + (b₂ - 0x80) * 0x40 + (b₃ - 0x80)
        if 0x80 ≤ b₂ ∧ b₂ < 0xC0 ∧ 0x80 ≤ b₃ ∧ b₃ < 0xC0 ∧ 0x800 ≤ v ∧
            (v < 0xD800 ∨ 0xE000 ≤ v) then
          some (Char.ofNat v, rest')
        else Option.none
      | _ => Option.none
    else if b < 0xF5 then
      match rest with
      | b₂ :: b₃ :: b₄ :: rest' =>
        let v := (b - 0xF0) * 0x40000 + (b₂ - 0x80) * 0x1000 + (b₃ - 0x80) * 0x40 + (b₄ - 0x80)
        if 0x80 ≤ b₂ ∧ b₂ < 0xC0 ∧ 0x80 ≤ b₃ ∧ b₃ < 0xC0 ∧ 0x80 ≤ b₄ ∧ b₄ < 0xC0 ∧
            0x10000 ≤ v ∧ v < 0x110000 then
          some (Char.ofNat v, rest')
        else Option.none
      | _ => Option.none
    else Option.none

/-- Fuelled UTF-8 decoding loop (each decoded character consumes at least
one byte, so `bs.length` fuel always suffices). -/
def utf8DecodeGo : Nat → Bytes → Option Str
  | _, [] => some []
  | 0, _ :: _ => Option.none
  | fuel + 1, b :: bs =>
    match utf8DecodeChar (b :: bs) with
    | Option.none => Option.none
    | some (c, rest) => (utf8DecodeGo fuel rest).map (c :: ·)

/-- Models `bytes.decode('utf-8')`, as an `Option`. -/
def utf8Decode (bs : Bytes) : Option Str := utf8DecodeGo bs.length bs

/-- Models `bytes.decode('utf-8')` raising `UnicodeDecodeError` on failure. -/
def pyDecodeUtf8 (bs : Bytes) : Except Exc Str :=
  match utf8Decode bs with
  | some s => .ok s
  | Option.none =>
    .error (.mk .unicodeDecodeErr Option.none "invalid utf-8".data)

/-! ## Claim C9: multipart file parts (make_body_from_multipart) -/

/-- The text before and after the first occurrence of `sep`, when `sep`
occurs. -/
def findSep (sep : Str) : Str → Option (Str × Str)
  | [] => Option.none
  | c :: rest =>
    if sep.isPrefixOf (c :: rest) then some ([], (c :: rest).drop sep.length)
    else (findSep sep rest).map (fun p => (c :: p.1, p.2))

/-- Fuelled splitting loop: each found separator strictly shortens the
remaining text, so `s.length + 1` fuel always suffices. -/
def pySplitGo (sep : Str) : Nat → Str → List Str
  | 0, s => [s]
  | fuel + 1, s =>
    match findSep sep s with
    | Option.none => [s]
    | some (pre, post) => pre :: pySplitGo sep fuel post

/-- Python `str.split(sep)` for a non-empty separator string. -/
def pySplit (sep : Str) (s : Str) : List Str :=
  pySplitGo sep (s.length + 1) s

/-- Python `str.strip(ch)`: removes the character from both ends. -/
def pyStrip (ch : Char) (s : Str) : Str :=
  ((s.dropWhile (· = ch)).reverse.dropWhile (· = ch)).reverse

/-- Python `in` on strings. -/
def strContains (hay needle : Str) : Bool := decide (needle <:+: hay)

/-- Python `l[i]`, raising `IndexError` past the end. -/
def pyIndex {α : Type} (l : List α) (i : Nat) : Except Exc α :=
  match l.drop i with
  | [] => .error (.mk .indexErr Option.none "list index out of range".data)
  | x :: _ => .ok x

/-- One part yielded by the external `MultipartParser`: its decoded header
mapping and the contents of its `part.file` stream, whose read position
is tracked explicitly. -/
structure MPart where
  headers : List (Str × Str)
  fileBytes : Bytes
  filePos : Nat
deriving Repr, DecidableEq

/-- Models `part.file.read()`: returns everything from the current position and
leaves the position at the end of the stream. -/
def streamRead (content : Bytes) (pos : Nat) : Bytes × Nat :=
  (content.drop pos, content.length)

/-- One entry of the `fields` dict built by
`RequestMaker.make_body_from_multipart`. -/
inductive MPEntry where
  | fileEntry (filename : Str) (content_type : Str) (content : Bytes) (size : Nat)
  | fieldEntry (text : Str)
deriving Repr, DecidableEq

/-- The loop body of `RequestMaker.make_body_from_multipart` (request.py
lines 952-968) for one parsed part: a part whose `Content-Disposition`
contains `filename=` is recorded as a file dict whose `content` is
`part.file.read()` and whose `size` is `len(part.file.read())` — the dict
literal evaluates the first read before the second; any other part is a
plain form field decoded as text. -/
def processPart (part : MPart) : Except Exc (Str × MPEntry) := do
  let disposition := (pyGet part.headers "Content-Disposition".data).getD []
  if strContains disposition "filename=".data then
    let seg ← pyIndex (pySplit "name=".data disposition) 1
    let seg0 ← pyIndex (pySplit ";".data seg) 0
    let name := pyStrip '"' seg0
    let fseg ← pyIndex (pySplit "filename=".data disposition) 1
    let filename := pyStrip '"' fseg
    let content_type := (pyGet part.headers "Content-Type".data).getD "text/plain".data
    let (content, pos₁) := streamRead part.fileBytes part.filePos
    let (second, _) := streamRead part.fileBytes pos₁
    .ok (name, .fileEntry filename content_type content second.length)
  else
    let seg ← pyIndex (pySplit "name=".data disposition) 1
    let name := pyStrip '"' seg
    let text ← pyDecodeUtf8 (streamRead part.fileBytes part.filePos).1
    .ok (name, .fieldEntry text)

/-- A concrete multipart file part. -/
def mpartEx : MPart :=
  { headers := [("Content-Disposition".data,
      "form-data; name=\"f\"; filename=\"a.txt\"".data)]
    fileBytes := [7, 8, 9]
    filePos := 0 }

/-! ## JSON (`json.loads` / serialized documents)

The decoded value universe is the `PyVal` fragment produced by Python's
`json` module: `None`, booleans, numbers (modelled as integers), strings,
lists and dicts.  The serializer below writes a document the way
`json.dumps` does with its `ensure_ascii=True` default — every character
outside printable ASCII appears as a `\uXXXX` escape (astral characters
as a surrogate pair), so the serialized text is pure ASCII. -/

/-- JSON insignificant whitespace. -/
def skipWs : Str → Str :=
  List.dropWhile (fun c => c = ' ' ∨ c = '\t' ∨ c = '\n' ∨ c = '\r')

/-- Is `c` an ASCII decimal digit? -/
def isDigit (c : Char) : Bool := 48 ≤ c.toNat ∧ c.toNat ≤ 57

/-- Fuelled decimal printing of a natural number (`n + 1` fuel suffices
since `n / 10 < n` for `n ≥ 10`). -/
def natDecGo : Nat → Nat → Str
  | 0, _ => []
  | fuel + 1, n =>
    if n < 10 then [Char.ofNat (48 + n)]
    else natDecGo fuel (n / 10) ++ [Char.ofNat (48 + n % 10)]

/-- Decimal representation of a natural number. -/
def natToDec (n : Nat) : Str := natDecGo (n + 1) n

/-- Decimal representation of an integer. -/
def intToDec (n : Int) : Str :=
  if n < 0 then '-' :: natToDec n.natAbs else natToDec n.natAbs

/-- One lowercase hex digit. -/
def hexDig (n : Nat) : Char :=
  if n < 10 then Char.ofNat (48 + n) else Char.ofNat (87 + n)

/-- Four hex digits (for `\uXXXX`). -/
def hex4 (n : Nat) : Str :=
  [hexDig (n / 4096 % 16), hexDig (n / 256 % 16), hexDig (n / 16 % 16), hexDig (n % 16)]

/-- Serialize one character of a JSON string: `"` and `\` get a backslash
escape, anything outside printable ASCII becomes `\uXXXX` (a surrogate
pair above the BMP), and printable ASCII stands for itself. -/
def encodeJsonChar (c : Char) : Str :=
  if c = '"' then ['\\', '"']
  else if c = '\\' then ['\\', '\\']
  else if c.toNat < 0x20 ∨ 0x7F ≤ c.toNat then
    if c.toNat < 0x10000 then '\\' :: 'u' :: hex4 c.toNat
    else
      let v := c.toNat - 0x10000
      ('\\' :: 'u' :: hex4 (0xD800 + v / 0x400)) ++ '\\' :: 'u' :: hex4 (0xDC00 + v % 0x400)
  else [c]

/-- Serialize a JSON string with its quotes. -/
def encodeJsonString (s : Str) : Str :=
  '"' :: s.flatMap encodeJsonChar ++ ['"']

mutual

/-- Compact serialization of a JSON document (the non-JSON `PyVal`
constructors, which no JSON document contains, serialize to nothing). -/
def encodeJson : PyVal → Str
  | .none => "null".data
  | .vbool true => "true".data
  | .vbool false => "false".data
  | .vint n => intToDec n
  | .vfloat lit => lit
  | .vstr s => encodeJsonString s
  | .vlist xs => '[' :: (encodeItems xs ++ [']'])
  | .vdict ms => '\x7b' :: (encodeMembers ms ++ ['\x7d'])
  | _ => []

/-- Comma-separated serialization of array elements. -/
def encodeItems : List PyVal → Str
  | [] => []
  | [x] => encodeJson x
  | x :: y :: ys => encodeJson x ++ ',' :: encodeItems (y :: ys)

/-- Comma-separated serialization of object members. -/
def encodeMembers : List (Str × PyVal) → Str
  | [] => []
  | [(k, v)] => encodeJsonString k ++ ':' :: encodeJson v
  | (k, v) :: m :: ms =>
    encodeJsonString k ++ ':' :: encodeJson v ++ ',' :: encodeMembers (m :: ms)

end

/-- The digit-accumulation loop of number parsing. -/
def parseDigitsGo : Nat → Str → Nat × Str
  | acc, [] => (acc, [])
  | acc, c :: rest =>
    if isDigit c then parseDigitsGo (acc * 10 + (c.toNat - 48)) rest else (acc, c :: rest)

/-- Parse four hex digits. -/
def parseHex4 : Str → Option (Nat × Str)
  | c₁ :: c₂ :: c₃ :: c₄ :: rest =>
    match hexDigitVal c₁, hexDigitVal c₂, hexDigitVal c₃, hexDigitVal c₄ with
    | some v₁, some v₂, some v₃, some v₄ =>
      some (v₁ * 4096 + v₂ * 256 + v₃ * 16 + v₄, rest)
    | _, _, _, _ => Option.none
  | _ => Option.none

/-- Parse the body of a JSON string after its opening quote, decoding
backslash escapes (`\uXXXX` surrogate pairs combine into one character)
and rejecting raw control characters, as `json.loads` does in its default
strict mode.  Fuelled: each step consumes at least one character. -/
def parseStringBody : Nat → Str → Option (Str × Str)
  | 0, _ => Option.none
  | _ + 1, [] => Option.none
  | _ + 1, '"' :: rest => some ([], rest)
  | fuel + 1, '\\' :: esc =>
    match esc with
    | 'u' :: t =>
      match parseHex4 t with
      | some (n, t') =>
        if 0xD800 ≤ n ∧ n < 0xDC00 then
          match t' with
          | '\\' :: 'u' :: t₂ =>
            match parseHex4 t₂ with
            | some (n₂, t₃) =>
              if 0xDC00 ≤ n₂ ∧ n₂ < 0xE000 then
                (parseStringBody fuel t₃).map
                  (fun p => (Char.ofNat (0x10000 + (n - 0xD800) * 0x400 + (n₂ - 0xDC00)) :: p.1, p.2))
              else Option.none
            | Option.none => Option.none
          | _ => Option.none
        else if 0xDC00 ≤ n ∧ n < 0xE000 then Option.none
        else (parseStringBody fuel t').map (fun p => (Char.ofNat n :: p.1, p.2))
      | Option.none => Option.none
    | '"' :: t => (parseStringBody fuel t).map (fun p => ('"' :: p.1, p.2))
    | '\\' :: t => (parseStringBody fuel t).map (fun p => ('\\' :: p.1, p.2))
    | '/' :: t => (parseStringBody fuel t).map (fun p => ('/' :: p.1, p.2))
    | 'b' :: t => (parseStringBody fuel t).map (fun p => (Char.ofNat 8 :: p.1, p.2))
    | 'f' :: t => (parseStringBody fuel t).map (fun p => (Char.ofNat 12 :: p.1, p.2))
    | 'n' :: t => (parseStringBody fuel t).map (fun p => ('\n' :: p.1, p.2))
    | 'r' :: t => (parseStringBody fuel t).map (fun p => (Char.ofNat 13 :: p.1, p.2))
    | 't' :: t => (parseStringBody fuel t).map (fun p => ('\t' :: p.1, p.2))
    | _ => Option.none
  | fuel + 1, c :: rest =>
    if c.toNat < 0x20 then Option.none
    else (parseStringBody fuel rest).map (fun p => (c :: p.1, p.2))

/-- The longest digit prefix of a string and the remainder. -/
def spanDigits (s : Str) : Str × Str := (s.takeWhile isDigit, s.dropWhile isDigit)

/-- The integer-part production of the JSON number grammar
(`0 | [1-9][0-9]*`, as in `json.scanner.NUMBER_RE`): a leading `0` is
never extended by further digits. -/
def parseIntDigits : Str → Option (Str × Str)
  | c :: rest =>
    if c = '0' then some (['0'], rest)
    else if isDigit c then
      let p := spanDigits rest
      some (c :: p.1, p.2)
    else Option.none
  | [] => Option.none

/-- The optional fraction production (`(\.[0-9]+)?`): matched text and
remainder, backtracking to nothing when no digit follows the dot. -/
def parseFrac : Str → Str × Str
  | c :: rest =>
    if c = '.' then
      let p := spanDigits rest
      if p.1 = [] then ([], c :: rest) else (c :: p.1, p.2)
    else ([], c :: rest)
  | [] => ([], [])

/-- The optional exponent production (`([eE][-+]?[0-9]+)?`): matched text
and remainder, backtracking to nothing when no digit follows. -/
def parseExp : Str → Str × Str
  | c :: rest =>
    if c = 'e' ∨ c = 'E' then
      match rest with
      | c₂ :: rest₂ =>
        if c₂ = '+' ∨ c₂ = '-' then
          let p := spanDigits rest₂
          if p.1 = [] then ([], c :: c₂ :: rest₂) else (c :: c₂ :: p.1, p.2)
        else
          let p := spanDigits rest
          if p.1 = [] then ([], c :: rest) else (c :: p.1, p.2)
      | [] => ([], [c])
    else ([], c :: rest)
  | [] => ([], [])

/-- Value of a digit string (Python `int` of a decimal literal). -/
def decToNat (ds : Str) : Nat := ds.foldl (fun a c => a * 10 + (c.toNat - 48)) 0

/-- The number production of `json.scanner`: after the optional sign,
match integer part, optional fraction and optional exponent; a match with
a fraction or exponent is passed to `parse_float` (a Python `float`,
which this model carries as the matched literal text), a bare integer
part to `parse_int`. -/
def parseNumber (neg : Bool) (s : Str) : Option (PyVal × Str) :=
  match parseIntDigits s with
  | some (ip, r₁) =>
    let fr := parseFrac r₁
    let ex := parseExp fr.2
    if fr.1 = [] ∧ ex.1 = [] then
      some (.vint (if neg then -(decToNat ip : Int) else (decToNat ip : Int)), r₁)
    else
      some (.vfloat ((if neg then ['-'] else []) ++ ip ++ fr.1 ++ ex.1), ex.2)
  | Option.none => Option.none

/-- Does the text start with a character that would extend a directly
preceding number match (a digit, a dot, or an exponent marker)? -/
def startsNumExt : Str → Bool
  | [] => false
  | c :: _ => isDigit c ∨ c = '.' ∨ c = 'e' ∨ c = 'E'

/-- Is `lit` a complete JSON number literal that the scanner passes to
`parse_float` (it has a fraction or an exponent)?  These are exactly the
float values JSON documents can carry; `Infinity`/`NaN` are not among
them. -/
def floatLitB (lit : Str) : Bool :=
  match lit with
  | '-' :: t =>
    (match parseNumber true t with
     | some (.vfloat l, r) => decide (l = lit) && decide (r = [])
     | _ => false)
  | t =>
    (match parseNumber false t with
     | some (.vfloat l, r) => decide (l = lit) && decide (r = [])
     | _ => false)

mutual

/-- Fuelled recursive-descent parser for one JSON value (after optional
leading whitespace). -/
def parseValue : Nat → Str → Option (PyVal × Str)
  | 0, _ => Option.none
  | fuel + 1, s =>
    match skipWs s with
    | 'n' :: 'u' :: 'l' :: 'l' :: rest => some (.none, rest)
    | 't' :: 'r' :: 'u' :: 'e' :: rest => some (.vbool true, rest)
    | 'f' :: 'a' :: 'l' :: 's' :: 'e' :: rest => some (.vbool false, rest)
    | '"' :: rest => (parseStringBody fuel rest).map (fun p => (.vstr p.1, p.2))
    | '[' :: rest =>
      match skipWs rest with
      | ']' :: rest' => some (.vlist [], rest')
      | r => (parseItems fuel r).map (fun p => (.vlist p.1, p.2))
    | '\x7b' :: rest =>
      match skipWs rest with
      | '\x7d' :: rest' => some (.vdict [], rest')
      | r =>
        (parseMembers fuel r).map
          (fun p => (.vdict (p.1.foldl (fun d m => pySet d m.1 m.2) []), p.2))
    | '-' :: t =>
      if t.take 8 = "Infinity".data then some (.vfloat "-Infinity".data, t.drop 8)
      else parseNumber true t
    | c :: rest =>
      if c = 'N' ∧ rest.take 2 = "aN".data then some (.vfloat "NaN".data, rest.drop 2)
      else if c = 'I' ∧ rest.take 7 = "nfinity".data then
        some (.vfloat "Infinity".data, rest.drop 7)
      else parseNumber false (c :: rest)
    | [] => Option.none

/-- Parse the comma-separated elements of a non-empty array, up to and
including the closing bracket. -/
def parseItems : Nat → Str → Option (List PyVal × Str)
  | 0, _ => Option.none
  | fuel + 1, s =>
    match parseValue fuel s with
    | some (v, r) =>
      match skipWs r with
      | ',' :: r₂ => (parseItems fuel r₂).map (fun p => (v :: p.1, p.2))
      | ']' :: r₂ => some ([v], r₂)
      | _ => Option.none
    | Option.none => Option.none

/-- Parse the comma-separated members of a non-empty object, up to and
including the closing brace (in textual order; the caller folds them into
a dict, so a repeated name keeps its first position with its last value,
as Python dict insertion does). -/
def parseMembers : Nat → Str → Option (List (Str × PyVal) × Str)
  | 0, _ => Option.none
  | fuel + 1, s =>
    match skipWs s with
    | '"' :: r =>
      match parseStringBody fuel r with
      | some (k, r₁) =>
        match skipWs r₁ with
        | ':' :: r₂ =>
          match parseValue fuel r₂ with
          | some (v, r₃) =>
            match skipWs r₃ with
            | ',' :: r₄ => (parseMembers fuel r₄).map (fun p => ((k, v) :: p.1, p.2))
            | '\x7d' :: r₄ => some ([(k, v)], r₄)
            | _ => Option.none
          | Option.none => Option.none
        | _ => Option.none
      | Option.none => Option.none
    | _ => Option.none

end

/-- Models `json.loads`: parse one document and require only whitespace after it;
failures are `json.JSONDecodeError`. -/
def json_loads (s : Str) : Except Exc PyVal :=
  match parseValue (2 * s.length + 4) s with
  | some (v, rest) =>
    if skipWs rest = [] then .ok v
    else .error (.mk .jsonDecodeErr Option.none "Extra data".data)
  | Option.none => .error (.mk .jsonDecodeErr Option.none "Expecting value".data)

/-- The outcomes of `bytes.decode` beyond the codecs this model
implements: another installed codec either succeeds, rejects its input
with `UnicodeDecodeError`, or does not exist (`LookupError`). -/
inductive CodecErr where
  | unicode (reason : Str)
  | lookup (reason : Str)
deriving Repr, DecidableEq

/-- Models `bytes.decode(charset)`: UTF-8 (the default) decodes per
`utf8Decode`, latin-1 maps bytes to code points, and every other charset
is delegated to `other`, the abstract table of the remaining installed
codecs (its errors can only be the `UnicodeDecodeError` / `LookupError`
that `bytes.decode` raises). -/
def codecDecode (other : Str → Bytes → Except CodecErr Str) (charset : Str)
    (input : Bytes) : Except Exc Str :=
  if charset = "utf-8".data ∨ charset = "utf8".data then pyDecodeUtf8 input
  else if charset = "latin-1".data ∨ charset = "iso-8859-1".data then
    .ok (input.map (fun b => Char.ofNat (b % 256)))
  else
    match other charset input with
    | .ok text => .ok text
    | .error (.unicode reason) => .error (.mk .unicodeDecodeErr Option.none reason)
    | .error (.lookup reason) => .error (.mk .lookupErr Option.none reason)

/-- Python `str.lower()` over ASCII. -/
def pyLower (s : Str) : Str := s.map Char.toLower

/-- Models `RequestMaker.charset` (request.py lines 861-873): the `charset=`
parameter of the lowercased `content-type` header (defaulting to
`text/html; charset=UTF-8`), else `utf-8`. -/
def rmCharset (headers : List (Str × Str)) : Str :=
  let content_type := (pyGet headers "content-type".data).getD "text/html; charset=UTF-8".data
  match pySplit "; ".data (pyLower content_type) with
  | _ :: p₁ :: _ =>
    (match pySplit "=".data p₁ with
     | c₀ :: c₁ :: _ => if c₀ = "charset".data then pyLower c₁ else "utf-8".data
     | _ => "utf-8".data)
  | _ => "utf-8".data

/-- Models `RequestMaker.make_body_from_json` (request.py lines 907-917): an
empty buffer yields an empty dict; otherwise the buffer is decoded under
the resolved charset and parsed.  The two `except` clauses catch exactly
`json.JSONDecodeError` and `UnicodeDecodeError` and wrap them into
`ApplicationException(reason="JSON DECODE ERROR", body=e)` carrying the
originating error; any other error (such as a `LookupError` from an
unknown charset) propagates uncaught. -/
def make_body_from_json (other : Str → Bytes → Except CodecErr Str)
    (headers : List (Str × Str)) (input : Bytes) : Except Exc PyVal :=
  if input.length > 0 then
    match codecDecode other (rmCharset headers) input with
    | .error e =>
      if e.kind = .unicodeDecodeErr then
        .error (.withCause .applicationExc Option.none "JSON DECODE ERROR".data e)
      else .error e
    | .ok text =>
      match json_loads text with
      | .ok v => .ok v
      | .error e =>
        if e.kind = .jsonDecodeErr then
          .error (.withCause .applicationExc Option.none "JSON DECODE ERROR".data e)
        else .error e
  else .ok (.vdict [])

/-! ## The transport phase engine and server dispatcher (server.py)

`response.py`, `routers.py` and `error_handler.py` are collaborator
modules of this repository that are not present under `src/`; the
response capability, the routing capability and the error-handler
configuration are modelled from the spec (sections 6 and 7). -/

/-- The ASGI handshake scope (a dict; absent keys are `none`). -/
structure Scope where
  type : Option Str := Option.none
  method : Option Str := Option.none
  scheme : Option Str := Option.none
  path : Option Str := Option.none
  raw_path : Option Bytes := Option.none
  query_string : Option Bytes := Option.none
  headers : Option (List (Bytes × Bytes)) := Option.none

/-- An outbound ASGI channel message sent by the transport. -/
inductive OutMsg where
  | httpResponseStart (status : Int) (headers : List (Str × Str))
  | httpResponseBody (body : Bytes)
  | lifespanStartupComplete
  | lifespanShutdownComplete
deriving Repr, DecidableEq

/-- Modelled from the spec: the response capability of the missing
`response.py` — constructed from status, body, headers and the request,
and exposing them (§6).  `status` is kept as a raw Python value because
`handle_request` can store an arbitrary tuple element in it; the wire
emission applies `int(...)`. -/
structure Resp where
  status : PyVal
  body : PyVal
  headers : List (Str × Str) := []
  request : Option Request := Option.none

/-- Modelled from the spec: `BaseResponse(status=..., body=..., request=...)`. -/
def BaseResponse (status : Int) (body : PyVal) (request : Option Request) : Resp :=
  { status := .vint status, body := body, request := request }

/-- Modelled from the spec: `BadResponse(status=..., reason=..., body=...,
trace=..., request=...)`, the default error response of the unified error
path; it exposes the status it was constructed from. -/
def BadResponse (status : Int) (reason body trace : PyVal) (request : Option Request) : Resp :=
  let _ := reason
  let _ := trace
  { status := .vint status, body := body, request := request }

/-- A handler return value: either an arbitrary Python value or a
`BaseResponse`-like object. -/
inductive HRet where
  | val (v : PyVal)
  | resp (r : Resp)

/-- Modelled from the spec: one matched route as returned by a routing
table — the handler (invoked with the request and the extracted path
parameters), the optional `redirect` target, and, when the route carries
an `instance`, that instance's `before_request` hooks. -/
structure RouteCall where
  handler : Request → List (Str × Str) → Except Exc HRet
  redirect : Option Str := Option.none
  instanceBeforeRequest : Option (List (Request → Request)) := Option.none

/-- Modelled from the spec: one registered routing-table instance (§6):
route lookup, error-handler lookup, and the optional `modify_response`
transformation. -/
structure Instance where
  get_current_route : Request → Option RouteCall × List (Str × Str)
  get_current_error_handler : Resp → Option (Resp → Option Request → PyVal) :=
    fun _ => Option.none
  modify_response : Option (Resp → Resp) := Option.none

/-- Modelled from the spec: the server's configured error handler class.
`noneCls` is the `None` default (on which `issubclass(None, Exception)`
raises `TypeError`); `excSubclass` is an `Exception` subclass whose
`.handler(status, reason, body, trace, request)` builds the response;
`plainCls` is any other class, for which `BadResponse` is used. -/
inductive ErrorHandlerCfg where
  | noneCls
  | excSubclass (handler : Int → PyVal → PyVal → PyVal → Option Request → Resp)
  | plainCls

/-- The process-wide hook registry (`EventsStorageInterface`): ordered
hook lists per event.  A `before_request` hook's truthy return value is a
string or a response object. -/
structure EventsStorage where
  init_request : List (Request → Request) := []
  before_request : List (Request → Option (Sum Str Resp)) := []
  before_response : List (Resp → Resp) := []

/-- The collaborators of one `AsgiServer` + `AsgiTransport` pair. -/
structure Config where
  events : EventsStorage := {}
  instances : List (Str × Instance) := []
  hasStatic : Request → Bool := fun _ => false
  errorHandler : ErrorHandlerCfg := .plainCls
  serialize : PyVal → Bytes := fun _ => []

/-- Decimal digits to a natural number. -/
def digitsVal (s : Str) : Nat := (parseDigitsGo 0 s).1

/-- Python `int(x)` as used on `response.status`. -/
def pyToInt : PyVal → Except Exc Int
  | .vint n => .ok n
  | .vbool b => .ok (if b then 1 else 0)
  | .vstr s =>
    (match s with
     | '-' :: rest =>
       if rest ≠ [] ∧ rest.all isDigit then .ok (-(digitsVal rest : Int))
       else .error (.mk .valueErr Option.none "invalid literal for int".data)
     | _ =>
       if s ≠ [] ∧ s.all isDigit then .ok (digitsVal s : Int)
       else .error (.mk .valueErr Option.none "invalid literal for int".data))
  | _ => .error (.mk .typeErr Option.none "int() argument".data)

/-- Modelled from the spec: the response capability accepts headers as
ordered name/value pairs; a handler-supplied `headers` tuple element is
read as such a collection. -/
def headersOfPyVal : PyVal → List (Str × Str)
  | .vlist xs =>
    xs.filterMap (fun x =>
      match x with
      | .vtuple [.vstr a, .vstr b] => some (a, b)
      | .vlist [.vstr a, .vstr b] => some (a, b)
      | _ => Option.none)
  | .vdict entries =>
    entries.filterMap (fun m =>
      match m.2 with
      | .vstr s => some (m.1, s)
      | _ => Option.none)
  | _ => []

/-- Models `message['type']` on the request-body value held by a lifespan
request: a dict access (a missing key raises `KeyError`, a non-dict body
raises `TypeError`); a non-string value compares unequal to every
message-type string, which is rendered as `none`. -/
def msgTypeOf : PyVal → Except Exc (Option Str)
  | .vdict entries =>
    match pyGet entries "type".data with
    | some (.vstr t) => .ok (some t)
    | some _ => .ok Option.none
    | Option.none => .error (.mk .keyErr Option.none "type".data)
  | _ => .error (.mk .typeErr Option.none "value is not subscriptable".data)

/-- Models `AsgiTransport.make_response` (server.py lines 75-148).  Lifespan
connections acknowledge a startup/shutdown message found in
`response.request.body`; `http` connections run the `before_response`
hooks, then `OPTIONS` short-circuits to a literal 204 with empty body
while every other method emits `int(response.status)` and the serialized
body; `websocket` raises.  Any exception inside is re-raised as
`ApplicationException(status=500, reason=ae, ...)`. -/
def make_response (cfg : Config) (scope : Scope) (response : Resp) :
    Except Exc (List OutMsg) :=
  let inner : Except Exc (List OutMsg) :=
    match scope.type with
    | Option.none => .error (.mk .keyErr Option.none "type".data)
    | some t =>
      if t = "lifespan".data then
        match response.request with
        | Option.none =>
          .error (.mk .attributeExc Option.none "NoneType has no attribute body".data)
        | some req =>
          match req.body with
          | .error e => .error e
          | .ok message =>
            match message with
            | .none => .ok []
            | m =>
              match msgTypeOf m with
              | .error e => .error e
              | .ok mt =>
                if mt = some lifespanStartupT then .ok [.lifespanStartupComplete]
                else if mt = some lifespanShutdownT then .ok [.lifespanShutdownComplete]
                else .ok []
      else if t = "http".data then
        let response := cfg.events.before_response.foldl (fun r f => f r) response
        match scope.method with
        | Option.none => .error (.mk .keyErr Option.none "method".data)
        | some m =>
          if m = "OPTIONS".data then
            .ok [.httpResponseStart 204 response.headers, .httpResponseBody []]
          else
            match pyToInt response.status with
            | .error e => .error e
            | .ok status =>
              .ok [.httpResponseStart status response.headers,
                .httpResponseBody (cfg.serialize response.body)]
      else if t = "websocket".data then
        .error (.mk .genericExc Option.none "WebSocket not implemented".data)
      else .ok []
  match inner with
  | .ok msgs => .ok msgs
  | .error ae => .error (.withCause .applicationExc (some 500) ae.reason ae)

/-- The `for key, instance in itinerary.instance_list()` scan of
`AsgiServer.send_error`: the first instance error handler found replaces
the response body. -/
def errorHandlerScan : List (Str × Instance) → Resp → Option Request → Resp
  | [], resp, _ => resp
  | (_, inst) :: rest, resp, req =>
    match inst.get_current_error_handler resp with
    | some call => { resp with body := call resp req }
    | Option.none => errorHandlerScan rest resp req

/-- Models `AsgiServer.send_error` (server.py lines 372-411): derives status /
reason / body / trace from the error's attributes (status defaults to
500), builds the response through the configured error-handler class —
`issubclass(None, Exception)` raises `TypeError` when none is configured —
lets the first matching instance error handler replace the body, and
emits through the transport. -/
def send_error (cfg : Config) (scope : Scope) (err : Option Exc)
    (request : Option Request) : Except Exc (List OutMsg) :=
  let status : Int := match err with
    | some e => e.status.getD 500
    | Option.none => 500
  let reason : PyVal := match err with
    | some e => .vstr e.reason
    | Option.none => .vstr "None".data
  let body : PyVal := match err with
    | some e =>
      (match e.cause with
       | some c => .vexc c
       | Option.none => .vstr e.reason)
    | Option.none => .vstr "None".data
  let trace : PyVal := .none
  let respE : Except Exc Resp := match cfg.errorHandler with
    | .noneCls => .error (.mk .typeErr Option.none "issubclass() arg 1 must be a class".data)
    | .excSubclass h => .ok (h status reason body trace request)
    | .plainCls => .ok (BadResponse status reason body trace request)
  match respE with
  | .error e => .error e
  | .ok resp =>
    make_response cfg scope (errorHandlerScan cfg.instances resp request)

/-- The result of one dispatch: the transport outcome (the messages sent,
or the exception that escaped uncaught), plus how many times a route
handler was invoked. -/
structure DOut where
  result : Except Exc (List OutMsg)
  handlerCalls : Nat

/-- The `before_request` hook scan of `AsgiServer.handle_request`: the
first hook returning a truthy value short-circuits dispatch; a string is
wrapped into a 200 response. -/
def brScan : List (Request → Option (Sum Str Resp)) → Request → Option Resp
  | [], _ => Option.none
  | f :: rest, req =>
    match f req with
    | some (.inl s) => some (BaseResponse 200 (.vstr s) (some req))
    | some (.inr r) => some r
    | Option.none => brScan rest req

/-- The route-resolution loop of `AsgiServer.handle_request`: the first
instance whose `get_current_route` matches wins; when the matched call
carries an `instance`, its `before_request` hooks run over the request. -/
def routeScan : List (Str × Instance) → Request →
    Option (RouteCall × List (Str × Str) × Instance × Request)
  | [], _ => Option.none
  | (_, inst) :: rest, req =>
    match inst.get_current_route req with
    | (some call, dictionary) =>
      let req := match call.instanceBeforeRequest with
        | some hooks => hooks.foldl (fun r f => f r) req
        | Option.none => req
      some (call, dictionary, inst, req)
    | (Option.none, _) => routeScan rest req

/-- The return-value normalization of `AsgiServer.handle_request`
(server.py lines 290-307): a response object passes through; a string,
byte buffer or dict becomes a 200 response with that body; a tuple is
read positionally — `body = resp[0]` always, `status = resp[1]` whenever
the tuple is non-empty, and `headers = resp[2]` whenever its length is at
least 2 (so `resp[2]` raises `IndexError` on a 2-tuple); anything else
becomes a 200 response wrapping the value. -/
def normalizeHRet (request : Request) : HRet → Except Exc Resp
  | .resp r => .ok r
  | .val (.vstr s) => .ok (BaseResponse 200 (.vstr s) (some request))
  | .val (.vbytes b) => .ok (BaseResponse 200 (.vbytes b) (some request))
  | .val (.vdict d) => .ok (BaseResponse 200 (.vdict d) (some request))
  | .val (.vtuple xs) =>
    (match pyIndex xs 0 with
     | .error e => .error e
     | .ok body =>
       match (if 1 ≤ xs.length then pyIndex xs 1 else .ok (.vint 200)) with
       | .error e => .error e
       | .ok status =>
         match (if 2 ≤ xs.length then (pyIndex xs 2).map headersOfPyVal else .ok []) with
         | .error e => .error e
         | .ok headers =>
           .ok { status := status, body := body, headers := headers, request := some request })
  | .val v => .ok (BaseResponse 200 v (some request))

/-- The `except` ladder of the route-invocation block of
`AsgiServer.handle_request` (server.py lines 317-341): an
`ApplicationException` is re-wrapped with status 400, a `KeyError`
becomes an `AttributeErrorException` with status 500, everything else
becomes an `ApplicationException` with status 500. -/
def routeExcWrap (e : Exc) : Exc :=
  match e.kind with
  | .applicationExc => .mk .applicationExc (some 400) e.reason
  | .keyErr => .mk .attributeErrorExc (some 500) ("KeyError".data ++ e.reason)
  | _ => .mk .applicationExc (some 500) e.reason

/-- Models `AsgiServer.handle_request` (server.py lines 229-342).  A lifespan or
untyped request gets a 200 `BaseResponse` straight to the transport;
otherwise the `before_request` hooks may short-circuit; then the route
scan runs, a missing route funnels `NotFoundException(404)` into
`send_error`, a truthy `redirect` builds a redirect response that is then
dropped (the code falls through to the 404 path), and an invoked handler
has its return value normalized, transformed by the owning table's
`modify_response`, and emitted; exceptions of that block are wrapped by
`routeExcWrap` and funnelled into `send_error`. -/
def handle_request (cfg : Config) (scope : Scope) (request : Request) : DOut :=
  if request.type = some "lifespan".data ∨ request.type = Option.none then
    { result := make_response cfg scope (BaseResponse 200 .none (some request))
      handlerCalls := 0 }
  else
    match brScan cfg.events.before_request request with
    | some resp => { result := make_response cfg scope resp, handlerCalls := 0 }
    | Option.none =>
      match routeScan cfg.instances request with
      | Option.none =>
        { result := send_error cfg scope
            (some (.mk .notFoundExc (some 404) "Not Found".data)) (some request)
          handlerCalls := 0 }
      | some (call, dictionary, inst, request) =>
        if (call.redirect.getD []) ≠ [] then
          { result := send_error cfg scope
              (some (.mk .notFoundExc (some 404) "Not Found".data)) (some request)
            handlerCalls := 0 }
        else
          let att : Except Exc (List OutMsg) :=
            match call.handler request dictionary with
            | .error e => .error e
            | .ok hret =>
              match normalizeHRet request hret with
              | .error e => .error e
              | .ok resp =>
                let resp := match inst.modify_response with
                  | some f => f resp
                  | Option.none => resp
                make_response cfg scope resp
          match att with
          | .ok msgs => { result := .ok msgs, handlerCalls := 1 }
          | .error e =>
            { result := send_error cfg scope (some (routeExcWrap e)) (some request)
              handlerCalls := 1 }

/-- Models `AsgiServer.handler` (server.py lines 213-226): an exception-carrying
request goes straight to `send_error`; a static match returns the
un-iterated `handle_static` generator, so nothing is sent; otherwise the
request is dispatched. -/
def server_handler (cfg : Config) (scope : Scope) (request : Request) : DOut :=
  if request.is_exception then
    { result := send_error cfg scope request.exception (some request), handlerCalls := 0 }
  else if cfg.hasStatic request then
    { result := .ok [], handlerCalls := 0 }
  else handle_request cfg scope request

/-! ## RequestMaker (request.py, class `RequestMaker`) -/

/-- The `_request_types` registry, in its source (insertion) order. -/
def requestTypes : List (Str × Str) :=
  [("multipart/form-data".data, "multipart".data),
   ("application/x-www-form-urlencoded".data, "form".data),
   ("text/plain".data, "text".data),
   ("text/html".data, "html".data),
   ("application/javascript".data, "javascript".data),
   ("application/json".data, "json".data),
   ("application/xml".data, "xml".data)]

/-- The table scan of `RequestMaker.request_type`: for each registry
entry, a `content-type` header containing the MIME prefix wins, else an
`accept` header listing it exactly (comma-split) wins. -/
def requestTypeScan : List (Str × Str) → List (Str × Str) → Option Str
  | [], _ => Option.none
  | (ct, ty) :: rest, headers =>
    match pyGet headers "content-type".data with
    | some hv =>
      if strContains hv ct then some ty
      else
        (match pyGet headers "accept".data with
         | some av =>
           if (pySplit ",".data av).contains ct then some ty
           else requestTypeScan rest headers
         | Option.none => requestTypeScan rest headers)
    | Option.none =>
      match pyGet headers "accept".data with
      | some av =>
        if (pySplit ",".data av).contains ct then some ty
        else requestTypeScan rest headers
      | Option.none => requestTypeScan rest headers

/-- Models `RequestMaker.request_type` (request.py lines 848-859). -/
def request_type (headers : List (Str × Str)) : Option Str :=
  if (pyGet headers "content-type".data).isNone ∧ (pyGet headers "accept".data).isNone then
    Option.none
  else requestTypeScan requestTypes headers

/-- Python `str.title()` (word-initial letters uppercased, the rest
lowercased). -/
def pyTitleGo : Bool → Str → Str
  | _, [] => []
  | prevAlpha, c :: rest =>
    (if c.isAlpha then (if prevAlpha then c.toLower else c.toUpper) else c)
      :: pyTitleGo c.isAlpha rest

/-- Python `str.title()`. -/
def pyTitle (s : Str) : Str := pyTitleGo false s

/-- Replace one character by another throughout a string. -/
def strReplaceChar (a b : Char) (s : Str) : Str :=
  s.map (fun c => if c = a then b else c)

/-- Models `RequestMaker.make_headers` (request.py lines 975-1001): seeds a
fixed set of capitalized keys from the (lowercase) ASGI header dict —
mostly `None`, plus defaults for `Content-Length` / `Content-Type` — then
re-adds every received header under a title-cased key (`HTTP_`-prefixed
keys are stripped and underscores become hyphens). -/
def make_headers (headers : List (Str × Str)) : List (Str × Option Str) :=
  if headers.length > 0 then
    let seeded : List (Str × Option Str) :=
      [("Host".data, pyGet headers "Host".data),
       ("Connection".data, pyGet headers "Connection".data),
       ("Pragma".data, pyGet headers "Pragma".data),
       ("Cache-Control".data, pyGet headers "Cache-Control".data),
       ("Accept".data, pyGet headers "Accept".data),
       ("Accept-Language".data, pyGet headers "Accept-Language".data),
       ("Accept-Encoding".data, pyGet headers "Accept-Encoding".data),
       ("Origin".data, pyGet headers "Origin".data),
       ("User-Agent".data, pyGet headers "User-Agent".data),
       ("Content-Length".data, some ((pyGet headers "Content-Length".data).getD "0".data)),
       ("Content-Type".data,
         some ((pyGet headers "Content-Type".data).getD "text/html; charset=UTF-8".data))]
    headers.foldl
      (fun acc kv =>
        let key :=
          if kv.1.take 5 = "HTTP_".data ∨ kv.1.take 5 = "http_".data then
            strReplaceChar '_' '-' (pyTitle (kv.1.drop 5))
          else pyTitle kv.1
        pySet acc key (some kv.2))
      seeded
  else []

/-- The `text_mime_types` whitelist of `RequestMaker`. -/
def text_mime_types : List Str :=
  ["text/html".data, "text/plain".data, "text/calendar".data,
   "application/xml".data, "application/json".data, "application/ld+json".data,
   "text/javascript".data, "text/javascript".data]

/-- Models `RequestMaker.make_body_from_raw` (request.py lines 894-905): sniffs
the MIME type (the external `magic` library is the `sniff` parameter);
a non-text-like buffer is wrapped into an anonymous `FileStorage`, a
text-like one is returned unchanged. -/
def make_body_from_raw (sniff : Bytes → Str) (input : Bytes) : PyVal :=
  let mime := sniff input
  if ¬ (text_mime_types.contains mime) then .vfile Option.none input mime input.length
  else .vbytes input

/-- The field-accumulation loop of `RequestMaker.make_body_from_form`
(request.py lines 919-931): the first occurrence of a key is a scalar
`FieldStorage`, the second rewrites it into a two-element list, later
ones append. -/
def formLoop : List (Str × Str) → List (Str × PyVal) → List (Str × PyVal)
  | [], acc => acc
  | (k, v) :: rest, acc =>
    match pyGet acc k with
    | some (.vlist l) => formLoop rest (pySet acc k (.vlist (l ++ [.vfield k v])))
    | some existing => formLoop rest (pySet acc k (.vlist [existing, .vfield k v]))
    | Option.none => formLoop rest (pySet acc k (.vfield k v))

/-- Models `RequestMaker.make_body_from_form`: URL-decodes the buffer under the
resolved charset (a `UnicodeDecodeError` propagates — only
`ApplicationException` is caught by `make`) and accumulates fields. -/
def make_body_from_form (other : Str → Bytes → Except CodecErr Str)
    (headers : List (Str × Str)) (input : Bytes) : Except Exc PyVal :=
  match codecDecode other (rmCharset headers) input with
  | .error e => .error e
  | .ok text => .ok (.vdict (formLoop (parse_qsl text) []))

/-- The dict value recorded for one multipart part. -/
def MPEntry.toPyVal : MPEntry → PyVal
  | .fileEntry fn ct c sz =>
    .vdict [("filename".data, .vstr fn), ("content_type".data, .vstr ct),
      ("content".data, .vbytes c), ("size".data, .vint sz)]
  | .fieldEntry t => .vstr t

/-- The `for part in parser` loop of
`RequestMaker.make_body_from_multipart`. -/
def mpLoop : List MPart → List (Str × PyVal) → Except Exc (List (Str × PyVal))
  | [], acc => .ok acc
  | p :: rest, acc =>
    match processPart p with
    | .error e => .error e
    | .ok (n, e) => mpLoop rest (pySet acc n e.toPyVal)

/-- Models `RequestMaker.make_body_from_multipart` (request.py lines 933-973):
takes the text after the last `boundary=` of the `content-type` header
(raising `ValueError` when that is empty), hands the buffer to the
external `MultipartParser` (the `mparser` parameter), and folds the
parts; exceptions are printed and re-raised. -/
def make_body_from_multipart (mparser : Bytes → Str → List MPart)
    (headers : List (Str × Str)) (input : Bytes) : Except Exc PyVal :=
  let content_type := (pyGet headers "content-type".data).getD []
  let boundary := (pySplit "boundary=".data content_type).getLastD []
  if boundary = [] then
    .error (.mk .valueErr Option.none "Boundary not found in Content-Type".data)
  else
    match mpLoop (mparser input boundary) [] with
    | .error e => .error e
    | .ok fields => .ok (.vdict fields)

/-- Models `re.sub(r'/+', '/', ...)`: collapse runs of slashes. -/
def collapseSlashes : Str → Str
  | [] => []
  | c :: rest =>
    match rest with
    | '/' :: _ => if c = '/' then collapseSlashes rest else c :: collapseSlashes rest
    | _ => c :: collapseSlashes rest

/-- The pair-by-pair loop of decoding the ASGI header byte pairs into
the `RequestMaker.headers` dict (insertion order, last write wins). -/
def decodeHeaderPairsGo (acc : List (Str × Str)) :
    List (Bytes × Bytes) → Except Exc (List (Str × Str))
  | [] => .ok acc
  | (k, v) :: rest =>
    match pyDecodeUtf8 k with
    | .error e => .error e
    | .ok k' =>
      match pyDecodeUtf8 v with
      | .error e => .error e
      | .ok v' => decodeHeaderPairsGo (pySet acc k' v') rest

/-- Models `dict((key.decode('utf-8'), value.decode('utf-8')) for key, value in
scope['headers'])`. -/
def decodeHeaderPairs (pairs : List (Bytes × Bytes)) : Except Exc (List (Str × Str)) :=
  decodeHeaderPairsGo [] pairs

/-- The external collaborators of `RequestMaker`: the `magic` MIME
sniffer and the `MultipartParser`. -/
structure RMEnv where
  sniff : Bytes → Str := fun _ => "application/octet-stream".data
  mparser : Bytes → Str → List MPart := fun _ _ => []
  codecs : Str → Bytes → Except CodecErr Str :=
    fun _ _ => .error (.lookup "unknown encoding".data)

/-- The `self.request_type`-directed decoder selection of
`RequestMaker.make`: only `multipart`, `form` and `json` have a
`make_body_from_*` method (`hasattr`), so every other classification —
including none at all — takes the raw path; the body buffer comes from
the receive channel (`none` when that blocks forever). -/
def rmBody (env : RMEnv) (headers : List (Str × Str)) (rtype : Option Str)
    (msgs : List InMsg) : Option (Except Exc PyVal) :=
  match rtype with
  | some t =>
    if t = "multipart".data then
      (get_request_body msgs).map (make_body_from_multipart env.mparser headers)
    else if t = "form".data then
      (get_request_body msgs).map (make_body_from_form env.codecs headers)
    else if t = "json".data then
      (get_request_body msgs).map (make_body_from_json env.codecs headers)
    else
      (get_request_body msgs).map (fun i => .ok (make_body_from_raw env.sniff i))
  | Option.none =>
    (get_request_body msgs).map (fun i => .ok (make_body_from_raw env.sniff i))

/-- The `except ApplicationException as ex: wsgi_input = ex` catch of
`RequestMaker.make`: only an `ApplicationException` becomes the request
body; every other exception propagates. -/
def rmCatch : Except Exc PyVal → Except Exc PyVal
  | .error e => if e.kind = .applicationExc then .ok (.vexc e) else .error e
  | .ok v => .ok v

/-- Models `RequestMaker.__init__` + `RequestMaker.make` (request.py lines
804-1038): decode the scope headers and query string, classify the
request type, materialize the body through the matching
`make_body_from_*` decoder (only `multipart`, `form` and `json` exist as
methods; every other classification — and none — takes the raw path),
catch only `ApplicationException` into a request-carried exception, and
construct the `Request` with its classification flags.  `none` models a
body fetch blocked forever on the receive channel. -/
def rmMake (env : RMEnv) (events : EventsStorage) (scope : Scope)
    (msgs : List InMsg) : Option (Except Exc Request) :=
  match (match scope.headers with
         | some pairs => decodeHeaderPairs pairs
         | Option.none => .ok []) with
  | .error e => some (.error e)
  | .ok headers =>
    match (match scope.query_string with
           | some qb => (pyDecodeUtf8 qb).map some
           | Option.none => .ok Option.none) with
    | .error e => some (.error e)
    | .ok queryString =>
      match (match scope.raw_path with
             | some rp => (pyDecodeUtf8 rp).map some
             | Option.none => .ok Option.none) with
      | .error e => some (.error e)
      | .ok rawPath =>
        match rmBody env headers (request_type headers) msgs with
        | Option.none => Option.none
        | some bodyE =>
          match rmCatch bodyE with
          | .error e => some (.error e)
          | .ok wsgi_input =>
            some (.ok (Request.init scope.type scope.scheme scope.method
              (make_headers headers) wsgi_input
              (request_type headers = some "json".data)
              (request_type headers = some "xml".data)
              (request_type headers = some "multipart".data ∨
                request_type headers = some "form".data)
              (request_type headers).isNone (rawPath.getD []) (queryString.getD [])
              events.init_request))

/-- Models `AsgiTransport.make_request` (server.py lines 150-168): any exception
from request construction is re-raised as
`ApplicationException(status=500, reason=ae, ...)`. -/
def make_request (env : RMEnv) (events : EventsStorage) (scope : Scope)
    (msgs : List InMsg) : Option (Except Exc Request) :=
  match rmMake env events scope msgs with
  | Option.none => Option.none
  | some (.ok r) => some (.ok r)
  | some (.error ae) => some (.error (.withCause .applicationExc (some 500) ae.reason ae))

/-- Models `AsgiTransport.handler` (server.py lines 58-72): build the request
(an exception from `make_request` escapes uncaught, so nothing is sent)
and hand it to the server; `none` models a connection blocked on the
receive channel. -/
def transport_handler (cfg : Config) (env : RMEnv) (scope : Scope)
    (msgs : List InMsg) : Option DOut :=
  match make_request env cfg.events scope msgs with
  | Option.none => Option.none
  | some (.error e) => some { result := .error e, handlerCalls := 0 }
  | some (.ok request) => some (server_handler cfg scope request)

/-! ## Claim C2: lifespan acknowledgments -/

/-- The handshake scope of a lifespan connection. -/
def lifespanScope : Scope := { type := some "lifespan".data }

/-- An HTTP `OPTIONS` handshake scope. -/
def optionsScope : Scope :=
  { type := some "http".data, method := some "OPTIONS".data }

/-- An `OPTIONS` request entering dispatch. -/
def optionsRequest : Request :=
  Request.init (some "http".data) (some "http".data) (some "OPTIONS".data) []
    (.vbytes []) false false false true [] [] []

/-- A routing instance matching every request with a handler that
returns a string. -/
def alwaysRoute : Instance :=
  { get_current_route := fun _ =>
      (some { handler := fun _ _ => .ok (.val (.vstr "hi".data)) }, []) }

/-- A server configuration with one registered routing table. -/
def cfgC1 : Config := { instances := [("api".data, alwaysRoute)] }

/-! ## Claim C5: tuple return-value normalization -/

/-- A routing instance whose handler returns the 2-tuple
`("hello", 201)`. -/
def tupleRoute : Instance :=
  { get_current_route := fun _ =>
      (some { handler := fun _ _ => .ok (.val (.vtuple [.vstr "hello".data, .vint 201])) }, []) }

/-- A server configuration registering `tupleRoute`. -/
def cfgC5 : Config := { instances := [("api".data, tupleRoute)] }

/-- An HTTP `POST` handshake scope. -/
def postScope : Scope := { type := some "http".data, method := some "POST".data }

/-- A plain `POST` request entering dispatch. -/
def postRequest : Request :=
  Request.init (some "http".data) (some "http".data) (some "post".data) []
    (.vbytes []) false false false true [] [] []

/-- The handshake scope of a form-encoded `POST`. -/
def formScope : Scope :=
  { type := some "http".data
    method := some "POST".data
    headers := some [("content-type".data.map Char.toNat,
      "application/x-www-form-urlencoded".data.map Char.toNat)] }

/-- A single-chunk body holding the byte `0xFF`, which is not valid
UTF-8. -/
def formMsgs : List InMsg :=
  [{ type := httpRequestT, body := some [0xFF], more_body := some false }]

/-- The handshake scope of a JSON `POST`. -/
def jsonScope : Scope :=
  { type := some "http".data
    method := some "POST".data
    headers := some [("content-type".data.map Char.toNat,
      "application/json".data.map Char.toNat)] }

/-- A single-chunk body holding the invalid JSON text `\x7b`. -/
def jsonBadMsgs : List InMsg :=
  [{ type := httpRequestT, body := some ("\x7b".data.map Char.toNat), more_body := some false }]

/-- The request that `RequestMaker.make` builds for `jsonScope` /
`jsonBadMsgs`: it carries the decoders' `ApplicationException`. -/
def jsonBadReq : Request :=
  Request.init (some "http".data) Option.none (some "POST".data)
    (make_headers [("content-type".data, "application/json".data)])
    (.vexc (.withCause .applicationExc Option.none "JSON DECODE ERROR".data
      (.mk .jsonDecodeErr Option.none "Expecting value".data)))
    true false false false [] [] []

/-! ## Claim C8: the JSON decoder round trip (make_body_from_json) -/

/-- The `PyVal` values that are images of valid JSON documents under
`json.loads`: exactly the shapes the parser can produce from valid JSON
text, with pairwise-distinct member names in every object (a Python dict
holds each key once) and floats carried as the canonical number literal
the serializer would print for them (`Infinity`/`NaN` are not valid
JSON). -/
inductive JsonDoc : PyVal → Prop where
  | null : JsonDoc .none
  | bool (b : Bool) : JsonDoc (.vbool b)
  | int (n : Int) : JsonDoc (.vint n)
  | float (lit : Str) (h : floatLitB lit = true) : JsonDoc (.vfloat lit)
  | str (s : Str) : JsonDoc (.vstr s)
  | list (xs : List PyVal) (h : ∀ x ∈ xs, JsonDoc x) : JsonDoc (.vlist xs)
  | dict (ms : List (Str × PyVal)) (h : ∀ m ∈ ms, JsonDoc m.2)
      (hpw : ms.Pairwise (fun a b => a.1 ≠ b.1)) : JsonDoc (.vdict ms)

/-- Does the text start with a decimal digit? -/
def startsDigitB : Str → Bool
  | [] => false
  | c :: _ => isDigit c

def tenPowGo : Nat → Nat → Nat
  | 0, _ => 1
  | fuel + 1, n => if n < 10 then 10 else 10 * tenPowGo fuel (n / 10)

def ParsesBack (d : PyVal) : Prop :=
  ∀ fuel rest, (encodeJson d).length + 1 ≤ fuel → startsNumExt rest = false →
    parseValue fuel (encodeJson d ++ rest) = some (d, rest)

/-- A sample JSON document exercising objects, arrays, negative numbers,
strings with an escape, and booleans. -/
def jsonDocEx : PyVal :=
  .vdict [("a".data, .vlist [.vint (-12), .vstr "x\n".data, .vfloat "2.5e-3".data]),
    ("b".data, .vbool true)]

theorem get_request_body_loop_chunks (rest : List Bytes) (c acc : Bytes) :
    get_request_body_loop acc (chunksToMessages (c :: rest)) =
      some (acc ++ (c :: rest).flatten) := by
  induction rest generalizing c acc with
  | nil =>
    simp [chunksToMessages, get_request_body_loop, httpRequestT, lifespanStartupT]
  | cons c' rest' ih =>
    simp only [chunksToMessages, get_request_body_loop, httpRequestT, lifespanStartupT]
    norm_num
    rw [ih c' (acc ++ c)]
    simp

/-- C7: For every byte sequence split into N chunks delivered as
`http.request` messages with `more_body` true on all but the last, the
raw body materialized by `RequestMaker.get_request_body` equals the
concatenation of the chunks in arrival order, for every N ≥ 1 and every
split point choice (chunking-invariance). -/
theorem chunking_invariance (chunks : List Bytes) (h : chunks ≠ []) :
    get_request_body (chunksToMessages chunks) = some chunks.flatten := by
  match chunks, h with
  | c :: rest, _ => simpa using get_request_body_loop_chunks rest c []

theorem chunking_invariance_witness :
    ([[104], [105, 33], []] : List Bytes) ≠ [] ∧
      get_request_body (chunksToMessages [[104], [105, 33], []]) = some [104, 105, 33] :=
  ⟨by decide, by simpa using chunking_invariance [[104], [105, 33], []] (by decide)⟩

/-- C10: For every `Request` whose `is_buffer` classification flag is true
and whose stored body value is present, the `body` property returns `None`
(neither the stored buffer value nor an error); and the `AttributeException`
on the `body` property is raised exactly when the stored body value is
absent. -/
theorem body_property_buffer_none_and_error_iff (r : Request) :
    (r._is_buffer = true → r._body ≠ PyVal.none → r.body = .ok PyVal.none) ∧
      ((∃ e, r.body = .error e) ↔ r._body = PyVal.none) := by
  have hcase : r._body = PyVal.none ∨
      r.body = .ok (if r._is_buffer then PyVal.none else r._body) := by
    cases hb : r._body <;> simp [Request.body, hb]
  constructor
  · intro hbuf hsome
    rcases hcase with h | h
    · exact absurd h hsome
    · rw [h, if_pos hbuf]
  · constructor
    · rintro ⟨e, he⟩
      rcases hcase with h | h
      · exact h
      · rw [h] at he
        exact absurd he (by simp)
    · intro h
      exact ⟨Exc.mk .attributeExc Option.none "request.body is empty".data,
        by simp [Request.body, h]⟩

theorem body_property_buffer_none_and_error_iff_witness :
    bufferRequestEx.body = .ok PyVal.none ∧ ¬∃ e, bufferRequestEx.body = .error e := by
  refine ⟨(body_property_buffer_none_and_error_iff bufferRequestEx).1 rfl (by simp [bufferRequestEx, Request.init]), fun hex => ?_⟩
  have h := (body_property_buffer_none_and_error_iff bufferRequestEx).2.mp hex
  simp [bufferRequestEx, Request.init] at h

theorem pyGet_pySet_same {V : Type} (d : List (Str × V)) (k : Str) (v : V) :
    pyGet (pySet d k v) k = some v := by
  induction d with
  | nil => simp [pySet, pyGet]
  | cons p rest ih =>
    by_cases h : p.1 = k <;> simp [pySet, pyGet, h, ih]

theorem pyGet_pySet_other {V : Type} (d : List (Str × V)) {k' k : Str} (v : V)
    (h : k' ≠ k) : pyGet (pySet d k' v) k = pyGet d k := by
  induction d with
  | nil => simp [pySet, pyGet, h]
  | cons p rest ih =>
    obtain ⟨k₀, v₀⟩ := p
    by_cases hp : k₀ = k'
    · subst hp
      simp [pySet, pyGet, h]
    · simp [pySet, pyGet, hp, ih]

theorem pyGet_pyDel_other {V : Type} (d : List (Str × V)) {k' k : Str}
    (h : k' ≠ k) : pyGet (pyDel d k') k = pyGet d k := by
  induction d with
  | nil => simp [pyDel]
  | cons p rest ih =>
    obtain ⟨k₀, v₀⟩ := p
    by_cases hp : k₀ = k'
    · subst hp
      simp [pyDel, pyGet, h]
    · simp [pyDel, pyGet, hp, ih]

theorem pyGet_qsAdd_same (d : List (Str × List Str)) (k : Str) (v : Str) :
    pyGet (qsAdd d k v) k = some ((pyGet d k).getD [] ++ [v]) := by
  induction d with
  | nil => simp [qsAdd, pyGet]
  | cons p rest ih =>
    by_cases h : p.1 = k <;> simp [qsAdd, pyGet, h, ih]

theorem pyGet_qsAdd_other (d : List (Str × List Str)) {k' k : Str} (v : Str)
    (h : k' ≠ k) : pyGet (qsAdd d k' v) k = pyGet d k := by
  induction d with
  | nil => simp [qsAdd, pyGet, h]
  | cons p rest ih =>
    obtain ⟨k₀, v₀⟩ := p
    by_cases hp : k₀ = k'
    · subst hp
      simp [qsAdd, pyGet, h]
    · simp [qsAdd, pyGet, hp, ih]

theorem countKeys_qsAdd_other (d : List (Str × List Str)) {k' k : Str} (v : Str)
    (h : k' ≠ k) : countKeys (qsAdd d k' v) k = countKeys d k := by
  induction d with
  | nil => simp [qsAdd, countKeys, h]
  | cons p rest ih =>
    by_cases hp : p.1 = k' <;> simp [qsAdd, countKeys, hp, ih]

theorem countKeys_qsAdd_le_one (d : List (Str × List Str)) (k' k : Str) (v : Str)
    (h : countKeys d k ≤ 1) : countKeys (qsAdd d k' v) k ≤ 1 := by
  induction d with
  | nil =>
    by_cases hk : k' = k <;> simp [qsAdd, countKeys, hk]
  | cons p rest ih =>
    by_cases hp : p.1 = k'
    · simpa [qsAdd, hp, countKeys] using h
    · simp only [qsAdd, hp, if_neg, countKeys] at h ⊢
      by_cases hpk : p.1 = k
      · have hk : k' ≠ k := fun hh => hp (hpk.trans hh.symm)
        simp [hpk] at h ⊢
        simpa [countKeys_qsAdd_other rest v hk] using h
      · simp [hpk] at h ⊢
        exact ih h

theorem countKeys_eq_zero_pyGet {V : Type} (d : List (Str × V)) (k : Str)
    (h : countKeys d k = 0) : pyGet d k = Option.none := by
  induction d with
  | nil => rfl
  | cons p rest ih =>
    by_cases hp : p.1 = k
    · simp [countKeys, hp] at h
    · simp [countKeys, hp] at h
      simp [pyGet, hp, ih, h]

theorem parse_qs_loop_countKeys (pairs : List (Str × Str))
    (acc : List (Str × List Str)) (k : Str) (h : countKeys acc k ≤ 1) :
    countKeys (parse_qs_loop acc pairs) k ≤ 1 := by
  induction pairs generalizing acc with
  | nil => simpa [parse_qs_loop] using h
  | cons p rest ih =>
    exact ih (qsAdd acc p.1 p.2) (countKeys_qsAdd_le_one acc p.1 k p.2 h)

theorem parse_qs_loop_free (pairs : List (Str × Str)) (acc : List (Str × List Str))
    (k : Str) (h : valuesOf pairs k = []) :
    pyGet (parse_qs_loop acc pairs) k = pyGet acc k := by
  induction pairs generalizing acc with
  | nil => rfl
  | cons p rest ih =>
    by_cases hp : p.1 = k
    · simp [valuesOf, hp] at h
    · simp only [valuesOf, hp, if_neg] at h
      rw [parse_qs_loop, ih _ h, pyGet_qsAdd_other _ _ hp]

theorem parse_qs_loop_single (pairs : List (Str × Str)) (acc : List (Str × List Str))
    (k : Str) (v : Str) (hv : valuesOf pairs k = [v])
    (hacc : pyGet acc k = Option.none) :
    pyGet (parse_qs_loop acc pairs) k = some [v] := by
  induction pairs generalizing acc with
  | nil => simp [valuesOf] at hv
  | cons p rest ih =>
    by_cases hp : p.1 = k
    · simp only [valuesOf, hp, if_pos, List.cons.injEq] at hv
      obtain ⟨rfl, hrest⟩ := hv
      rw [parse_qs_loop, parse_qs_loop_free rest _ k hrest, hp,
        pyGet_qsAdd_same, hacc]
      rfl
    · simp only [valuesOf, hp, if_neg] at hv
      rw [parse_qs_loop]
      exact ih _ hv (by rw [pyGet_qsAdd_other _ _ hp, hacc])

theorem query_loop_free (groups : List (Str × List Str)) (acc : List (Str × QVal))
    (k : Str) (h : pyGet groups k = Option.none) :
    pyGet (query_loop acc groups) k = pyGet acc k := by
  induction groups generalizing acc with
  | nil => rfl
  | cons p rest ih =>
    by_cases hp : p.1 = k
    · simp [pyGet, hp] at h
    · simp only [pyGet, hp, if_neg] at h
      rw [query_loop, ih _ h, pyGet_pySet_other _ _ hp]

theorem query_loop_at (groups : List (Str × List Str)) (acc : List (Str × QVal))
    (k : Str) (vs : List Str) (hcnt : countKeys groups k ≤ 1)
    (h : pyGet groups k = some vs) :
    pyGet (query_loop acc groups) k = some (collapseGroup vs) := by
  induction groups generalizing acc with
  | nil => simp [pyGet] at h
  | cons p rest ih =>
    obtain ⟨k₀, vs₀⟩ := p
    by_cases hp : k₀ = k
    · subst hp
      simp only [pyGet, if_pos, Option.some.injEq] at h
      simp only [countKeys, if_pos] at hcnt
      have hrest : pyGet rest k₀ = Option.none :=
        countKeys_eq_zero_pyGet rest k₀ (by omega)
      rw [query_loop, query_loop_free rest _ k₀ hrest, h, pyGet_pySet_same]
    · simp only [pyGet, hp, if_neg] at h
      simp only [countKeys, hp, if_neg] at hcnt
      rw [query_loop]
      exact ih _ (by omega) h

theorem m_query_loop_free (pairs : List (Str × Str)) (acc : List (Str × QVal))
    (k : Str) (h : valuesOf pairs k = []) :
    pyGet (m_query_loop acc pairs) k = pyGet acc k := by
  induction pairs generalizing acc with
  | nil => rfl
  | cons p rest ih =>
    obtain ⟨k', v⟩ := p
    by_cases hp : k' = k
    · simp [valuesOf, hp] at h
    · simp only [valuesOf, hp, if_neg] at h
      rw [m_query_loop]
      match hacc : pyGet acc k' with
      | some (.scalar old) =>
        simp only
        rw [ih _ h, pyGet_pySet_other _ _ hp, pyGet_pySet_other _ _ hp,
          pyGet_pyDel_other _ hp]
      | some (.list vs) =>
        simp only
        rw [ih _ h, pyGet_pySet_other _ _ hp]
      | Option.none =>
        simp only
        rw [ih _ h, pyGet_pySet_other _ _ hp]

theorem m_query_loop_single (pairs : List (Str × Str)) (acc : List (Str × QVal))
    (k : Str) (v : Str) (hv : valuesOf pairs k = [v])
    (hacc : pyGet acc k = Option.none) :
    pyGet (m_query_loop acc pairs) k = some (.scalar v) := by
  induction pairs generalizing acc with
  | nil => simp [valuesOf] at hv
  | cons p rest ih =>
    obtain ⟨k', v'⟩ := p
    by_cases hp : k' = k
    · simp only [valuesOf, hp, if_pos, List.cons.injEq] at hv
      obtain ⟨rfl, hrest⟩ := hv
      rw [m_query_loop]
      subst hp
      rw [hacc]
      simp only
      rw [m_query_loop_free rest _ k' hrest, pyGet_pySet_same]
    · simp only [valuesOf, hp, if_neg] at hv
      rw [m_query_loop]
      match hacc' : pyGet acc k' with
      | some (.scalar old) =>
        simp only
        refine ih _ hv ?_
        rw [pyGet_pySet_other _ _ hp, pyGet_pySet_other _ _ hp,
          pyGet_pyDel_other _ hp, hacc]
      | some (.list vs) =>
        simp only
        refine ih _ hv ?_
        rw [pyGet_pySet_other _ _ hp, hacc]
      | Option.none =>
        simp only
        refine ih _ hv ?_
        rw [pyGet_pySet_other _ _ hp, hacc]

/-- C6: For the query string `a=1&a=2`, both the `query` and `m_query`
derived views map `a` to the ordered two-element list `[1, 2]`; and for
every query string in which a key occurs exactly once (resp. not at all)
in the parsed pair list, both views map that key to the same scalar value
(resp. to nothing) — the two merge policies agree on 0 and 1 occurrences
and on the two-occurrence example. -/
theorem query_merge_policies (qs : Str) (k : Str) :
    (pyGet (requestWithQuery "a=1&a=2".data).query "a".data =
        some (.list ["1".data, "2".data]) ∧
      pyGet (requestWithQuery "a=1&a=2".data).m_query "a".data =
        some (.list ["1".data, "2".data])) ∧
    (∀ v, valuesOf (parse_qsl qs) k = [v] →
      pyGet (requestWithQuery qs).query k = some (.scalar v) ∧
        pyGet (requestWithQuery qs).m_query k = some (.scalar v)) ∧
    (valuesOf (parse_qsl qs) k = [] →
      pyGet (requestWithQuery qs).query k = Option.none ∧
        pyGet (requestWithQuery qs).m_query k = Option.none) := by
  refine ⟨⟨by decide, by decide⟩, ?_, ?_⟩
  · intro v hv
    have hq : (requestWithQuery qs)._query = qs := rfl
    constructor
    · rw [Request.query, hq, parse_qs]
      have hg : pyGet (parse_qs_loop [] (parse_qsl qs)) k = some [v] :=
        parse_qs_loop_single _ _ _ _ hv rfl
      have hc : countKeys (parse_qs_loop ([] : List (Str × List Str)) (parse_qsl qs)) k ≤ 1 :=
        parse_qs_loop_countKeys _ _ _ (by simp [countKeys])
      rw [query_loop_at _ _ _ _ hc hg]
      rfl
    · rw [Request.m_query, hq]
      exact m_query_loop_single _ _ _ _ hv rfl
  · intro hv
    have hq : (requestWithQuery qs)._query = qs := rfl
    constructor
    · rw [Request.query, hq, parse_qs]
      have h0 : pyGet (parse_qs_loop ([] : List (Str × List Str)) (parse_qsl qs)) k =
          Option.none := by
        rw [parse_qs_loop_free _ _ _ hv]
        rfl
      rw [query_loop_free _ _ _ h0]
      rfl
    · rw [Request.m_query, hq]
      rw [m_query_loop_free _ _ _ hv]
      rfl

theorem query_merge_policies_witness :
    valuesOf (parse_qsl "b=7&c=8".data) "b".data = ["7".data] ∧
      pyGet (requestWithQuery "b=7&c=8".data).query "b".data =
        some (.scalar "7".data) := by
  refine ⟨by decide, ?_⟩
  exact ((query_merge_policies "b=7&c=8".data "b".data).2.1 "7".data (by decide)).1

/-- C4 (code bug): after `save(path)`, `filepath` does point at the new
path and the bytes on disk at the new path are the original contents, and
closing the original temporary handle a second time is a no-op — but a
subsequent `load()` cannot read the bytes at the new path: the replacement
handle was opened `'wb'` (write-only), so `fp.read()` fails with
`io.UnsupportedOperation` instead of returning the saved bytes. -/
theorem save_updates_filepath_but_load_unreadable :
    (∀ h : Handle, hClose (hClose h) = hClose h) ∧
    ∃ fs st, fsSaveRun = .ok (fs, st) ∧
      st.filepath = "/data/out.bin".data ∧
      pyGet fs.files "/data/out.bin".data = some [1, 2, 3] ∧
      st.fp.mode = .writeOnly ∧
      FileStorage.load fs st =
        .error (.mk .unsupportedOperation Option.none "not readable".data) := by
  refine ⟨fun h => rfl, ?_⟩
  exact ⟨_, _, rfl, rfl, rfl, rfl, rfl⟩

theorem utf8DecodeGo_ascii (s : Str) (h : ∀ c ∈ s, c.toNat < 0x80) :
    utf8DecodeGo s.length (s.map Char.toNat) = some s := by
  induction s with
  | nil => rfl
  | cons c rest ih =>
    have hc : c.toNat < 0x80 := h c (by simp)
    have hrest := ih (fun c' hc' => h c' (by simp [hc']))
    simp only [List.map, List.length, utf8DecodeGo, utf8DecodeChar]
    rw [if_pos hc]
    simp [hrest, Char.ofNat_toNat]

/-- For a string of ASCII characters, `str.encode('utf-8')` is the
bytewise code-point image and decoding it restores the string. -/
theorem utf8_roundtrip_ascii (s : Str) (h : ∀ c ∈ s, c.toNat < 0x80) :
    utf8Encode s = s.map Char.toNat ∧ utf8Decode (utf8Encode s) = some s := by
  have henc : utf8Encode s = s.map Char.toNat := by
    induction s with
    | nil => rfl
    | cons c rest ih =>
      have hc : c.toNat < 0x80 := h c (by simp)
      have := ih (fun c' hc' => h c' (by simp [hc']))
      simp only [utf8Encode, List.flatMap] at this ⊢
      simp [utf8EncodeChar, hc, this]
  refine ⟨henc, ?_⟩
  rw [utf8Decode, henc]
  simpa using utf8DecodeGo_ascii s h

/-- C9: every file part is read twice — the recorded `content` is the
first read (the stream's remaining bytes) and the recorded `size` is the
length of a second read of the same, by then fully consumed, stream: the
length of `content.drop content.length`, i.e. always 0. -/
theorem multipart_file_part_double_read (part : MPart) (name : Str)
    (filename content_type : Str) (content : Bytes) (size : Nat)
    (h : processPart part = .ok (name, .fileEntry filename content_type content size)) :
    content = (streamRead part.fileBytes part.filePos).1 ∧
      size = (streamRead part.fileBytes (streamRead part.fileBytes part.filePos).2).1.length ∧
      size = 0 := by
  simp only [processPart, bind, Except.bind] at h
  split at h
  · split at h
    · simp at h
    · split at h
      · simp at h
      · split at h
        · simp at h
        · simp only [streamRead, Except.ok.injEq, Prod.mk.injEq,
            MPEntry.fileEntry.injEq] at h
          obtain ⟨-, -, -, hc, hs⟩ := h
          refine ⟨hc.symm, ?_, ?_⟩ <;> simp [streamRead, ← hs]
  · split at h
    · simp at h
    · split at h
      · simp at h
      · simp at h

theorem multipart_file_part_double_read_witness :
    processPart mpartEx =
      .ok ("f".data, .fileEntry "a.txt".data "text/plain".data [7, 8, 9] 0) ∧
    ([7, 8, 9] : Bytes) = (streamRead mpartEx.fileBytes mpartEx.filePos).1 ∧
      0 = (streamRead mpartEx.fileBytes
            (streamRead mpartEx.fileBytes mpartEx.filePos).2).1.length ∧
      (0 : Nat) = 0 :=
  ⟨rfl,
    multipart_file_part_double_read mpartEx "f".data "a.txt".data "text/plain".data
      [7, 8, 9] 0 rfl⟩

/-- C2 (code bug): a lifespan connection that receives
`\x7btype: "lifespan.startup"\x7d` completes with NO message emitted —
in particular no `lifespan.startup.complete`.  The body materializer
reduces the lifespan message to the raw bytes `b''`, which
`make_body_from_raw` leaves as a buffer-classified body, so
`response.request.body` is `None` in the transport's lifespan branch and
neither acknowledgment branch fires, whatever the MIME sniffer says. -/
theorem lifespan_dispatch_drops_ack (v : PyVal)
    (h₁ : (match v with | .vexc _ => true | _ => false) = false)
    (h₂ : v ≠ .none) :
    server_handler {} lifespanScope
        (Request.init (some "lifespan".data) Option.none Option.none [] v
          false false false true [] [] []) =
      { result := .ok [], handlerCalls := 0 } := by
  cases v <;> first
    | rfl
    | exact absurd rfl h₂
    | simp at h₁

theorem lifespan_startup_not_acknowledged (sniff : Bytes → Str)
    (mparser : Bytes → Str → List MPart) :
    transport_handler {} { sniff := sniff, mparser := mparser } lifespanScope
        [{ type := lifespanStartupT }] =
      some { result := .ok [], handlerCalls := 0 } := by
  have hkey : transport_handler {} { sniff := sniff, mparser := mparser } lifespanScope
      [{ type := lifespanStartupT }] =
      some (server_handler {} lifespanScope
        (Request.init (some "lifespan".data) Option.none Option.none []
          (make_body_from_raw sniff []) false false false true [] [] [])) := by
    unfold transport_handler make_request rmMake
    rfl
  rw [hkey]
  unfold make_body_from_raw
  by_cases hm : text_mime_types.contains (sniff []) = true
  · rw [if_neg (not_not_intro hm)]
    rw [lifespan_dispatch_drops_ack _ rfl (by simp)]
  · rw [if_pos hm]
    rw [lifespan_dispatch_drops_ack _ rfl (by simp)]

/-! ## Claim C1: OPTIONS requests -/

theorem make_response_options (cfg : Config) (scope : Scope) (resp : Resp)
    (ht : scope.type = some "http".data) (hm : scope.method = some "OPTIONS".data) :
    make_response cfg scope resp =
      .ok [.httpResponseStart 204
          (cfg.events.before_response.foldl (fun r f => f r) resp).headers,
        .httpResponseBody []] := by
  simp [make_response, ht, hm]

theorem send_error_options (cfg : Config) (scope : Scope) (err : Option Exc)
    (request : Option Request)
    (ht : scope.type = some "http".data) (hm : scope.method = some "OPTIONS".data)
    (heh : cfg.errorHandler ≠ .noneCls) :
    ∃ hdrs, send_error cfg scope err request =
      .ok [.httpResponseStart 204 hdrs, .httpResponseBody []] := by
  unfold send_error
  match hcfg : cfg.errorHandler with
  | .noneCls => exact absurd hcfg heh
  | .excSubclass h =>
    exact ⟨_, make_response_options cfg scope _ ht hm⟩
  | .plainCls =>
    exact ⟨_, make_response_options cfg scope _ ht hm⟩

/-- C1 (amended): for every HTTP-scoped connection whose method is
`OPTIONS` — whatever the request, the routing configuration or the
handler — the transport emits exactly a status-204 start message and an
empty body message, provided no static prefix matches (the static branch
sends nothing at all) and an error-handler class is configured (the
`None` default makes `send_error` itself raise `TypeError`).  The claim's
other half is false: the dispatcher still invokes a matched route
handler, whose response the transport then discards
(`options_invokes_handler_counterexample`). -/
theorem options_always_204_empty (cfg : Config) (scope : Scope) (request : Request)
    (ht : scope.type = some "http".data) (hm : scope.method = some "OPTIONS".data)
    (hstatic : cfg.hasStatic request = false)
    (heh : cfg.errorHandler ≠ .noneCls) :
    ∃ hdrs, (server_handler cfg scope request).result =
      .ok [.httpResponseStart 204 hdrs, .httpResponseBody []] := by
  unfold server_handler
  by_cases hexc : request.is_exception = true
  · simp only [hexc, if_pos]
    simpa using send_error_options cfg scope _ _ ht hm heh
  · simp only [eq_false_of_ne_true hexc, Bool.false_eq_true, if_neg, not_false_iff, hstatic]
    unfold handle_request
    by_cases hty : request.type = some "lifespan".data ∨ request.type = Option.none
    · simp only [hty, if_pos]
      exact ⟨_, make_response_options cfg scope _ ht hm⟩
    · simp only [hty, if_neg, not_false_iff]
      cases hbr : brScan cfg.events.before_request request with
      | some resp =>
        simp only [hbr]
        exact ⟨_, make_response_options cfg scope _ ht hm⟩
      | none =>
        simp only [hbr]
        cases hrt : routeScan cfg.instances request with
        | none =>
          simp only [hrt]
          simpa using send_error_options cfg scope _ _ ht hm heh
        | some tup =>
          obtain ⟨call, dictionary, inst, request'⟩ := tup
          simp only [hrt]
          by_cases hred : (call.redirect.getD []) ≠ []
          · rw [if_pos hred]
            simpa using send_error_options cfg scope _ _ ht hm heh
          · rw [if_neg hred]
            cases hh : call.handler request' dictionary with
            | error e =>
              simp only [hh]
              simpa using send_error_options cfg scope _ _ ht hm heh
            | ok hret =>
              simp only [hh]
              cases hn : normalizeHRet request' hret with
              | error e =>
                simp only [hn]
                simpa using send_error_options cfg scope _ _ ht hm heh
              | ok resp =>
                simp only [hn]
                rw [make_response_options cfg scope _ ht hm]
                exact ⟨_, rfl⟩

/-- C1 counterexample: on an `OPTIONS` request whose route matches, the
dispatcher invokes the route handler (`handlerCalls = 1`, not 0) — the
claim's "never invokes the matched route handler" is false; the transport
still emits 204 with an empty body. -/
theorem options_invokes_handler_counterexample :
    (server_handler cfgC1 optionsScope optionsRequest).handlerCalls = 1 ∧
      (server_handler cfgC1 optionsScope optionsRequest).result =
        .ok [.httpResponseStart 204 [], .httpResponseBody []] :=
  ⟨rfl, rfl⟩

theorem options_always_204_empty_witness :
    ∃ hdrs, (server_handler cfgC1 optionsScope optionsRequest).result =
      .ok [.httpResponseStart 204 hdrs, .httpResponseBody []] :=
  options_always_204_empty cfgC1 optionsScope optionsRequest rfl rfl rfl
    (fun h => ErrorHandlerCfg.noConfusion h)

/-- C5 (code bug): normalizing the 2-tuple `("hello", 201)` raises
`IndexError` — the guards are off by one (`len(resp) >= 2` guards
`resp[2]`, which exists only from length 3 on) — so the dispatch of a
handler returning it funnels into the error path and emits status 500
instead of the 201 response the tuple describes; a 3-tuple is normalized
as the claim states. -/
theorem tuple2_normalization_index_error :
    normalizeHRet postRequest (.val (.vtuple [.vstr "hello".data, .vint 201])) =
      .error (.mk .indexErr Option.none "list index out of range".data) ∧
    server_handler cfgC5 postScope postRequest =
      { result := .ok [.httpResponseStart 500 [], .httpResponseBody []], handlerCalls := 1 } ∧
    normalizeHRet postRequest (.val (.vtuple [.vstr "hello".data, .vint 201, .vlist []])) =
      .ok { status := .vint 201
            body := .vstr "hello".data
            headers := []
            request := some postRequest } :=
  ⟨rfl, rfl, rfl⟩

/-! ## Claim C3: decoder failures

The decoders raise exceptions whose `status` attribute is unset, so the
error path always reports 500; and only the JSON decoder's
`ApplicationException` is caught by `make` into a request-carried
exception — other decoder failures propagate out of request
construction. -/

theorem pyIndex_error_eq {α : Type} (l : List α) (i : Nat) (e : Exc)
    (h : pyIndex l i = .error e) :
    e = .mk .indexErr Option.none "list index out of range".data := by
  unfold pyIndex at h
  split at h
  · simp only [Except.error.injEq] at h
    exact h.symm
  · exact absurd h (by simp)

theorem pyDecodeUtf8_error_eq (bs : Bytes) (e : Exc)
    (h : pyDecodeUtf8 bs = .error e) :
    e = .mk .unicodeDecodeErr Option.none "invalid utf-8".data := by
  unfold pyDecodeUtf8 at h
  split at h
  · exact absurd h (by simp)
  · simp only [Except.error.injEq] at h
    exact h.symm

theorem codecDecode_error_kind (other : Str → Bytes → Except CodecErr Str)
    (cs : Str) (bs : Bytes) (e : Exc) (h : codecDecode other cs bs = .error e) :
    e.status = Option.none ∧ (e.kind = .unicodeDecodeErr ∨ e.kind = .lookupErr) := by
  unfold codecDecode at h
  split at h
  · rw [pyDecodeUtf8_error_eq _ _ h]
    exact ⟨rfl, Or.inl rfl⟩
  · split at h
    · exact absurd h (by simp)
    · split at h
      · exact absurd h (by simp)
      · simp only [Except.error.injEq] at h
        rw [← h]
        exact ⟨rfl, Or.inl rfl⟩
      · simp only [Except.error.injEq] at h
        rw [← h]
        exact ⟨rfl, Or.inr rfl⟩

theorem codecDecode_error_status (other : Str → Bytes → Except CodecErr Str)
    (cs : Str) (bs : Bytes) (e : Exc) (h : codecDecode other cs bs = .error e) :
    e.status = Option.none :=
  (codecDecode_error_kind other cs bs e h).1

theorem processPart_error_status (p : MPart) (e : Exc)
    (h : processPart p = .error e) : e.status = Option.none := by
  simp only [processPart, bind, Except.bind] at h
  split at h
  · split at h
    · rename_i e₁ heq
      rw [Except.error.injEq] at h
      rw [← h, pyIndex_error_eq _ _ _ heq]
      rfl
    · split at h
      · rename_i e₁ heq
        rw [Except.error.injEq] at h
        rw [← h, pyIndex_error_eq _ _ _ heq]
        rfl
      · split at h
        · rename_i e₁ heq
          rw [Except.error.injEq] at h
          rw [← h, pyIndex_error_eq _ _ _ heq]
          rfl
        · exact absurd h (by simp)
  · split at h
    · rename_i e₁ heq
      rw [Except.error.injEq] at h
      rw [← h, pyIndex_error_eq _ _ _ heq]
      rfl
    · split at h
      · rename_i e₁ heq
        rw [Except.error.injEq] at h
        rw [← h, pyDecodeUtf8_error_eq _ _ heq]
        rfl
      · exact absurd h (by simp)

theorem mpLoop_error_status (parts : List MPart) (acc : List (Str × PyVal)) (e : Exc)
    (h : mpLoop parts acc = .error e) : e.status = Option.none := by
  induction parts generalizing acc with
  | nil => exact absurd h (by simp [mpLoop])
  | cons p rest ih =>
    unfold mpLoop at h
    split at h
    · rename_i e₁ heq
      rw [Except.error.injEq] at h
      rw [← h]
      exact processPart_error_status p e₁ heq
    · exact ih _ h

theorem make_body_from_multipart_error_status (mp : Bytes → Str → List MPart)
    (headers : List (Str × Str)) (input : Bytes) (e : Exc)
    (h : make_body_from_multipart mp headers input = .error e) :
    e.status = Option.none := by
  simp only [make_body_from_multipart] at h
  split at h
  · simp only [Except.error.injEq] at h
    rw [← h]
    rfl
  · split at h
    · rename_i e₁ heq
      rw [Except.error.injEq] at h
      rw [← h]
      exact mpLoop_error_status _ _ _ heq
    · exact absurd h (by simp)

theorem make_body_from_form_error_status (other : Str → Bytes → Except CodecErr Str)
    (headers : List (Str × Str)) (input : Bytes)
    (e : Exc) (h : make_body_from_form other headers input = .error e) :
    e.status = Option.none := by
  unfold make_body_from_form at h
  split at h
  · rename_i e₁ heq
    rw [Except.error.injEq] at h
    rw [← h]
    exact codecDecode_error_status _ _ _ _ heq
  · exact absurd h (by simp)

theorem json_loads_error_eq (text : Str) (e : Exc) (h : json_loads text = .error e) :
    e.kind = .jsonDecodeErr ∧ e.status = Option.none := by
  unfold json_loads at h
  split at h
  · split at h
    · exact absurd h (by simp)
    · simp only [Except.error.injEq] at h
      rw [← h]
      exact ⟨rfl, rfl⟩
  · simp only [Except.error.injEq] at h
    rw [← h]
    exact ⟨rfl, rfl⟩

theorem make_body_from_json_error_status (other : Str → Bytes → Except CodecErr Str)
    (headers : List (Str × Str)) (input : Bytes)
    (e : Exc) (h : make_body_from_json other headers input = .error e) :
    e.status = Option.none := by
  unfold make_body_from_json at h
  split at h
  · split at h
    · rename_i e₁ heq
      split at h
      · simp only [Except.error.injEq] at h
        rw [← h]
        rfl
      · simp only [Except.error.injEq] at h
        rw [← h]
        exact codecDecode_error_status _ _ _ _ heq
    · split at h
      · exact absurd h (by simp)
      · rename_i e₁ heq
        split at h
        · simp only [Except.error.injEq] at h
          rw [← h]
          rfl
        · simp only [Except.error.injEq] at h
          rw [← h]
          exact (json_loads_error_eq _ _ heq).2
  · exact absurd h (by simp)

theorem parseNumber_not_exc (neg : Bool) (s : Str) (v : PyVal) (r : Str)
    (h : parseNumber neg s = some (v, r)) : ∀ e, v ≠ .vexc e := by
  intro e
  simp only [parseNumber] at h
  split at h
  · split at h <;>
      (simp only [Option.some.injEq, Prod.mk.injEq] at h
       rcases h with ⟨h₁, -⟩
       rw [← h₁]
       simp)
  · exact absurd h (by simp)

theorem parseValue_not_exc (fuel : Nat) (s : Str) (v : PyVal) (r : Str)
    (h : parseValue fuel s = some (v, r)) : ∀ e, v ≠ .vexc e := by
  intro e
  match fuel with
  | 0 => exact absurd h (by simp [parseValue])
  | fuel + 1 =>
    unfold parseValue at h
    split at h <;> try split at h <;> try split at h
    all_goals
      first
      | (simp only [Option.some.injEq, Prod.mk.injEq] at h
         rcases h with ⟨h₁, -⟩
         rw [← h₁]
         simp)
      | (simp only [Option.map_eq_some'] at h
         obtain ⟨p, -, h₁⟩ := h
         simp only [Prod.mk.injEq] at h₁
         rcases h₁ with ⟨h₂, -⟩
         rw [← h₂]
         simp)
      | exact parseNumber_not_exc _ _ _ _ h e
      | simp at h

theorem make_body_from_raw_not_exc (sniff : Bytes → Str) (input : Bytes) (e : Exc) :
    make_body_from_raw sniff input ≠ .vexc e := by
  simp only [make_body_from_raw]
  split <;> simp

theorem make_body_from_form_not_exc (other : Str → Bytes → Except CodecErr Str)
    (headers : List (Str × Str)) (input : Bytes)
    (v : PyVal) (e : Exc) (h : make_body_from_form other headers input = .ok v) :
    v ≠ .vexc e := by
  unfold make_body_from_form at h
  split at h
  · exact absurd h (by simp)
  · simp only [Except.ok.injEq] at h
    rw [← h]
    simp

theorem make_body_from_multipart_not_exc (mp : Bytes → Str → List MPart)
    (headers : List (Str × Str)) (input : Bytes) (v : PyVal) (e : Exc)
    (h : make_body_from_multipart mp headers input = .ok v) : v ≠ .vexc e := by
  simp only [make_body_from_multipart] at h
  split at h
  · exact absurd h (by simp)
  · split at h
    · exact absurd h (by simp)
    · simp only [Except.ok.injEq] at h
      rw [← h]
      simp

theorem make_body_from_json_not_exc (other : Str → Bytes → Except CodecErr Str)
    (headers : List (Str × Str)) (input : Bytes)
    (v : PyVal) (e : Exc) (h : make_body_from_json other headers input = .ok v) :
    v ≠ .vexc e := by
  unfold make_body_from_json at h
  split at h
  · split at h
    · split at h <;> exact absurd h (by simp)
    · split at h
      · rename_i v' heq
        unfold json_loads at heq
        split at heq
        · split at heq
          · simp only [Except.ok.injEq] at heq h
            rw [← h, ← heq]
            rename_i p hp _
            exact parseValue_not_exc _ _ _ _ hp e
          · exact absurd heq (by simp)
        · exact absurd heq (by simp)
      · split at h <;> exact absurd h (by simp)
  · simp only [Except.ok.injEq] at h
    rw [← h]
    simp

theorem rmBody_error_status (env : RMEnv) (headers : List (Str × Str))
    (rtype : Option Str) (msgs : List InMsg) (e : Exc)
    (h : rmBody env headers rtype msgs = some (.error e)) :
    e.status = Option.none := by
  unfold rmBody at h
  split at h
  · split at h
    · simp only [Option.map_eq_some'] at h
      obtain ⟨i, -, h₁⟩ := h
      exact make_body_from_multipart_error_status _ _ _ _ h₁
    · split at h
      · simp only [Option.map_eq_some'] at h
        obtain ⟨i, -, h₁⟩ := h
        exact make_body_from_form_error_status _ _ _ _ h₁
      · split at h
        · simp only [Option.map_eq_some'] at h
          obtain ⟨i, -, h₁⟩ := h
          exact make_body_from_json_error_status _ _ _ _ h₁
        · simp only [Option.map_eq_some'] at h
          obtain ⟨i, -, h₁⟩ := h
          exact absurd h₁ (by simp)
  · simp only [Option.map_eq_some'] at h
    obtain ⟨i, -, h₁⟩ := h
    exact absurd h₁ (by simp)

theorem rmBody_ok_not_exc (env : RMEnv) (headers : List (Str × Str))
    (rtype : Option Str) (msgs : List InMsg) (v : PyVal) (e : Exc)
    (h : rmBody env headers rtype msgs = some (.ok v)) : v ≠ .vexc e := by
  unfold rmBody at h
  split at h
  · split at h
    · simp only [Option.map_eq_some'] at h
      obtain ⟨i, -, h₁⟩ := h
      exact make_body_from_multipart_not_exc _ _ _ _ _ h₁
    · split at h
      · simp only [Option.map_eq_some'] at h
        obtain ⟨i, -, h₁⟩ := h
        exact make_body_from_form_not_exc _ _ _ _ _ h₁
      · split at h
        · simp only [Option.map_eq_some'] at h
          obtain ⟨i, -, h₁⟩ := h
          exact make_body_from_json_not_exc _ _ _ _ _ h₁
        · simp only [Option.map_eq_some'] at h
          obtain ⟨i, -, h₁⟩ := h
          simp only [Except.ok.injEq] at h₁
          rw [← h₁]
          exact make_body_from_raw_not_exc _ _ _
  · simp only [Option.map_eq_some'] at h
    obtain ⟨i, -, h₁⟩ := h
    simp only [Except.ok.injEq] at h₁
    rw [← h₁]
    exact make_body_from_raw_not_exc _ _ _

/-- Every exception that ends up carried on a `Request` built by
`RequestMaker.make` (with no `init_request` hooks registered) is the
decoders' `ApplicationException`, which is constructed without a `status`
attribute. -/
theorem rmMake_carried_exception (env : RMEnv) (events : EventsStorage)
    (scope : Scope) (msgs : List InMsg) (req : Request)
    (hhooks : events.init_request = [])
    (hmk : rmMake env events scope msgs = some (.ok req))
    (hexc : req.is_exception = true) :
    ∃ e, req.exception = some e ∧ e.status = Option.none := by
  unfold rmMake at hmk
  split at hmk
  · simp at hmk
  · split at hmk
    · simp at hmk
    · split at hmk
      · simp at hmk
      · split at hmk
        · simp at hmk
        · rename_i headers queryString rawPath bodyE hbody
          split at hmk
          · simp at hmk
          · rename_i wsgi hcatch
            simp only [Option.some.injEq, Except.ok.injEq] at hmk
            subst hmk
            rw [hhooks] at hexc ⊢
            simp only [Request.init, List.foldl_nil] at hexc ⊢
            match wsgi with
            | .vexc e =>
              refine ⟨e, by simp [Request.exception], ?_⟩
              unfold rmCatch at hcatch
              split at hcatch
              · split at hcatch
                · simp only [Except.ok.injEq, PyVal.vexc.injEq] at hcatch
                  subst hcatch
                  exact rmBody_error_status _ _ _ _ _ hbody
                · exact absurd hcatch (by simp)
              · simp only [Except.ok.injEq] at hcatch
                exact absurd hcatch (rmBody_ok_not_exc _ _ _ _ _ e hbody)
            | .none => simp [Request.is_exception] at hexc
            | .vbool b => simp [Request.is_exception] at hexc
            | .vint n => simp [Request.is_exception] at hexc
            | .vstr s => simp [Request.is_exception] at hexc
            | .vbytes b => simp [Request.is_exception] at hexc
            | .vlist xs => simp [Request.is_exception] at hexc
            | .vtuple xs => simp [Request.is_exception] at hexc
            | .vdict d => simp [Request.is_exception] at hexc
            | .vfield n v' => simp [Request.is_exception] at hexc
            | .vfile n v' m' b' => simp [Request.is_exception] at hexc

theorem errorHandlerScan_preserves (l : List (Str × Instance)) (resp : Resp)
    (req : Option Request) :
    (errorHandlerScan l resp req).status = resp.status ∧
      (errorHandlerScan l resp req).headers = resp.headers := by
  induction l generalizing resp with
  | nil => exact ⟨rfl, rfl⟩
  | cons p rest ih =>
    unfold errorHandlerScan
    split
    · exact ⟨rfl, rfl⟩
    · exact ih resp

/-- With the default error-handler configuration, `send_error` on an
exception without a `status` attribute emits exactly a status-500 start
message and one body message (for a non-`OPTIONS` http scope with no
`before_response` hooks). -/
theorem send_error_plain_500 (cfg : Config) (scope : Scope) (e : Exc)
    (request : Option Request) (m : Str)
    (heh : cfg.errorHandler = .plainCls)
    (hstatus : e.status = Option.none)
    (ht : scope.type = some "http".data)
    (hm : scope.method = some m) (hopt : m ≠ "OPTIONS".data)
    (hbr : cfg.events.before_response = []) :
    ∃ hdrs bdy, send_error cfg scope (some e) request =
      .ok [.httpResponseStart 500 hdrs, .httpResponseBody bdy] := by
  have hscan := errorHandlerScan_preserves cfg.instances
    (BadResponse 500 (.vstr e.reason)
      (match e.cause with
       | some c => .vexc c
       | Option.none => .vstr e.reason) .none request) request
  simp only [send_error, heh, hstatus, Option.getD_none]
  unfold make_response
  rw [ht]
  simp +decide only [hm, hbr, List.foldl_nil, if_true, if_false]
  rw [if_neg hopt]
  rw [hscan.1]
  exact ⟨_, _, rfl⟩

/-- C3 (amended): an inbound call whose body decoder fails with the
application-level decode failure (`ApplicationException` — the JSON
decoder's wrap of charset or JSON errors) still yields a `Request`
carrying the failure, and dispatching it emits a status-500 (non-2xx)
response without invoking any route handler — under the default error
configuration, for a non-`OPTIONS` http method, with no static match and
no registered hooks.  Decoder failures of other exception classes (e.g.
the form decoder's `UnicodeDecodeError`) do NOT yield a `Request`: they
escape request construction (`form_decode_failure_no_request`), and for
`OPTIONS` the transport's preflight short-circuit emits 204 instead of a
non-2xx status. -/
theorem decode_failure_dispatch (cfg : Config) (env : RMEnv) (scope : Scope)
    (msgs : List InMsg) (req : Request) (m : Str)
    (hhooks : cfg.events.init_request = [])
    (hmk : rmMake env cfg.events scope msgs = some (.ok req))
    (hexc : req.is_exception = true)
    (ht : scope.type = some "http".data)
    (hm : scope.method = some m) (hopt : m ≠ "OPTIONS".data)
    (heh : cfg.errorHandler = .plainCls)
    (hbr : cfg.events.before_response = []) :
    (server_handler cfg scope req).handlerCalls = 0 ∧
      ∃ hdrs bdy, (server_handler cfg scope req).result =
        .ok [.httpResponseStart 500 hdrs, .httpResponseBody bdy] := by
  obtain ⟨e, hex, hst⟩ := rmMake_carried_exception env cfg.events scope msgs req hhooks hmk hexc
  unfold server_handler
  rw [hexc, hex]
  rw [if_pos (rfl : (true : Bool) = true)]
  exact ⟨rfl, send_error_plain_500 cfg scope e (some req) m heh hst ht hm hopt hbr⟩

/-- C3 counterexample: a form-encoded call whose body decoder fails with
`UnicodeDecodeError` does NOT yield a `Request` carrying the failure —
`make` catches only `ApplicationException`, so the error escapes request
construction, is re-wrapped by `make_request`, and propagates out of the
transport handler with nothing emitted. -/
theorem form_decode_failure_no_request :
    transport_handler {} {} formScope formMsgs =
      some { result := .error (.withCause .applicationExc (some 500)
              "invalid utf-8".data (.mk .unicodeDecodeErr Option.none "invalid utf-8".data))
             handlerCalls := 0 } :=
  rfl

theorem decode_failure_dispatch_witness :
    (server_handler {} jsonScope jsonBadReq).handlerCalls = 0 ∧
      ∃ hdrs bdy, (server_handler {} jsonScope jsonBadReq).result =
        .ok [.httpResponseStart 500 hdrs, .httpResponseBody bdy] :=
  decode_failure_dispatch {} {} jsonScope jsonBadMsgs jsonBadReq "POST".data
    rfl rfl rfl rfl rfl (by decide) rfl rfl

theorem skipWs_cons (c : Char) (t : Str) (h32 : c.toNat ≠ 32) (h9 : c.toNat ≠ 9)
    (h10 : c.toNat ≠ 10) (h13 : c.toNat ≠ 13) : skipWs (c :: t) = c :: t := by
  have : ¬(c = ' ' ∨ c = '\t' ∨ c = '\n' ∨ c = '\r') := by
    rintro (rfl | rfl | rfl | rfl)
    · exact h32 rfl
    · exact h9 rfl
    · exact h10 rfl
    · exact h13 rfl
  simp [skipWs, List.dropWhile, this]

theorem parseDigitsGo_stop (acc : Nat) (rest : Str) (h : startsDigitB rest = false) :
    parseDigitsGo acc rest = (acc, rest) := by
  cases rest with
  | nil => rfl
  | cons c t =>
    simp only [startsDigitB] at h
    simp [parseDigitsGo, h]

theorem natDecGo_head_digit : ∀ fuel n, n < fuel →
    ∃ c t, natDecGo fuel n = c :: t ∧ isDigit c = true := by
  intro fuel
  induction fuel with
  | zero => intro n h; omega
  | succ f ih =>
    intro n h
    by_cases h10 : n < 10
    · refine ⟨Char.ofNat (48 + n), [], ?_, ?_⟩
      · simp [natDecGo, h10]
      · interval_cases n <;> decide
    · have h1 : n / 10 < f := by omega
      obtain ⟨c, t, hct, hc⟩ := ih (n / 10) h1
      exact ⟨c, t ++ [Char.ofNat (48 + n % 10)], by simp [natDecGo, h10, hct], hc⟩

theorem toNat_ofNat_digit (m : Nat) (h : m < 10) : (Char.ofNat (48 + m)).toNat = 48 + m := by
  interval_cases m <;> decide

theorem isDigit_ofNat_digit (m : Nat) (h : m < 10) : isDigit (Char.ofNat (48 + m)) = true := by
  interval_cases m <;> decide

theorem parseDigitsGo_natDecGo : ∀ fuel n acc rest, n < fuel →
    parseDigitsGo acc (natDecGo fuel n ++ rest) =
      parseDigitsGo (acc * tenPowGo fuel n + n) rest := by
  intro fuel
  induction fuel with
  | zero => intro n acc rest h; omega
  | succ f ih =>
    intro n acc rest h
    by_cases h10 : n < 10
    · simp only [natDecGo, h10, if_pos, List.cons_append, List.nil_append,
        tenPowGo, if_true]
      simp only [parseDigitsGo, isDigit_ofNat_digit n h10, if_true,
        toNat_ofNat_digit n h10]
      have : acc * 10 + (48 + n - 48) = acc * 10 + n := by omega
      rw [this]
    · have h1 : n / 10 < f := by omega
      have hm : n % 10 < 10 := by omega
      simp only [natDecGo, h10, if_false, tenPowGo, List.append_assoc,
        List.cons_append, List.nil_append]
      rw [show (Char.ofNat (48 + n % 10) :: rest) = [Char.ofNat (48 + n % 10)] ++ rest from rfl,
        ih (n / 10) acc ([Char.ofNat (48 + n % 10)] ++ rest) h1]
      simp only [List.cons_append, List.nil_append]
      simp only [parseDigitsGo, isDigit_ofNat_digit (n % 10) hm, if_true,
        toNat_ofNat_digit (n % 10) hm]
      have harg : (acc * tenPowGo f (n / 10) + n / 10) * 10 + (48 + n % 10 - 48) =
          acc * (10 * tenPowGo f (n / 10)) + n := by
        have key : n / 10 * 10 + n % 10 = n := by omega
        have h48 : 48 + n % 10 - 48 = n % 10 := by omega
        rw [h48]
        calc (acc * tenPowGo f (n / 10) + n / 10) * 10 + n % 10
            = acc * tenPowGo f (n / 10) * 10 + (n / 10 * 10 + n % 10) := by ring
          _ = acc * (10 * tenPowGo f (n / 10)) + n := by rw [key]; ring
      rw [harg]

theorem parseDigitsGo_natToDec (n : Nat) (rest : Str) (h : startsDigitB rest = false) :
    parseDigitsGo 0 (natToDec n ++ rest) = (n, rest) := by
  rw [natToDec, parseDigitsGo_natDecGo (n + 1) n 0 rest (by omega)]
  simp only [Nat.zero_mul, Nat.zero_add]
  exact parseDigitsGo_stop n rest h

theorem parseIntDigits_cons (c : Char) (t : Str) :
    parseIntDigits (c :: t) =
      if c = '0' then some (['0'], t)
      else if isDigit c = true then some (c :: (spanDigits t).1, (spanDigits t).2)
      else Option.none := rfl

theorem parseFrac_cons (c : Char) (t : Str) :
    parseFrac (c :: t) =
      if c = '.' then
        if (spanDigits t).1 = [] then ([], c :: t)
        else (c :: (spanDigits t).1, (spanDigits t).2)
      else ([], c :: t) := rfl

theorem parseExp_cons_cons (c c₂ : Char) (rest₂ : Str) :
    parseExp (c :: c₂ :: rest₂) =
      if c = 'e' ∨ c = 'E' then
        if c₂ = '+' ∨ c₂ = '-' then
          if (spanDigits rest₂).1 = [] then ([], c :: c₂ :: rest₂)
          else (c :: c₂ :: (spanDigits rest₂).1, (spanDigits rest₂).2)
        else
          if (spanDigits (c₂ :: rest₂)).1 = [] then ([], c :: rest₂.cons c₂)
          else (c :: (spanDigits (c₂ :: rest₂)).1, (spanDigits (c₂ :: rest₂)).2)
      else ([], c :: c₂ :: rest₂) := rfl

theorem parseExp_one (c : Char) : parseExp [c] = ([], [c]) := by
  show (if c = 'e' ∨ c = 'E' then (([] : Str), [c]) else ([], [c])) = ([], [c])
  split <;> rfl

theorem spanDigits_exact (d r : Str) (hd : ∀ c ∈ d, isDigit c = true)
    (hr : startsDigitB r = false) : spanDigits (d ++ r) = (d, r) := by
  induction d with
  | nil =>
    cases r with
    | nil => rfl
    | cons c t =>
      simp only [startsDigitB] at hr
      simp [spanDigits, List.takeWhile, List.dropWhile, hr]
  | cons c d' ih =>
    have hc := hd c (by simp)
    have ih' := ih (fun x hx => hd x (by simp [hx]))
    simp only [spanDigits, Prod.mk.injEq] at ih'
    simp only [spanDigits, List.cons_append, List.takeWhile_cons, List.dropWhile_cons,
      hc, if_true, Prod.mk.injEq]
    exact ⟨by rw [ih'.1], ih'.2⟩

theorem mem_takeWhile_digit (s : Str) : ∀ c ∈ s.takeWhile isDigit, isDigit c = true := by
  intro c hc
  exact List.mem_takeWhile_imp hc

theorem spanDigits_split (s : Str) : s = (spanDigits s).1 ++ (spanDigits s).2 :=
  (List.takeWhile_append_dropWhile isDigit s).symm

theorem parseIntDigits_head (s : Str) (ip r : Str) (h : parseIntDigits s = some (ip, r)) :
    ∃ c t, s = c :: t ∧ isDigit c = true := by
  cases s with
  | nil => exact absurd h (by simp [parseIntDigits])
  | cons c t =>
    refine ⟨c, t, rfl, ?_⟩
    rw [parseIntDigits_cons] at h
    split at h
    · rename_i hc; rw [hc]; decide
    · split at h
      · assumption
      · exact absurd h (by simp)

theorem parseIntDigits_digits (s : Str) (ip r : Str)
    (h : parseIntDigits s = some (ip, r)) : ∀ c ∈ ip, isDigit c = true := by
  cases s with
  | nil => exact absurd h (by simp [parseIntDigits])
  | cons c t =>
    rw [parseIntDigits_cons] at h
    split at h
    · simp only [Option.some.injEq, Prod.mk.injEq] at h
      intro x hx
      rw [← h.1] at hx
      simp at hx
      rw [hx]
      decide
    · split at h
      · rename_i hc0 hc
        simp only [Option.some.injEq, Prod.mk.injEq] at h
        intro x hx
        rw [← h.1] at hx
        simp only [List.mem_cons] at hx
        rcases hx with rfl | hx
        · assumption
        · exact mem_takeWhile_digit t x hx
      · exact absurd h (by simp)

theorem parseIntDigits_append (t ip r₁ rest : Str)
    (h : parseIntDigits t = some (ip, r₁)) (hnd : startsDigitB (r₁ ++ rest) = false) :
    parseIntDigits (t ++ rest) = some (ip, r₁ ++ rest) := by
  cases t with
  | nil => exact absurd h (by simp [parseIntDigits])
  | cons c t' =>
    rw [parseIntDigits_cons] at h
    rw [List.cons_append, parseIntDigits_cons]
    split at h
    · rename_i hc
      rw [if_pos hc]
      simp only [Option.some.injEq, Prod.mk.injEq] at h
      rw [← h.1, ← h.2]
    · split at h
      · rename_i hc0 hc
        rw [if_neg hc0, if_pos hc]
        simp only [Option.some.injEq, Prod.mk.injEq] at h
        have hspan : spanDigits (t' ++ rest) = ((spanDigits t').1, r₁ ++ rest) := by
          conv_lhs => rw [spanDigits_split t']
          rw [List.append_assoc]
          rw [show (spanDigits t').2 ++ rest = r₁ ++ rest from by rw [h.2]]
          exact spanDigits_exact _ _ (mem_takeWhile_digit t') hnd
        rw [hspan]
        simp only [Option.some.injEq, Prod.mk.injEq]
        exact ⟨h.1, trivial⟩
      · exact absurd h (by simp)

theorem parseFrac_stop (s : Str) (h : ∀ c t, s = c :: t → c ≠ '.') :
    parseFrac s = ([], s) := by
  cases s with
  | nil => rfl
  | cons c t => rw [parseFrac_cons, if_neg (h c t rfl)]

theorem parseExp_stop (s : Str) (h : ∀ c t, s = c :: t → c ≠ 'e' ∧ c ≠ 'E') :
    parseExp s = ([], s) := by
  cases s with
  | nil => rfl
  | cons c t =>
    cases t with
    | nil => exact parseExp_one c
    | cons c₂ s₂ =>
      rw [parseExp_cons_cons]
      rw [if_neg (by rintro (rfl | rfl) <;> [exact (h _ _ rfl).1 rfl; exact (h _ _ rfl).2 rfl])]

theorem parseFrac_shape (s fp r : Str) (h : parseFrac s = (fp, r)) (hne : fp ≠ []) :
    ∃ ds, fp = '.' :: ds ∧ ds ≠ [] ∧ (∀ c ∈ ds, isDigit c = true) ∧
      s = '.' :: (ds ++ r) := by
  cases s with
  | nil =>
    rw [show parseFrac ([] : Str) = (([] : Str), ([] : Str)) from rfl] at h
    simp only [Prod.mk.injEq] at h
    exact absurd h.1.symm hne
  | cons c t =>
    rw [parseFrac_cons] at h
    split at h
    · rename_i hc
      split at h
      · simp only [Prod.mk.injEq] at h
        exact absurd h.1.symm hne
      · rename_i hds
        simp only [Prod.mk.injEq] at h
        refine ⟨(spanDigits t).1, by rw [← h.1, hc], hds, mem_takeWhile_digit t, ?_⟩
        rw [hc, ← h.2]
        have := spanDigits_split t
        exact congrArg ('.' :: ·) this
    · simp only [Prod.mk.injEq] at h
      exact absurd h.1.symm hne

theorem parseFrac_nil_residue (s r : Str) (h : parseFrac s = ([], r)) : r = s := by
  cases s with
  | nil =>
    rw [show parseFrac ([] : Str) = (([] : Str), ([] : Str)) from rfl] at h
    simp only [Prod.mk.injEq] at h
    exact h.2.symm
  | cons c t =>
    rw [parseFrac_cons] at h
    split at h
    · split at h
      · simp only [Prod.mk.injEq] at h
        exact h.2.symm
      · simp only [Prod.mk.injEq] at h
        exact absurd h.1.symm (by simp)
    · simp only [Prod.mk.injEq] at h
      exact h.2.symm

theorem parseFrac_append (s fp r₂ rest : Str) (h : parseFrac s = (fp, r₂))
    (hne : fp ≠ []) (hnd : startsDigitB (r₂ ++ rest) = false) :
    parseFrac (s ++ rest) = (fp, r₂ ++ rest) := by
  obtain ⟨ds, hfp, hds, hdig, hs⟩ := parseFrac_shape s fp r₂ h hne
  rw [hs]
  simp only [List.cons_append, List.append_assoc]
  rw [parseFrac_cons, if_pos rfl]
  rw [spanDigits_exact ds (r₂ ++ rest) hdig hnd]
  rw [if_neg hds]
  rw [hfp]

theorem parseExp_shape_head (s ep r : Str) (h : parseExp s = (ep, r)) (hne : ep ≠ []) :
    ∃ t, ep = 'e' :: t ∨ ep = 'E' :: t := by
  cases s with
  | nil =>
    rw [show parseExp ([] : Str) = (([] : Str), ([] : Str)) from rfl] at h
    simp only [Prod.mk.injEq] at h
    exact absurd h.1.symm hne
  | cons c t =>
    cases t with
    | nil =>
      rw [parseExp_one] at h
      simp only [Prod.mk.injEq] at h
      exact absurd h.1.symm hne
    | cons c₂ s₂ =>
      rw [parseExp_cons_cons] at h
      split at h
      · rename_i he
        split at h
        · split at h
          · simp only [Prod.mk.injEq] at h
            exact absurd h.1.symm hne
          · simp only [Prod.mk.injEq] at h
            rcases he with rfl | rfl
            · exact ⟨_, Or.inl (by rw [← h.1])⟩
            · exact ⟨_, Or.inr (by rw [← h.1])⟩
        · split at h
          · simp only [Prod.mk.injEq] at h
            exact absurd h.1.symm hne
          · simp only [Prod.mk.injEq] at h
            rcases he with rfl | rfl
            · exact ⟨_, Or.inl (by rw [← h.1])⟩
            · exact ⟨_, Or.inr (by rw [← h.1])⟩
      · simp only [Prod.mk.injEq] at h
        exact absurd h.1.symm hne

theorem startsNumExt_cons_props (c : Char) (t rest : Str) (hct : rest = c :: t)
    (hrest : startsNumExt rest = false) :
    isDigit c = false ∧ c ≠ '.' ∧ c ≠ 'e' ∧ c ≠ 'E' := by
  rw [hct] at hrest
  simp only [startsNumExt, Bool.or_eq_false_iff, decide_eq_false_iff_not] at hrest
  push_neg at hrest
  exact ⟨by simpa using hrest.1, hrest.2.1, hrest.2.2.1, hrest.2.2.2⟩

theorem startsDigitB_of_startsNumExt (rest : Str) (hrest : startsNumExt rest = false) :
    startsDigitB rest = false := by
  cases rest with
  | nil => rfl
  | cons c t =>
    simp only [startsDigitB]
    exact (startsNumExt_cons_props c t _ rfl hrest).1

theorem parseExp_append (s ep rest : Str) (h : parseExp s = (ep, []))
    (hrest : startsNumExt rest = false) : parseExp (s ++ rest) = (ep, rest) := by
  have hrestd := startsDigitB_of_startsNumExt rest hrest
  cases s with
  | nil =>
    rw [show parseExp ([] : Str) = (([] : Str), ([] : Str)) from rfl] at h
    simp only [Prod.mk.injEq] at h
    rw [← h.1]
    simp only [List.nil_append]
    exact parseExp_stop rest (fun c t hct =>
      ⟨(startsNumExt_cons_props c t rest hct hrest).2.2.1,
       (startsNumExt_cons_props c t rest hct hrest).2.2.2⟩)
  | cons c t =>
    cases t with
    | nil =>
      rw [parseExp_one] at h
      simp only [Prod.mk.injEq] at h
      exact absurd h.2 (by simp)
    | cons c₂ s₂ =>
      rw [parseExp_cons_cons] at h
      rw [show (c :: c₂ :: s₂) ++ rest = c :: c₂ :: (s₂ ++ rest) from rfl,
        parseExp_cons_cons]
      split at h
      · rename_i he
        rw [if_pos he]
        split at h
        · rename_i hsign
          rw [if_pos hsign]
          split at h
          · simp only [Prod.mk.injEq] at h
            exact absurd h.2 (by simp)
          · rename_i hds
            simp only [Prod.mk.injEq] at h
            have hs₂ : s₂ = (spanDigits s₂).1 := by
              have := spanDigits_split s₂
              rw [h.2] at this
              simpa using this
            have hspan : spanDigits (s₂ ++ rest) = ((spanDigits s₂).1, rest) := by
              conv_lhs => rw [hs₂]
              exact spanDigits_exact _ _ (mem_takeWhile_digit s₂) hrestd
            rw [hspan]
            simp only [hds, if_false]
            rw [← h.1]
        · rename_i hsign
          rw [if_neg hsign]
          split at h
          · simp only [Prod.mk.injEq] at h
            exact absurd h.2 (by simp)
          · rename_i hds
            simp only [Prod.mk.injEq] at h
            have hs₂ : (c₂ :: s₂ : Str) = (spanDigits (c₂ :: s₂)).1 := by
              have := spanDigits_split (c₂ :: s₂)
              rw [h.2] at this
              simpa using this
            have hspan : spanDigits (c₂ :: (s₂ ++ rest)) =
                ((spanDigits (c₂ :: s₂)).1, rest) := by
              rw [show (c₂ :: (s₂ ++ rest) : Str) = (c₂ :: s₂) ++ rest from rfl]
              conv_lhs => rw [hs₂]
              exact spanDigits_exact _ _ (mem_takeWhile_digit (c₂ :: s₂)) hrestd
            rw [hspan]
            simp only [hds, if_false]
            rw [← h.1]
      · simp only [Prod.mk.injEq] at h
        exact absurd h.2 (by simp)

theorem parseExp_split (s ep r : Str) (h : parseExp s = (ep, r)) : s = ep ++ r := by
  cases s with
  | nil =>
    rw [show parseExp ([] : Str) = (([] : Str), ([] : Str)) from rfl] at h
    simp only [Prod.mk.injEq] at h
    rw [← h.1, ← h.2]
    rfl
  | cons c t =>
    cases t with
    | nil =>
      rw [parseExp_one] at h
      simp only [Prod.mk.injEq] at h
      rw [← h.1, ← h.2]
      rfl
    | cons c₂ s₂ =>
      rw [parseExp_cons_cons] at h
      split at h
      · split at h
        · split at h
          · simp only [Prod.mk.injEq] at h
            rw [← h.1, ← h.2]
            rfl
          · simp only [Prod.mk.injEq] at h
            rw [← h.1, ← h.2]
            simp only [List.cons_append, List.cons.injEq, true_and]
            exact spanDigits_split s₂
        · split at h
          · simp only [Prod.mk.injEq] at h
            rw [← h.1, ← h.2]
            rfl
          · simp only [Prod.mk.injEq] at h
            rw [← h.1, ← h.2]
            simp only [List.cons_append, List.cons.injEq, true_and]
            exact spanDigits_split (c₂ :: s₂)
      · simp only [Prod.mk.injEq] at h
        rw [← h.1, ← h.2]
        rfl

theorem parseNumber_head (neg : Bool) (s : Str) (p : PyVal × Str)
    (h : parseNumber neg s = some p) : ∃ c t, s = c :: t ∧ isDigit c = true := by
  simp only [parseNumber] at h
  split at h
  · rename_i ip r₁ heq
    exact parseIntDigits_head s ip r₁ heq
  · exact absurd h (by simp)

theorem parseNumber_eq_of_intDigits (neg : Bool) (s ip r₁ : Str)
    (h : parseIntDigits s = some (ip, r₁)) :
    parseNumber neg s =
      (if (parseFrac r₁).1 = [] ∧ (parseExp (parseFrac r₁).2).1 = [] then
        some (.vint (if neg then -(decToNat ip : Int) else (decToNat ip : Int)), r₁)
      else
        some (.vfloat ((if neg then ['-'] else []) ++ ip ++ (parseFrac r₁).1 ++
          (parseExp (parseFrac r₁).2).1), (parseExp (parseFrac r₁).2).2)) := by
  simp only [parseNumber, h]

theorem parseNumber_append (neg : Bool) (t : Str) (v : PyVal) (rest : Str)
    (h : parseNumber neg t = some (v, [])) (hrest : startsNumExt rest = false) :
    parseNumber neg (t ++ rest) = some (v, rest) := by
  have hrestd := startsDigitB_of_startsNumExt rest hrest
  have hfracStop : parseFrac rest = ([], rest) :=
    parseFrac_stop rest (fun c t' hct => (startsNumExt_cons_props c t' rest hct hrest).2.1)
  have hexpStop : parseExp rest = ([], rest) :=
    parseExp_stop rest (fun c t' hct =>
      ⟨(startsNumExt_cons_props c t' rest hct hrest).2.2.1,
       (startsNumExt_cons_props c t' rest hct hrest).2.2.2⟩)
  obtain ⟨ipr, hip⟩ : ∃ ipr, parseIntDigits t = some ipr := by
    simp only [parseNumber] at h
    split at h
    · rename_i ip r₁ heq
      exact ⟨_, heq⟩
    · exact absurd h (by simp)
  obtain ⟨ip, r₁⟩ := ipr
  rw [parseNumber_eq_of_intDigits neg t ip r₁ hip] at h
  obtain ⟨fp, r₂, hfr⟩ : ∃ fp r₂, parseFrac r₁ = (fp, r₂) := ⟨_, _, rfl⟩
  obtain ⟨ep, r₃, hex⟩ : ∃ ep r₃, parseExp r₂ = (ep, r₃) := ⟨_, _, rfl⟩
  simp only [hfr, hex] at h
  split at h
  · rename_i hcond
    simp only [Option.some.injEq, Prod.mk.injEq] at h
    obtain ⟨hv, hr₁⟩ := h
    subst hr₁
    rw [parseNumber_eq_of_intDigits neg (t ++ rest) ip rest
      (parseIntDigits_append t ip [] rest hip (by simpa using hrestd))]
    simp only [hfracStop, hexpStop]
    rw [if_pos (by simp), hv]
  · rename_i hcond
    simp only [Option.some.injEq, Prod.mk.injEq] at h
    obtain ⟨hv, hr₃⟩ := h
    subst hr₃
    by_cases hfp : fp = []
    · have hr₂ : r₂ = r₁ := parseFrac_nil_residue r₁ r₂ (hfp ▸ hfr)
      subst hr₂
      have hep : ep ≠ [] := fun hepe => hcond ⟨hfp, hepe⟩
      obtain ⟨t', hhd⟩ := parseExp_shape_head r₂ ep [] hex hep
      have hsplit : r₂ = ep := by
        have := parseExp_split r₂ ep [] hex
        simpa using this
      have hnd : startsDigitB (r₂ ++ rest) = false := by
        rw [hsplit]
        rcases hhd with rfl | rfl <;> rfl
      rw [parseNumber_eq_of_intDigits neg (t ++ rest) ip (r₂ ++ rest)
        (parseIntDigits_append t ip r₂ rest hip hnd)]
      rw [parseFrac_stop (r₂ ++ rest) (by
        intro c u hcu hc
        rw [hsplit] at hcu
        rcases hhd with rfl | rfl <;>
          (rw [List.cons_append] at hcu
           injection hcu with h1 h2
           rw [← h1] at hc
           exact absurd hc (by decide)))]
      simp only
      rw [parseExp_append r₂ ep rest hex hrest]
      simp only
      rw [if_neg (fun hc => hep hc.2)]
      rw [hfp] at hv
      rw [hv]
    · obtain ⟨ds, hfpEq, hds, hdig, hsEq⟩ := parseFrac_shape r₁ fp r₂ hfr hfp
      have hnd : startsDigitB (r₁ ++ rest) = false := by
        rw [hsEq]
        rfl
      have hnd₂ : startsDigitB (r₂ ++ rest) = false := by
        by_cases hepe : ep = []
        · have hr2nil : r₂ = [] := by
            have := parseExp_split r₂ ep [] hex
            rw [hepe] at this
            simpa using this
          rw [hr2nil]
          simpa using hrestd
        · obtain ⟨t', hhd⟩ := parseExp_shape_head r₂ ep [] hex hepe
          have hsplit : r₂ = ep := by
            have := parseExp_split r₂ ep [] hex
            simpa using this
          rw [hsplit]
          rcases hhd with rfl | rfl <;> rfl
      rw [parseNumber_eq_of_intDigits neg (t ++ rest) ip (r₁ ++ rest)
        (parseIntDigits_append t ip r₁ rest hip hnd)]
      rw [parseFrac_append r₁ fp r₂ rest hfr hfp hnd₂]
      simp only
      rw [parseExp_append r₂ ep rest hex hrest]
      simp only
      rw [if_neg (fun hc => hfp hc.1)]
      rw [hv]

theorem natDecGo_all_digits : ∀ fuel n, ∀ c ∈ natDecGo fuel n, isDigit c = true := by
  intro fuel
  induction fuel with
  | zero => intro n c hc; simp [natDecGo] at hc
  | succ f ih =>
    intro n c hc
    by_cases h10 : n < 10
    · simp [natDecGo, h10] at hc
      rw [hc]
      exact isDigit_ofNat_digit n h10
    · simp only [natDecGo, h10, if_false, List.mem_append] at hc
      rcases hc with hc | hc
      · exact ih (n / 10) c hc
      · simp at hc
        rw [hc]
        exact isDigit_ofNat_digit (n % 10) (by omega)

theorem natDecGo_head_nonzero : ∀ fuel n, n < fuel → 0 < n →
    ∃ c t, natDecGo fuel n = c :: t ∧ isDigit c = true ∧ c ≠ '0' := by
  intro fuel
  induction fuel with
  | zero => intro n h; omega
  | succ f ih =>
    intro n h hpos
    by_cases h10 : n < 10
    · refine ⟨Char.ofNat (48 + n), [], by simp [natDecGo, h10], isDigit_ofNat_digit n h10, ?_⟩
      interval_cases n <;> decide
    · have h1 : n / 10 < f := by omega
      obtain ⟨c, t, hct, hc, hc0⟩ := ih (n / 10) h1 (by omega)
      exact ⟨c, t ++ [Char.ofNat (48 + n % 10)], by simp [natDecGo, h10, hct], hc, hc0⟩

theorem decToNat_natDecGo : ∀ fuel n acc, n < fuel →
    List.foldl (fun a c => a * 10 + (c.toNat - 48)) acc (natDecGo fuel n) =
      acc * tenPowGo fuel n + n := by
  intro fuel
  induction fuel with
  | zero => intro n acc h; omega
  | succ f ih =>
    intro n acc h
    by_cases h10 : n < 10
    · simp only [natDecGo, h10, if_pos, tenPowGo, if_true, List.foldl_cons, List.foldl_nil]
      rw [toNat_ofNat_digit n h10]
      omega
    · have h1 : n / 10 < f := by omega
      simp only [natDecGo, h10, if_false, tenPowGo, List.foldl_append, List.foldl_cons,
        List.foldl_nil]
      rw [ih (n / 10) acc h1, toNat_ofNat_digit (n % 10) (by omega)]
      have key : 10 * (n / 10) + n % 10 = n := Nat.div_add_mod n 10
      have : (acc * tenPowGo f (n / 10) + n / 10) * 10 + (48 + n % 10 - 48) =
          acc * (10 * tenPowGo f (n / 10)) + n := by
        have h48 : 48 + n % 10 - 48 = n % 10 := by omega
        rw [h48]
        calc (acc * tenPowGo f (n / 10) + n / 10) * 10 + n % 10
            = acc * tenPowGo f (n / 10) * 10 + (n / 10 * 10 + n % 10) := by ring
          _ = acc * (10 * tenPowGo f (n / 10)) + n := by
              rw [show n / 10 * 10 + n % 10 = n by omega]
              ring
      rw [this]

theorem decToNat_natToDec (m : Nat) : decToNat (natToDec m) = m := by
  have := decToNat_natDecGo (m + 1) m 0 (by omega)
  simp only [decToNat, natToDec]
  rw [this]
  omega

theorem parseIntDigits_natToDec (m : Nat) (rest : Str)
    (hrestd : startsDigitB rest = false) :
    parseIntDigits (natToDec m ++ rest) = some (natToDec m, rest) := by
  by_cases hm : 0 < m
  · obtain ⟨c, t, hct, hc, hc0⟩ := natDecGo_head_nonzero (m + 1) m (by omega) hm
    have hall := natDecGo_all_digits (m + 1) m
    rw [show natToDec m = c :: t from hct]
    rw [List.cons_append, parseIntDigits_cons, if_neg hc0, if_pos hc]
    rw [spanDigits_exact t rest (fun x hx => hall x (by rw [hct]; simp [hx])) hrestd]
  · have hm0 : m = 0 := by omega
    subst hm0
    rw [show natToDec 0 = ['0'] from rfl]
    simp only [List.cons_append, List.nil_append]
    rw [parseIntDigits_cons, if_pos rfl]

theorem parseNumber_natToDec (m : Nat) (rest : Str) (hrest : startsNumExt rest = false) :
    parseNumber false (natToDec m ++ rest) = some (.vint (m : Int), rest) ∧
    parseNumber true (natToDec m ++ rest) = some (.vint (-(m : Int)), rest) := by
  have hrestd := startsDigitB_of_startsNumExt rest hrest
  have hid := parseIntDigits_natToDec m rest hrestd
  have hfracStop : parseFrac rest = ([], rest) :=
    parseFrac_stop rest (fun c t' hct => (startsNumExt_cons_props c t' rest hct hrest).2.1)
  have hexpStop : parseExp rest = ([], rest) :=
    parseExp_stop rest (fun c t' hct =>
      ⟨(startsNumExt_cons_props c t' rest hct hrest).2.2.1,
       (startsNumExt_cons_props c t' rest hct hrest).2.2.2⟩)
  constructor <;>
    (rw [parseNumber_eq_of_intDigits _ _ _ _ hid]
     simp only [hfracStop, hexpStop]
     rw [if_pos (by simp)]
     simp [decToNat_natToDec])

set_option maxHeartbeats 2000000 in
theorem parseValue_digit_head (fuel : Nat) (s : Str) (c : Char) (t : Str)
    (hs : skipWs s = c :: t) (hc : isDigit c = true) :
    parseValue (fuel + 1) s = parseNumber false (c :: t) := by
  unfold parseValue
  rw [hs]
  split
  · rename_i heq; injection heq with h1 h2; rw [h1] at hc; exact absurd hc (by decide)
  · rename_i heq; injection heq with h1 h2; rw [h1] at hc; exact absurd hc (by decide)
  · rename_i heq; injection heq with h1 h2; rw [h1] at hc; exact absurd hc (by decide)
  · rename_i heq; injection heq with h1 h2; rw [h1] at hc; exact absurd hc (by decide)
  · rename_i heq; injection heq with h1 h2; rw [h1] at hc; exact absurd hc (by decide)
  · rename_i heq; injection heq with h1 h2; rw [h1] at hc; exact absurd hc (by decide)
  · rename_i heq; injection heq with h1 h2; rw [h1] at hc; exact absurd hc (by decide)
  · rename_i heq
    injection heq with h1 h2
    rw [← h1, ← h2]
    rw [if_neg (fun hand => absurd hc (by rw [hand.1]; decide))]
    rw [if_neg (fun hand => absurd hc (by rw [hand.1]; decide))]
  · rename_i heq; exact absurd heq (by simp)

set_option maxHeartbeats 400000 in
theorem parseValue_neg_head (fuel : Nat) (s : Str) (c : Char) (t : Str)
    (hs : skipWs s = '-' :: c :: t) (hc : isDigit c = true) :
    parseValue (fuel + 1) s = parseNumber true (c :: t) := by
  unfold parseValue
  rw [hs]
  show (if (c :: t).take 8 = "Infinity".data then
      some (PyVal.vfloat "-Infinity".data, (c :: t).drop 8)
    else parseNumber true (c :: t)) = parseNumber true (c :: t)
  rw [if_neg (fun hEq => by
    rw [List.take_succ_cons] at hEq
    injection hEq with h1 h2
    rw [h1] at hc
    exact absurd hc (by decide))]

theorem isDigit_ascii (c : Char) (h : isDigit c = true) : c.toNat < 0x80 := by
  simp only [isDigit, Bool.and_eq_true, decide_eq_true_eq] at h
  omega

theorem parseExp_ascii (s ep r : Str) (h : parseExp s = (ep, r)) :
    ∀ c ∈ ep, c.toNat < 0x80 := by
  cases s with
  | nil =>
    rw [show parseExp ([] : Str) = (([] : Str), ([] : Str)) from rfl] at h
    simp only [Prod.mk.injEq] at h
    rw [← h.1]
    simp
  | cons c t =>
    cases t with
    | nil =>
      rw [parseExp_one] at h
      simp only [Prod.mk.injEq] at h
      rw [← h.1]
      simp
    | cons c₂ s₂ =>
      rw [parseExp_cons_cons] at h
      split at h
      · rename_i he
        split at h
        · rename_i hsign
          split at h
          · simp only [Prod.mk.injEq] at h
            rw [← h.1]
            simp
          · simp only [Prod.mk.injEq] at h
            intro x hx
            rw [← h.1] at hx
            simp only [List.mem_cons] at hx
            rcases hx with rfl | rfl | hx
            · rcases he with rfl | rfl <;> decide
            · rcases hsign with rfl | rfl <;> decide
            · exact isDigit_ascii x (mem_takeWhile_digit s₂ x hx)
        · split at h
          · simp only [Prod.mk.injEq] at h
            rw [← h.1]
            simp
          · simp only [Prod.mk.injEq] at h
            intro x hx
            rw [← h.1] at hx
            simp only [List.mem_cons] at hx
            rcases hx with rfl | hx
            · rcases he with rfl | rfl <;> decide
            · exact isDigit_ascii x (mem_takeWhile_digit (c₂ :: s₂) x hx)
      · simp only [Prod.mk.injEq] at h
        rw [← h.1]
        simp

theorem parseNumber_vfloat_ascii (neg : Bool) (s lit r : Str)
    (h : parseNumber neg s = some (.vfloat lit, r)) : ∀ c ∈ lit, c.toNat < 0x80 := by
  obtain ⟨ipr, hip⟩ : ∃ ipr, parseIntDigits s = some ipr := by
    simp only [parseNumber] at h
    split at h
    · rename_i ip r₁ heq
      exact ⟨_, heq⟩
    · exact absurd h (by simp)
  obtain ⟨ip, r₁⟩ := ipr
  rw [parseNumber_eq_of_intDigits neg s ip r₁ hip] at h
  obtain ⟨fp, r₂, hfr⟩ : ∃ fp r₂, parseFrac r₁ = (fp, r₂) := ⟨_, _, rfl⟩
  obtain ⟨ep, r₃, hex⟩ : ∃ ep r₃, parseExp r₂ = (ep, r₃) := ⟨_, _, rfl⟩
  simp only [hfr, hex] at h
  split at h
  · simp at h
  · simp only [Option.some.injEq, Prod.mk.injEq, PyVal.vfloat.injEq] at h
    obtain ⟨hlit, -⟩ := h
    intro x hx
    rw [← hlit] at hx
    simp only [List.mem_append] at hx
    rcases hx with ((hx | hx) | hx) | hx
    · split at hx
      · simp only [List.mem_singleton] at hx
        rw [hx]
        decide
      · simp at hx
    · exact isDigit_ascii x (parseIntDigits_digits s ip r₁ hip x hx)
    · by_cases hfp : fp = []
      · rw [hfp] at hx
        simp at hx
      · obtain ⟨ds, hfpEq, -, hdig, -⟩ := parseFrac_shape r₁ fp r₂ hfr hfp
        rw [hfpEq] at hx
        simp only [List.mem_cons] at hx
        rcases hx with rfl | hx
        · decide
        · exact isDigit_ascii x (hdig x hx)
    · exact parseExp_ascii r₂ ep r₃ hex x hx

theorem floatLitB_elim (lit : Str) (h : floatLitB lit = true) :
    (∃ t, lit = '-' :: t ∧ parseNumber true t = some (.vfloat lit, [])) ∨
    ((∀ t, lit ≠ '-' :: t) ∧ parseNumber false lit = some (.vfloat lit, [])) := by
  unfold floatLitB at h
  split at h
  · rename_i t'
    left
    refine ⟨t', rfl, ?_⟩
    split at h
    · rename_i l r hpn
      simp only [Bool.and_eq_true, decide_eq_true_eq] at h
      rw [hpn, h.1, h.2]
    · exact absurd h (by simp)
  · rename_i hne
    right
    refine ⟨fun t ht => hne t ht, ?_⟩
    split at h
    · rename_i l r hpn
      simp only [Bool.and_eq_true, decide_eq_true_eq] at h
      rw [hpn, h.1, h.2]
    · exact absurd h (by simp)

theorem hexDigitVal_hexDig (m : Nat) (h : m < 16) : hexDigitVal (hexDig m) = some m := by
  interval_cases m <;> decide

theorem parseHex4_hex4 (n : Nat) (h : n < 0x10000) (t : Str) :
    parseHex4 (hex4 n ++ t) = some (n, t) := by
  have h1 : n / 4096 % 16 < 16 := Nat.mod_lt _ (by omega)
  have h2 : n / 256 % 16 < 16 := Nat.mod_lt _ (by omega)
  have h3 : n / 16 % 16 < 16 := Nat.mod_lt _ (by omega)
  have h4 : n % 16 < 16 := Nat.mod_lt _ (by omega)
  simp only [hex4, List.cons_append, List.nil_append, parseHex4,
    hexDigitVal_hexDig _ h1, hexDigitVal_hexDig _ h2, hexDigitVal_hexDig _ h3,
    hexDigitVal_hexDig _ h4]
  have : n / 4096 % 16 * 4096 + n / 256 % 16 * 256 + n / 16 % 16 * 16 + n % 16 = n := by
    omega
  rw [this]

theorem char_valid_toNat (c : Char) :
    c.toNat < 0xD800 ∨ (0xDFFF < c.toNat ∧ c.toNat < 0x110000) := by
  have h := c.valid
  simpa [Char.toNat, UInt32.isValidChar, Nat.isValidChar] using h

set_option maxHeartbeats 2000000 in
theorem parseStringBody_cons_plain (fuel : Nat) (c : Char) (xs : Str)
    (h1 : c ≠ '"') (h2 : c ≠ '\\') (h3 : ¬ c.toNat < 0x20) :
    parseStringBody (fuel + 1) (c :: xs) =
      (parseStringBody fuel xs).map (fun p => (c :: p.1, p.2)) := by
  rw [parseStringBody.eq_def]
  split
  · rename_i h; omega
  · rename_i h h'; exact absurd h' (by simp)
  · rename_i h h'; injection h' with hc hxs; exact absurd hc h1
  · rename_i h h'; injection h' with hc hxs; exact absurd hc h2
  · rename_i f' c' rest' hne1 hne2 heqf heql
    injection heql with hc hxs
    subst hc
    subst hxs
    have hf : fuel = f' := by omega
    subst hf
    rw [if_neg h3]

theorem parseStringBody_cons_u (fuel : Nat) (t : Str) :
    parseStringBody (fuel + 1) ('\\' :: 'u' :: t) =
      match parseHex4 t with
      | some (n, t') =>
        if 0xD800 ≤ n ∧ n < 0xDC00 then
          match t' with
          | '\\' :: 'u' :: t₂ =>
            match parseHex4 t₂ with
            | some (n₂, t₃) =>
              if 0xDC00 ≤ n₂ ∧ n₂ < 0xE000 then
                (parseStringBody fuel t₃).map
                  (fun p => (Char.ofNat (0x10000 + (n - 0xD800) * 0x400 + (n₂ - 0xDC00)) :: p.1, p.2))
              else Option.none
            | Option.none => Option.none
          | _ => Option.none
        else if 0xDC00 ≤ n ∧ n < 0xE000 then Option.none
        else (parseStringBody fuel t').map (fun p => (Char.ofNat n :: p.1, p.2))
      | Option.none => Option.none := rfl

theorem parseStringBody_round (s : Str) : ∀ fuel rest, s.length + 1 ≤ fuel →
    parseStringBody fuel (s.flatMap encodeJsonChar ++ '"' :: rest) = some (s, rest) := by
  induction s with
  | nil =>
    intro fuel rest h
    obtain ⟨f, rfl⟩ : ∃ f, fuel = f + 1 := ⟨fuel - 1, by omega⟩
    rfl
  | cons c s ih =>
    intro fuel rest h
    obtain ⟨f, rfl⟩ : ∃ f, fuel = f + 1 := ⟨fuel - 1, by omega⟩
    have hrec := ih f rest (by simp only [List.length_cons] at h; omega)
    simp only [List.flatMap_cons, List.append_assoc]
    by_cases hq : c = '"'
    · subst hq
      rw [show encodeJsonChar '"' = ['\\', '"'] from rfl]
      simp only [List.cons_append, List.nil_append]
      rw [show ∀ u, parseStringBody (f + 1) ('\\' :: '"' :: u) =
          (parseStringBody f u).map (fun p => ('"' :: p.1, p.2)) from fun u => rfl]
      rw [hrec]
      rfl
    · by_cases hb : c = '\\'
      · subst hb
        rw [show encodeJsonChar '\\' = ['\\', '\\'] from rfl]
        simp only [List.cons_append, List.nil_append]
        rw [show ∀ u, parseStringBody (f + 1) ('\\' :: '\\' :: u) =
            (parseStringBody f u).map (fun p => ('\\' :: p.1, p.2)) from fun u => rfl]
        rw [hrec]
        rfl
      · by_cases hesc : c.toNat < 0x20 ∨ 0x7F ≤ c.toNat
        · have hval := char_valid_toNat c
          by_cases hbmp : c.toNat < 0x10000
          · have henc : encodeJsonChar c = '\\' :: 'u' :: hex4 c.toNat := by
              unfold encodeJsonChar
              rw [if_neg hq, if_neg hb, if_pos hesc, if_pos hbmp]
            rw [henc]
            simp only [List.cons_append, List.append_assoc]
            rw [parseStringBody_cons_u, parseHex4_hex4 c.toNat hbmp]
            dsimp only
            have h1' : ¬(0xD800 ≤ c.toNat ∧ c.toNat < 0xDC00) := by
              rcases hval with h' | h' <;> omega
            have h2' : ¬(0xDC00 ≤ c.toNat ∧ c.toNat < 0xE000) := by
              rcases hval with h' | h' <;> omega
            rw [if_neg h1', if_neg h2', hrec]
            simp only [Option.map_some']
            rw [Char.ofNat_toNat]
          · have henc : encodeJsonChar c =
                ('\\' :: 'u' :: hex4 (0xD800 + (c.toNat - 0x10000) / 0x400)) ++
                  '\\' :: 'u' :: hex4 (0xDC00 + (c.toNat - 0x10000) % 0x400) := by
              unfold encodeJsonChar
              rw [if_neg hq, if_neg hb, if_pos hesc, if_neg hbmp]
            have hub : c.toNat < 0x110000 := by
              rcases hval with h' | h' <;> omega
            have hdiv : (c.toNat - 0x10000) / 0x400 < 0x400 := by omega
            have hhi : 0xD800 + (c.toNat - 0x10000) / 0x400 < 0x10000 := by omega
            have hlo : 0xDC00 + (c.toNat - 0x10000) % 0x400 < 0x10000 := by
              have := Nat.mod_lt (c.toNat - 0x10000) (show 0 < 0x400 by omega)
              omega
            rw [henc]
            simp only [List.cons_append, List.append_assoc]
            rw [parseStringBody_cons_u, parseHex4_hex4 _ hhi]
            dsimp only
            rw [if_pos (by omega : 0xD800 ≤ 0xD800 + (c.toNat - 0x10000) / 0x400 ∧
              0xD800 + (c.toNat - 0x10000) / 0x400 < 0xDC00)]
            simp only [List.cons_append]
            rw [parseHex4_hex4 _ hlo]
            dsimp only
            rw [if_pos (by
              have := Nat.mod_lt (c.toNat - 0x10000) (show 0 < 0x400 by omega)
              omega : 0xDC00 ≤ 0xDC00 + (c.toNat - 0x10000) % 0x400 ∧
                0xDC00 + (c.toNat - 0x10000) % 0x400 < 0xE000)]
            rw [hrec]
            simp only [Option.map_some']
            have harg : 0x10000 + (0xD800 + (c.toNat - 0x10000) / 0x400 - 0xD800) * 0x400 +
                (0xDC00 + (c.toNat - 0x10000) % 0x400 - 0xDC00) = c.toNat := by
              have := Nat.div_add_mod (c.toNat - 0x10000) 0x400
              omega
            rw [harg, Char.ofNat_toNat]
        · have henc : encodeJsonChar c = [c] := by
            unfold encodeJsonChar
            rw [if_neg hq, if_neg hb, if_neg hesc]
          rw [henc]
          simp only [List.cons_append, List.nil_append]
          rw [parseStringBody_cons_plain f c _ hq hb (fun hlt => hesc (Or.inl hlt)), hrec]
          rfl

theorem encodeJsonChar_length_pos (c : Char) : 1 ≤ (encodeJsonChar c).length := by
  unfold encodeJsonChar
  split
  · simp
  · split
    · simp
    · split
      · split <;> simp [hex4]
      · simp

theorem length_le_flatMap_enc (s : Str) :
    s.length ≤ (s.flatMap encodeJsonChar).length := by
  induction s with
  | nil => simp
  | cons c t ih =>
    have := encodeJsonChar_length_pos c
    simp only [List.flatMap_cons, List.length_append, List.length_cons]
    omega

theorem encodeJson_head (d : PyVal) (hd : JsonDoc d) :
    ∃ c t, encodeJson d = c :: t ∧ c.toNat ≠ 32 ∧ c.toNat ≠ 9 ∧ c.toNat ≠ 10 ∧
      c.toNat ≠ 13 ∧ c ≠ ']' ∧ c ≠ '\x7d' := by
  cases hd with
  | null =>
    exact ⟨'n', ['u', 'l', 'l'], by simp [encodeJson], by decide, by decide, by decide,
      by decide, by decide, by decide⟩
  | bool b =>
    cases b with
    | true =>
      exact ⟨'t', ['r', 'u', 'e'], by simp [encodeJson], by decide, by decide, by decide,
        by decide, by decide, by decide⟩
    | false =>
      exact ⟨'f', ['a', 'l', 's', 'e'], by simp [encodeJson], by decide, by decide,
        by decide, by decide, by decide, by decide⟩
  | int n =>
    by_cases hneg : n < 0
    · exact ⟨'-', natToDec n.natAbs, by simp [encodeJson, intToDec, hneg], by decide,
        by decide, by decide, by decide, by decide, by decide⟩
    · obtain ⟨c, t, hct, hc⟩ := natDecGo_head_digit (n.natAbs + 1) n.natAbs (by omega)
      have hcn : 48 ≤ c.toNat ∧ c.toNat ≤ 57 := by
        simpa [isDigit, decide_eq_true_eq] using hc
      refine ⟨c, t, ?_, by omega, by omega, by omega, by omega, fun h' => ?_, fun h' => ?_⟩
      · simp [encodeJson, intToDec, hneg, natToDec, hct]
      · rw [h'] at hcn; exact absurd hcn (by decide)
      · rw [h'] at hcn; exact absurd hcn (by decide)
  | float lit hlit =>
    rcases floatLitB_elim lit hlit with ⟨t, hlitEq, hpn⟩ | ⟨hne, hpn⟩
    · exact ⟨'-', t, by simp [encodeJson, hlitEq], by decide, by decide, by decide,
        by decide, by decide, by decide⟩
    · obtain ⟨c, t', hct, hc⟩ := parseNumber_head false lit (PyVal.vfloat lit, []) hpn
      have hcn : 48 ≤ c.toNat ∧ c.toNat ≤ 57 := by
        simpa [isDigit, decide_eq_true_eq] using hc
      refine ⟨c, t', ?_, by omega, by omega, by omega, by omega, fun h' => ?_, fun h' => ?_⟩
      · simp [encodeJson, hct]
      · rw [h'] at hcn; exact absurd hcn (by decide)
      · rw [h'] at hcn; exact absurd hcn (by decide)
  | str s =>
    exact ⟨'"', s.flatMap encodeJsonChar ++ ['"'], by simp [encodeJson, encodeJsonString],
      by decide, by decide, by decide, by decide, by decide, by decide⟩
  | list xs h =>
    exact ⟨'[', encodeItems xs ++ [']'], by simp [encodeJson], by decide, by decide,
      by decide, by decide, by decide, by decide⟩
  | dict ms h hpw =>
    exact ⟨'\x7b', encodeMembers ms ++ ['\x7d'], by simp [encodeJson], by decide, by decide,
      by decide, by decide, by decide, by decide⟩

theorem pySet_append_fresh {V : Type} (d : List (Str × V)) (k : Str) (v : V)
    (h : ∀ p ∈ d, p.1 ≠ k) : pySet d k v = d ++ [(k, v)] := by
  induction d with
  | nil => rfl
  | cons p t ih =>
    obtain ⟨k', v'⟩ := p
    have hne : k' ≠ k := h (k', v') (by simp)
    simp only [pySet, if_neg hne, List.cons_append]
    rw [ih (fun q hq => h q (by simp [hq]))]

theorem foldl_pySet_fresh (ms : List (Str × PyVal)) :
    ∀ acc : List (Str × PyVal), (∀ m ∈ ms, ∀ p ∈ acc, p.1 ≠ m.1) →
      ms.Pairwise (fun a b => a.1 ≠ b.1) →
      ms.foldl (fun d m => pySet d m.1 m.2) acc = acc ++ ms := by
  induction ms with
  | nil => intro acc _ _; simp
  | cons m t ih =>
    intro acc hfresh hpw
    simp only [List.foldl_cons]
    rw [pySet_append_fresh acc m.1 m.2 (fun p hp => hfresh m (by simp) p hp)]
    have hpw' := List.pairwise_cons.mp hpw
    rw [ih (acc ++ [(m.1, m.2)]) ?_ hpw'.2]
    · simp
    · intro m' hm' p hp
      rcases List.mem_append.mp hp with h' | h'
      · exact hfresh m' (by simp [hm']) p h'
      · have hpm : p = (m.1, m.2) := by simpa using h'
        rw [hpm]
        exact hpw'.1 m' hm'

theorem parseValue_null_head (fuel : Nat) (s rest : Str)
    (hs : skipWs s = 'n' :: 'u' :: 'l' :: 'l' :: rest) :
    parseValue (fuel + 1) s = some (.none, rest) := by
  unfold parseValue
  rw [hs]
  rfl

theorem parseValue_true_head (fuel : Nat) (s rest : Str)
    (hs : skipWs s = 't' :: 'r' :: 'u' :: 'e' :: rest) :
    parseValue (fuel + 1) s = some (.vbool true, rest) := by
  unfold parseValue
  rw [hs]
  rfl

theorem parseValue_false_head (fuel : Nat) (s rest : Str)
    (hs : skipWs s = 'f' :: 'a' :: 'l' :: 's' :: 'e' :: rest) :
    parseValue (fuel + 1) s = some (.vbool false, rest) := by
  unfold parseValue
  rw [hs]
  rfl

theorem parseValue_str_head (fuel : Nat) (s rest : Str) (hs : skipWs s = '"' :: rest) :
    parseValue (fuel + 1) s =
      (parseStringBody fuel rest).map (fun p => (.vstr p.1, p.2)) := by
  unfold parseValue
  rw [hs]
  rfl

theorem parseValue_list_nil_head (fuel : Nat) (s rest : Str)
    (hs : skipWs s = '[' :: ']' :: rest) :
    parseValue (fuel + 1) s = some (.vlist [], rest) := by
  unfold parseValue
  rw [hs]
  rfl

theorem parseValue_dict_nil_head (fuel : Nat) (s rest : Str)
    (hs : skipWs s = '\x7b' :: '\x7d' :: rest) :
    parseValue (fuel + 1) s = some (.vdict [], rest) := by
  unfold parseValue
  rw [hs]
  rfl

theorem parseValue_list_cons (fuel : Nat) (s renc : Str) (c : Char) (t : Str)
    (hs : skipWs s = '[' :: renc) (hr : skipWs renc = c :: t) (hc : c ≠ ']') :
    parseValue (fuel + 1) s = (parseItems fuel (c :: t)).map (fun p => (.vlist p.1, p.2)) := by
  unfold parseValue
  rw [hs]
  show (match skipWs renc with
    | ']' :: rest' => some (PyVal.vlist [], rest')
    | r => Option.map (fun p : List PyVal × Str => (PyVal.vlist p.1, p.2))
        (parseItems fuel r)) = _
  rw [hr]
  split
  · rename_i heq; injection heq with h1 h2; exact absurd h1 hc
  · rfl

theorem parseValue_dict_cons (fuel : Nat) (s renc : Str) (c : Char) (t : Str)
    (hs : skipWs s = '\x7b' :: renc) (hr : skipWs renc = c :: t) (hc : c ≠ '\x7d') :
    parseValue (fuel + 1) s =
      (parseMembers fuel (c :: t)).map
        (fun p => (.vdict (p.1.foldl (fun d m => pySet d m.1 m.2) []), p.2)) := by
  unfold parseValue
  rw [hs]
  show (match skipWs renc with
    | '\x7d' :: rest' => some (PyVal.vdict [], rest')
    | r => Option.map
        (fun p : List (Str × PyVal) × Str =>
          (PyVal.vdict (List.foldl (fun d (m : Str × PyVal) => pySet d m.1 m.2) [] p.1), p.2))
        (parseMembers fuel r)) = _
  rw [hr]
  split
  · rename_i heq; injection heq with h1 h2; exact absurd h1 hc
  · rfl

theorem parseItems_step_comma (fuel : Nat) (s : Str) (v : PyVal) (r₂ : Str)
    (hv : parseValue fuel s = some (v, ',' :: r₂)) :
    parseItems (fuel + 1) s = (parseItems fuel r₂).map (fun p => (v :: p.1, p.2)) := by
  conv_lhs => unfold parseItems
  rw [hv]
  rfl

theorem parseItems_step_close (fuel : Nat) (s : Str) (v : PyVal) (r₂ : Str)
    (hv : parseValue fuel s = some (v, ']' :: r₂)) :
    parseItems (fuel + 1) s = some ([v], r₂) := by
  conv_lhs => unfold parseItems
  rw [hv]
  rfl

theorem parseMembers_step_comma (fuel : Nat) (R : Str) (k R₂ : Str) (v : PyVal) (r₄ : Str)
    (hk : parseStringBody fuel R = some (k, ':' :: R₂))
    (hv : parseValue fuel R₂ = some (v, ',' :: r₄)) :
    parseMembers (fuel + 1) ('"' :: R) =
      (parseMembers fuel r₄).map (fun p => ((k, v) :: p.1, p.2)) := by
  conv_lhs => unfold parseMembers
  show (match parseStringBody fuel R with
    | some (k, r₁) =>
      match skipWs r₁ with
      | ':' :: r₂ =>
        match parseValue fuel r₂ with
        | some (v, r₃) =>
          match skipWs r₃ with
          | ',' :: r₄ =>
            Option.map (fun p : List (Str × PyVal) × Str => ((k, v) :: p.1, p.2))
              (parseMembers fuel r₄)
          | '\x7d' :: r₄ => some ([(k, v)], r₄)
          | _ => Option.none
        | Option.none => Option.none
      | _ => Option.none
    | Option.none => Option.none) = _
  rw [hk]
  show (match parseValue fuel R₂ with
    | some (v, r₃) =>
      match skipWs r₃ with
      | ',' :: r₄ =>
        Option.map (fun p : List (Str × PyVal) × Str => ((k, v) :: p.1, p.2))
          (parseMembers fuel r₄)
      | '\x7d' :: r₄ => some ([(k, v)], r₄)
      | _ => Option.none
    | Option.none => Option.none) = _
  rw [hv]
  rfl

theorem parseMembers_step_close (fuel : Nat) (R : Str) (k R₂ : Str) (v : PyVal) (r₄ : Str)
    (hk : parseStringBody fuel R = some (k, ':' :: R₂))
    (hv : parseValue fuel R₂ = some (v, '\x7d' :: r₄)) :
    parseMembers (fuel + 1) ('"' :: R) = some ([(k, v)], r₄) := by
  conv_lhs => unfold parseMembers
  show (match parseStringBody fuel R with
    | some (k, r₁) =>
      match skipWs r₁ with
      | ':' :: r₂ =>
        match parseValue fuel r₂ with
        | some (v, r₃) =>
          match skipWs r₃ with
          | ',' :: r₄ =>
            Option.map (fun p : List (Str × PyVal) × Str => ((k, v) :: p.1, p.2))
              (parseMembers fuel r₄)
          | '\x7d' :: r₄ => some ([(k, v)], r₄)
          | _ => Option.none
        | Option.none => Option.none
      | _ => Option.none
    | Option.none => Option.none) = _
  rw [hk]
  show (match parseValue fuel R₂ with
    | some (v, r₃) =>
      match skipWs r₃ with
      | ',' :: r₄ =>
        Option.map (fun p : List (Str × PyVal) × Str => ((k, v) :: p.1, p.2))
          (parseMembers fuel r₄)
      | '\x7d' :: r₄ => some ([(k, v)], r₄)
      | _ => Option.none
    | Option.none => Option.none) = _
  rw [hv]
  rfl

theorem parseItems_round (xs : List PyVal) : xs ≠ [] →
    (∀ x ∈ xs, JsonDoc x ∧ ParsesBack x) →
    ∀ fuel rest, (encodeItems xs).length + 2 ≤ fuel →
      parseItems fuel (encodeItems xs ++ ']' :: rest) = some (xs, rest) := by
  induction xs with
  | nil => intro h; exact absurd rfl h
  | cons x t ih =>
    intro _ hx fuel rest hfuel
    obtain ⟨f, rfl⟩ : ∃ f, fuel = f + 1 := ⟨fuel - 1, by omega⟩
    cases t with
    | nil =>
      have he : encodeItems [x] = encodeJson x := by simp [encodeItems]
      rw [he] at hfuel ⊢
      have hv := (hx x (by simp)).2 f (']' :: rest) (by omega) rfl
      rw [parseItems_step_close f _ x rest hv]
    | cons y ys =>
      have he : encodeItems (x :: y :: ys) = encodeJson x ++ ',' :: encodeItems (y :: ys) := by
        simp [encodeItems]
      rw [he] at hfuel ⊢
      simp only [List.length_append, List.length_cons] at hfuel
      simp only [List.append_assoc, List.cons_append]
      have hv := (hx x (by simp)).2 f (',' :: (encodeItems (y :: ys) ++ ']' :: rest))
        (by omega) rfl
      rw [parseItems_step_comma f _ x _ hv]
      rw [ih (by simp) (fun z hz => hx z (by simp [hz])) f rest (by omega)]
      rfl

theorem parseMembers_round (ms : List (Str × PyVal)) : ms ≠ [] →
    (∀ m ∈ ms, JsonDoc m.2 ∧ ParsesBack m.2) →
    ∀ fuel rest, (encodeMembers ms).length + 2 ≤ fuel →
      parseMembers fuel (encodeMembers ms ++ '\x7d' :: rest) = some (ms, rest) := by
  induction ms with
  | nil => intro h; exact absurd rfl h
  | cons m t ih =>
    obtain ⟨k, v⟩ := m
    intro _ hm fuel rest hfuel
    obtain ⟨f, rfl⟩ : ∃ f, fuel = f + 1 := ⟨fuel - 1, by omega⟩
    have hkf := length_le_flatMap_enc k
    cases t with
    | nil =>
      have he : encodeMembers [(k, v)] =
          '"' :: (k.flatMap encodeJsonChar ++ '"' :: (':' :: encodeJson v)) := by
        simp [encodeMembers, encodeJsonString]
      rw [he] at hfuel ⊢
      simp only [List.length_cons, List.length_append] at hfuel
      simp only [List.cons_append, List.append_assoc]
      have hk : parseStringBody f (k.flatMap encodeJsonChar ++ '"' ::
          (':' :: (encodeJson v ++ '\x7d' :: rest))) =
          some (k, ':' :: (encodeJson v ++ '\x7d' :: rest)) :=
        parseStringBody_round k f _ (by omega)
      have hpb : ParsesBack v := (hm (k, v) (by simp)).2
      have hv : parseValue f (encodeJson v ++ '\x7d' :: rest) = some (v, '\x7d' :: rest) :=
        hpb f ('\x7d' :: rest) (by omega) rfl
      rw [parseMembers_step_close f _ k _ v rest hk hv]
    | cons m' t' =>
      have he : encodeMembers ((k, v) :: m' :: t') =
          '"' :: (k.flatMap encodeJsonChar ++ '"' :: (':' :: (encodeJson v ++
            ',' :: encodeMembers (m' :: t')))) := by
        simp [encodeMembers, encodeJsonString]
      rw [he] at hfuel ⊢
      simp only [List.length_cons, List.length_append] at hfuel
      simp only [List.cons_append, List.append_assoc]
      have hpb : ParsesBack v := (hm (k, v) (by simp)).2
      have hk : parseStringBody f (k.flatMap encodeJsonChar ++ '"' ::
          (':' :: (encodeJson v ++ ',' :: (encodeMembers (m' :: t') ++ '\x7d' :: rest)))) =
          some (k, ':' :: (encodeJson v ++ ',' :: (encodeMembers (m' :: t') ++
            '\x7d' :: rest))) :=
        parseStringBody_round k f _ (by omega)
      have hv : parseValue f (encodeJson v ++ ',' :: (encodeMembers (m' :: t') ++
          '\x7d' :: rest)) =
          some (v, ',' :: (encodeMembers (m' :: t') ++ '\x7d' :: rest)) :=
        hpb f _ (by omega) rfl
      rw [parseMembers_step_comma f _ k _ v _ hk hv]
      rw [ih (by simp) (fun z hz => hm z (by simp [hz])) f rest (by omega)]
      rfl

theorem parsesBack_of_jsonDoc (d : PyVal) (hd : JsonDoc d) : ParsesBack d := by
  induction hd with
  | null =>
    intro fuel rest hfuel hrest
    obtain ⟨f, rfl⟩ : ∃ f, fuel = f + 1 := ⟨fuel - 1, by omega⟩
    rw [show encodeJson PyVal.none = ['n', 'u', 'l', 'l'] from by simp [encodeJson]]
    exact parseValue_null_head f (['n', 'u', 'l', 'l'] ++ rest) rest rfl
  | bool b =>
    intro fuel rest hfuel hrest
    obtain ⟨f, rfl⟩ : ∃ f, fuel = f + 1 := ⟨fuel - 1, by omega⟩
    cases b with
    | true =>
      rw [show encodeJson (PyVal.vbool true) = ['t', 'r', 'u', 'e'] from by
        simp [encodeJson]]
      exact parseValue_true_head f (['t', 'r', 'u', 'e'] ++ rest) rest rfl
    | false =>
      rw [show encodeJson (PyVal.vbool false) = ['f', 'a', 'l', 's', 'e'] from by
        simp [encodeJson]]
      exact parseValue_false_head f (['f', 'a', 'l', 's', 'e'] ++ rest) rest rfl
  | int n =>
    intro fuel rest hfuel hrest
    obtain ⟨f, rfl⟩ : ∃ f, fuel = f + 1 := ⟨fuel - 1, by omega⟩
    obtain ⟨c, t, hct, hc⟩ := natDecGo_head_digit (n.natAbs + 1) n.natAbs (by omega)
    have hnd : natToDec n.natAbs = c :: t := hct
    by_cases hneg : n < 0
    · have he : encodeJson (PyVal.vint n) = '-' :: natToDec n.natAbs := by
        simp [encodeJson, intToDec, hneg]
      rw [he]
      simp only [List.cons_append, hnd]
      rw [parseValue_neg_head f ('-' :: c :: (t ++ rest)) c (t ++ rest) rfl hc]
      rw [show c :: (t ++ rest) = (c :: t) ++ rest from rfl, ← hnd]
      rw [(parseNumber_natToDec n.natAbs rest hrest).2]
      have : -((n.natAbs : Nat) : Int) = n := by omega
      rw [this]
    · have he : encodeJson (PyVal.vint n) = natToDec n.natAbs := by
        simp [encodeJson, intToDec, hneg]
      rw [he, hnd]
      have hcn : 48 ≤ c.toNat ∧ c.toNat ≤ 57 := by
        simpa [isDigit, decide_eq_true_eq] using hc
      simp only [List.cons_append]
      rw [parseValue_digit_head f (c :: (t ++ rest)) c (t ++ rest)
        (skipWs_cons c _ (by omega) (by omega) (by omega) (by omega)) hc]
      rw [show c :: (t ++ rest) = (c :: t) ++ rest from rfl, ← hnd]
      rw [(parseNumber_natToDec n.natAbs rest hrest).1]
      have : ((n.natAbs : Nat) : Int) = n := by omega
      rw [this]
  | float lit hlit =>
    intro fuel rest hfuel hrest
    obtain ⟨f, rfl⟩ : ∃ f, fuel = f + 1 := ⟨fuel - 1, by omega⟩
    have he : encodeJson (PyVal.vfloat lit) = lit := by simp [encodeJson]
    rw [he]
    rcases floatLitB_elim lit hlit with ⟨t, hlitEq, hpn⟩ | ⟨hne, hpn⟩
    · obtain ⟨c, t', hct, hc⟩ := parseNumber_head true t (PyVal.vfloat lit, []) hpn
      conv_lhs => rw [hlitEq, hct]
      simp only [List.cons_append]
      rw [parseValue_neg_head f ('-' :: c :: (t' ++ rest)) c (t' ++ rest) rfl hc]
      rw [show c :: (t' ++ rest) = (c :: t') ++ rest from rfl, ← hct]
      rw [parseNumber_append true t (PyVal.vfloat lit) rest hpn hrest]
    · obtain ⟨c, t', hct, hc⟩ := parseNumber_head false lit (PyVal.vfloat lit, []) hpn
      conv_lhs => rw [hct]
      simp only [List.cons_append]
      have hcn : 48 ≤ c.toNat ∧ c.toNat ≤ 57 := by
        simpa [isDigit, decide_eq_true_eq] using hc
      rw [parseValue_digit_head f (c :: (t' ++ rest)) c (t' ++ rest)
        (skipWs_cons c _ (by omega) (by omega) (by omega) (by omega)) hc]
      rw [show c :: (t' ++ rest) = (c :: t') ++ rest from rfl, ← hct]
      rw [parseNumber_append false lit (PyVal.vfloat lit) rest hpn hrest]
  | str s =>
    intro fuel rest hfuel hrest
    obtain ⟨f, rfl⟩ : ∃ f, fuel = f + 1 := ⟨fuel - 1, by omega⟩
    have he : encodeJson (PyVal.vstr s) = '"' :: (s.flatMap encodeJsonChar ++ ['"']) := by
      simp [encodeJson, encodeJsonString]
    rw [he] at hfuel ⊢
    simp only [List.length_cons, List.length_append, List.length_singleton] at hfuel
    have hsf := length_le_flatMap_enc s
    simp only [List.cons_append, List.append_assoc, List.singleton_append, List.nil_append]
    rw [parseValue_str_head f ('"' :: (s.flatMap encodeJsonChar ++ '"' :: rest))
      (s.flatMap encodeJsonChar ++ '"' :: rest) rfl,
      parseStringBody_round s f rest (by omega)]
    rfl
  | list xs h ih =>
    intro fuel rest hfuel hrest
    obtain ⟨f, rfl⟩ : ∃ f, fuel = f + 1 := ⟨fuel - 1, by omega⟩
    cases xs with
    | nil =>
      rw [show encodeJson (PyVal.vlist []) = ['[', ']'] from by
        simp [encodeJson, encodeItems]]
      exact parseValue_list_nil_head f (['[', ']'] ++ rest) rest rfl
    | cons x t =>
      have he : encodeJson (PyVal.vlist (x :: t)) =
          '[' :: (encodeItems (x :: t) ++ [']']) := by simp [encodeJson]
      rw [he] at hfuel ⊢
      simp only [List.length_cons, List.length_append, List.length_singleton] at hfuel
      obtain ⟨c, ct, hct, h32, h9, h10, h13, hnb, _⟩ := encodeJson_head x (h x (by simp))
      have hcons : ∃ T, encodeItems (x :: t) = c :: T := by
        cases t with
        | nil => exact ⟨ct, by simp [encodeItems, hct]⟩
        | cons y ys =>
          exact ⟨ct ++ ',' :: encodeItems (y :: ys), by simp [encodeItems, hct]⟩
      obtain ⟨T, hT⟩ := hcons
      simp only [List.cons_append, List.append_assoc, List.singleton_append, List.nil_append]
      rw [hT]
      simp only [List.cons_append]
      rw [parseValue_list_cons f ('[' :: (c :: (T ++ ']' :: rest)))
        (c :: (T ++ ']' :: rest)) c (T ++ ']' :: rest) rfl
        (skipWs_cons c _ h32 h9 h10 h13) hnb]
      rw [show c :: (T ++ ']' :: rest) = (c :: T) ++ ']' :: rest from rfl, ← hT]
      rw [parseItems_round (x :: t) (by simp)
        (fun z hz => ⟨h z hz, ih z hz⟩) f rest (by omega)]
      rfl
  | dict ms h hpw ih =>
    intro fuel rest hfuel hrest
    obtain ⟨f, rfl⟩ : ∃ f, fuel = f + 1 := ⟨fuel - 1, by omega⟩
    cases ms with
    | nil =>
      rw [show encodeJson (PyVal.vdict []) = ['\x7b', '\x7d'] from by
        simp [encodeJson, encodeMembers]]
      exact parseValue_dict_nil_head f (['\x7b', '\x7d'] ++ rest) rest rfl
    | cons m t =>
      obtain ⟨k, v⟩ := m
      have he : encodeJson (PyVal.vdict ((k, v) :: t)) =
          '\x7b' :: (encodeMembers ((k, v) :: t) ++ ['\x7d']) := by simp [encodeJson]
      rw [he] at hfuel ⊢
      simp only [List.length_cons, List.length_append, List.length_singleton] at hfuel
      have hcons : ∃ T, encodeMembers ((k, v) :: t) = '"' :: T := by
        cases t with
        | nil => exact ⟨k.flatMap encodeJsonChar ++ '"' :: (':' :: encodeJson v), by
            simp [encodeMembers, encodeJsonString]⟩
        | cons m' t' =>
          exact ⟨k.flatMap encodeJsonChar ++ '"' :: (':' :: (encodeJson v ++
            ',' :: encodeMembers (m' :: t'))), by simp [encodeMembers, encodeJsonString]⟩
      obtain ⟨T, hT⟩ := hcons
      simp only [List.cons_append, List.append_assoc, List.singleton_append, List.nil_append]
      rw [hT]
      simp only [List.cons_append]
      rw [parseValue_dict_cons f ('\x7b' :: ('"' :: (T ++ '\x7d' :: rest)))
        ('"' :: (T ++ '\x7d' :: rest)) '"' (T ++ '\x7d' :: rest) rfl rfl (by decide)]
      rw [show ('"' : Char) :: (T ++ '\x7d' :: rest) = ('"' :: T) ++ '\x7d' :: rest from rfl,
        ← hT]
      rw [parseMembers_round ((k, v) :: t) (by simp)
        (fun z hz => ⟨h z hz, ih z hz⟩) f rest (by omega)]
      simp only [Option.map_some']
      rw [foldl_pySet_fresh ((k, v) :: t) [] (by simp) hpw]
      rfl

theorem sizeOf_list_pos {α : Type} [SizeOf α] (l : List α) : 0 < sizeOf l := by
  cases l <;> simp_arith

theorem natDecGo_ascii : ∀ fuel n, ∀ c ∈ natDecGo fuel n, c.toNat < 0x80 := by
  intro fuel
  induction fuel with
  | zero => intro n c hc; simp [natDecGo] at hc
  | succ f ih =>
    intro n c hc
    by_cases h10 : n < 10
    · simp [natDecGo, h10] at hc
      rw [hc, toNat_ofNat_digit n h10]
      omega
    · simp only [natDecGo, h10, if_false, List.mem_append] at hc
      rcases hc with hc | hc
      · exact ih (n / 10) c hc
      · simp at hc
        rw [hc, toNat_ofNat_digit (n % 10) (by omega)]
        omega

theorem hexDig_ascii (m : Nat) (h : m < 16) : (hexDig m).toNat < 0x80 := by
  interval_cases m <;> decide

set_option maxRecDepth 4000 in
theorem encodeJsonChar_ascii (c : Char) : ∀ a ∈ encodeJsonChar c, a.toNat < 0x80 := by
  intro a ha
  unfold encodeJsonChar at ha
  split at ha
  · simp at ha; rcases ha with rfl | rfl <;> decide
  · split at ha
    · simp at ha
      rw [ha]
      decide
    · split at ha
      · split at ha
        · simp [hex4] at ha
          rcases ha with rfl | rfl | rfl | rfl | rfl | rfl <;>
            first
              | exact hexDig_ascii _ (Nat.mod_lt _ (by omega))
              | decide
        · simp [hex4] at ha
          rcases ha with h' | h' | h' | h' | h' | h' | h' | h' | h' | h' | h' | h' <;>
            (rw [h']
             first
               | exact hexDig_ascii _ (Nat.mod_lt _ (by omega))
               | decide)
      · rename_i hplain hesc
        simp at ha
        rw [ha]
        omega

theorem encodeJson_ascii_all : ∀ N,
    (∀ d : PyVal, sizeOf d ≤ N → JsonDoc d → ∀ c ∈ encodeJson d, c.toNat < 0x80) ∧
    (∀ xs : List PyVal, sizeOf xs ≤ N → (∀ x ∈ xs, JsonDoc x) →
      ∀ c ∈ encodeItems xs, c.toNat < 0x80) ∧
    (∀ ms : List (Str × PyVal), sizeOf ms ≤ N → (∀ m ∈ ms, JsonDoc m.2) →
      ∀ c ∈ encodeMembers ms, c.toNat < 0x80) := by
  intro N
  induction N using Nat.strong_induction_on with
  | _ N ih =>
    refine ⟨?_, ?_, ?_⟩
    · intro d hsize hd c hc
      cases hd with
      | null =>
        rw [show encodeJson PyVal.none = ['n', 'u', 'l', 'l'] from by simp [encodeJson]] at hc
        rcases (by simpa using hc : c = 'n' ∨ c = 'u' ∨ c = 'l' ∨ c = 'l') with
          rfl | rfl | rfl | rfl <;> decide
      | bool b =>
        cases b with
        | true =>
          rw [show encodeJson (PyVal.vbool true) = ['t', 'r', 'u', 'e'] from by
            simp [encodeJson]] at hc
          rcases (by simpa using hc : c = 't' ∨ c = 'r' ∨ c = 'u' ∨ c = 'e') with
            rfl | rfl | rfl | rfl <;> decide
        | false =>
          rw [show encodeJson (PyVal.vbool false) = ['f', 'a', 'l', 's', 'e'] from by
            simp [encodeJson]] at hc
          rcases (by simpa using hc : c = 'f' ∨ c = 'a' ∨ c = 'l' ∨ c = 's' ∨ c = 'e') with
            rfl | rfl | rfl | rfl | rfl <;> decide
      | int n =>
        rw [show encodeJson (PyVal.vint n) = intToDec n from by simp [encodeJson]] at hc
        unfold intToDec at hc
        split at hc
        · rcases (by simpa using hc : c = '-' ∨ c ∈ natToDec n.natAbs) with rfl | hm
          · decide
          · exact natDecGo_ascii _ _ c hm
        · exact natDecGo_ascii _ _ c hc
      | float lit hlit =>
        rw [show encodeJson (PyVal.vfloat lit) = lit from by simp [encodeJson]] at hc
        rcases floatLitB_elim lit hlit with ⟨t, _, hpn⟩ | ⟨_, hpn⟩
        · exact parseNumber_vfloat_ascii true t lit [] hpn c hc
        · exact parseNumber_vfloat_ascii false lit lit [] hpn c hc
      | str s =>
        rw [show encodeJson (PyVal.vstr s) = '"' :: (s.flatMap encodeJsonChar ++ ['"'])
          from by simp [encodeJson, encodeJsonString]] at hc
        rcases (by simpa using hc :
            c = '"' ∨ (∃ a, a ∈ s ∧ c ∈ encodeJsonChar a) ∨ c = '"') with rfl | ⟨a, _, hac⟩ | rfl
        · decide
        · exact encodeJsonChar_ascii a c hac
        · decide
      | list xs h =>
        rw [show encodeJson (PyVal.vlist xs) = '[' :: (encodeItems xs ++ [']']) from by
          simp [encodeJson]] at hc
        rcases (by simpa using hc : c = '[' ∨ c ∈ encodeItems xs ∨ c = ']') with
          rfl | hm | rfl
        · decide
        · have hspec := PyVal.vlist.sizeOf_spec xs
          have hpos := sizeOf_list_pos xs
          exact (ih (N - 1) (by omega)).2.1 xs (by omega) h c hm
        · decide
      | dict ms h hpw =>
        rw [show encodeJson (PyVal.vdict ms) = '\x7b' :: (encodeMembers ms ++ ['\x7d'])
          from by simp [encodeJson]] at hc
        rcases (by simpa using hc : c = '\x7b' ∨ c ∈ encodeMembers ms ∨ c = '\x7d') with
          rfl | hm | rfl
        · decide
        · have hspec := PyVal.vdict.sizeOf_spec ms
          have hpos := sizeOf_list_pos ms
          exact (ih (N - 1) (by omega)).2.2 ms (by omega) h c hm
        · decide
    · intro xs hsize hall c hc
      cases xs with
      | nil => simp [encodeItems] at hc
      | cons x t =>
        have hspec := List.cons.sizeOf_spec x t
        have hpt := sizeOf_list_pos t
        have hsx : sizeOf x ≤ N - 1 := by omega
        have hst : sizeOf t ≤ N - 1 := by omega
        have hN : N - 1 < N := by omega
        have hx : JsonDoc x := hall x (by simp)
        cases t with
        | nil =>
          rw [show encodeItems [x] = encodeJson x from by simp [encodeItems]] at hc
          exact (ih (N - 1) hN).1 x hsx hx c hc
        | cons y ys =>
          rw [show encodeItems (x :: y :: ys) =
            encodeJson x ++ ',' :: encodeItems (y :: ys) from by simp [encodeItems]] at hc
          rcases (by simpa using hc :
              c ∈ encodeJson x ∨ c = ',' ∨ c ∈ encodeItems (y :: ys)) with hm | rfl | hm
          · exact (ih (N - 1) hN).1 x hsx hx c hm
          · decide
          · exact (ih (N - 1) hN).2.1 (y :: ys) hst
              (fun z hz => hall z (by simp [hz])) c hm
    · intro ms hsize hall c hc
      cases ms with
      | nil => simp [encodeMembers] at hc
      | cons m t =>
        obtain ⟨k, v⟩ := m
        have hspec := List.cons.sizeOf_spec (k, v) t
        have hspec2 := Prod.mk.sizeOf_spec k v
        have hpt := sizeOf_list_pos t
        have hsv : sizeOf v ≤ N - 1 := by omega
        have hst : sizeOf t ≤ N - 1 := by omega
        have hN : N - 1 < N := by omega
        have hv : JsonDoc v := hall (k, v) (by simp)
        have hkey : ∀ a ∈ encodeJsonString k, a.toNat < 0x80 := by
          intro a haa
          rcases (by simpa [encodeJsonString] using haa :
              a = '"' ∨ (∃ b, b ∈ k ∧ a ∈ encodeJsonChar b) ∨ a = '"') with
            rfl | ⟨b, _, hab⟩ | rfl
          · decide
          · exact encodeJsonChar_ascii b a hab
          · decide
        cases t with
        | nil =>
          rw [show encodeMembers [(k, v)] = encodeJsonString k ++ ':' :: encodeJson v
            from by simp [encodeMembers]] at hc
          rcases (by simpa using hc :
              c ∈ encodeJsonString k ∨ c = ':' ∨ c ∈ encodeJson v) with hm | rfl | hm
          · exact hkey c hm
          · decide
          · exact (ih (N - 1) hN).1 v hsv hv c hm
        | cons m' t' =>
          rw [show encodeMembers ((k, v) :: m' :: t') = encodeJsonString k ++ ':' ::
            (encodeJson v ++ ',' :: encodeMembers (m' :: t')) from by
              simp [encodeMembers]] at hc
          rcases (by simpa using hc : c ∈ encodeJsonString k ∨ c = ':' ∨
              c ∈ encodeJson v ∨ c = ',' ∨ c ∈ encodeMembers (m' :: t')) with
            hm | rfl | hm | rfl | hm
          · exact hkey c hm
          · decide
          · exact (ih (N - 1) hN).1 v hsv hv c hm
          · decide
          · exact (ih (N - 1) hN).2.2 (m' :: t') hst
              (fun m hm2 => hall m (by simp [hm2])) c hm

theorem encodeJson_ascii (d : PyVal) (hd : JsonDoc d) :
    ∀ c ∈ encodeJson d, c.toNat < 0x80 :=
  (encodeJson_ascii_all (sizeOf d)).1 d (Nat.le_refl _) hd

theorem json_loads_encodeJson (d : PyVal) (hd : JsonDoc d) :
    json_loads (encodeJson d) = .ok d := by
  have henc := parsesBack_of_jsonDoc d hd (2 * (encodeJson d).length + 4) [] (by omega) rfl
  rw [List.append_nil] at henc
  unfold json_loads
  rw [henc]
  rfl

/-- Claim C8: `RequestMaker.make_body_from_json` returns an empty dict on
an empty buffer; on the UTF-8 encoding (the resolved default charset) of
any JSON document it returns a value equal to that document (floats are
carried as their canonical literal text); a `UnicodeDecodeError` from the
charset decode or a `JSONDecodeError` from parsing is caught and wrapped
into the `JSON DECODE ERROR` `ApplicationException` carrying the
originating error as its cause, while any other decode error (such as a
`LookupError` from an unknown charset) propagates uncaught. -/
theorem json_decoder_roundtrip (other : Str → Bytes → Except CodecErr Str)
    (headers : List (Str × Str)) (d : PyVal)
    (input₀ input₁ : Bytes) (e₀ e₁ : Exc) (text : Str) :
    make_body_from_json other headers [] = .ok (.vdict []) ∧
    (rmCharset headers = "utf-8".data → JsonDoc d →
      make_body_from_json other headers (utf8Encode (encodeJson d)) = .ok d) ∧
    (input₀ ≠ [] → codecDecode other (rmCharset headers) input₀ = .error e₀ →
      (e₀.kind = .unicodeDecodeErr →
        make_body_from_json other headers input₀ =
          .error (.withCause .applicationExc Option.none "JSON DECODE ERROR".data e₀)) ∧
      (e₀.kind ≠ .unicodeDecodeErr →
        make_body_from_json other headers input₀ = .error e₀)) ∧
    (input₁ ≠ [] → codecDecode other (rmCharset headers) input₁ = .ok text →
      json_loads text = .error e₁ →
      make_body_from_json other headers input₁ =
        .error (.withCause .applicationExc Option.none "JSON DECODE ERROR".data e₁)) := by
  refine ⟨rfl, ?_, ?_, ?_⟩
  · intro hcs hd
    have hascii := encodeJson_ascii d hd
    have hrt := utf8_roundtrip_ascii (encodeJson d) hascii
    have hne : encodeJson d ≠ [] := by
      obtain ⟨c, t, hct, _⟩ := encodeJson_head d hd
      simp [hct]
    have hlenpos : 0 < (utf8Encode (encodeJson d)).length := by
      rw [hrt.1, List.length_map]
      exact List.length_pos.mpr hne
    unfold make_body_from_json
    rw [if_pos hlenpos, hcs]
    unfold codecDecode
    rw [if_pos (Or.inl rfl)]
    unfold pyDecodeUtf8
    rw [hrt.2]
    show (match json_loads (encodeJson d) with
      | Except.ok v => Except.ok v
      | Except.error e =>
        if e.kind = ExcKind.jsonDecodeErr then
          Except.error (Exc.withCause ExcKind.applicationExc Option.none
            "JSON DECODE ERROR".data e)
        else Except.error e) = Except.ok d
    rw [json_loads_encodeJson d hd]
  · intro hne hcd
    unfold make_body_from_json
    rw [if_pos (List.length_pos.mpr hne), hcd]
    constructor
    · intro hkind
      show (if e₀.kind = ExcKind.unicodeDecodeErr then
          Except.error (Exc.withCause ExcKind.applicationExc Option.none
            "JSON DECODE ERROR".data e₀)
        else Except.error e₀) =
        Except.error (Exc.withCause ExcKind.applicationExc Option.none
          "JSON DECODE ERROR".data e₀)
      rw [if_pos hkind]
    · intro hkind
      show (if e₀.kind = ExcKind.unicodeDecodeErr then
          Except.error (Exc.withCause ExcKind.applicationExc Option.none
            "JSON DECODE ERROR".data e₀)
        else Except.error e₀) = Except.error e₀
      rw [if_neg hkind]
  · intro hne hok hjl
    unfold make_body_from_json
    rw [if_pos (List.length_pos.mpr hne), hok]
    show (match json_loads text with
      | Except.ok v => Except.ok v
      | Except.error e =>
        if e.kind = ExcKind.jsonDecodeErr then
          Except.error (Exc.withCause ExcKind.applicationExc Option.none
            "JSON DECODE ERROR".data e)
        else Except.error e) =
      Except.error (Exc.withCause ExcKind.applicationExc Option.none
        "JSON DECODE ERROR".data e₁)
    rw [hjl]
    show (if e₁.kind = ExcKind.jsonDecodeErr then
        Except.error (Exc.withCause ExcKind.applicationExc Option.none
          "JSON DECODE ERROR".data e₁)
      else Except.error e₁) =
      Except.error (Exc.withCause ExcKind.applicationExc Option.none
        "JSON DECODE ERROR".data e₁)
    rw [if_pos (json_loads_error_eq text e₁ hjl).1]

theorem jsonDocEx_doc : JsonDoc jsonDocEx := by
  unfold jsonDocEx
  refine JsonDoc.dict _ ?_ ?_
  · intro m hm
    simp only [List.mem_cons, List.not_mem_nil, or_false] at hm
    rcases hm with rfl | rfl
    · refine JsonDoc.list _ ?_
      intro x hx
      simp only [List.mem_cons, List.not_mem_nil, or_false] at hx
      rcases hx with rfl | rfl | rfl
      · exact JsonDoc.int _
      · exact JsonDoc.str _
      · exact JsonDoc.float _ (by decide)
    · exact JsonDoc.bool _
  · refine List.Pairwise.cons ?_ (List.Pairwise.cons ?_ List.Pairwise.nil)
    · intro b hb
      simp only [List.mem_cons, List.not_mem_nil, or_false] at hb
      rw [hb]
      decide
    · intro b hb
      simp at hb

theorem json_decoder_roundtrip_witness :
    make_body_from_json (fun _ _ => .error (.lookup "unknown encoding".data)) [] []
      = .ok (.vdict []) ∧
    make_body_from_json (fun _ _ => .error (.lookup "unknown encoding".data)) []
      (utf8Encode (encodeJson jsonDocEx)) = .ok jsonDocEx ∧
    make_body_from_json (fun _ _ => .error (.lookup "unknown encoding".data)) [] [0xFF] =
      .error (.withCause .applicationExc Option.none "JSON DECODE ERROR".data
        (.mk .unicodeDecodeErr Option.none "invalid utf-8".data)) ∧
    make_body_from_json (fun _ _ => .error (.lookup "unknown encoding".data))
      [("content-type".data, "application/json; charset=foobar".data)] [0x78] =
      .error (.mk .lookupErr Option.none "unknown encoding".data) ∧
    make_body_from_json (fun _ _ => .error (.lookup "unknown encoding".data)) [] [0x78] =
      .error (.withCause .applicationExc Option.none "JSON DECODE ERROR".data
        (.mk .jsonDecodeErr Option.none "Expecting value".data)) :=
  ⟨(json_decoder_roundtrip (fun _ _ => .error (.lookup "unknown encoding".data)) []
      jsonDocEx [0xFF] [0x78] (.mk .unicodeDecodeErr Option.none "invalid utf-8".data)
      (.mk .jsonDecodeErr Option.none "Expecting value".data) ['x']).1,
   (json_decoder_roundtrip (fun _ _ => .error (.lookup "unknown encoding".data)) []
      jsonDocEx [0xFF] [0x78] (.mk .unicodeDecodeErr Option.none "invalid utf-8".data)
      (.mk .jsonDecodeErr Option.none "Expecting value".data) ['x']).2.1
     rfl jsonDocEx_doc,
   ((json_decoder_roundtrip (fun _ _ => .error (.lookup "unknown encoding".data)) []
      jsonDocEx [0xFF] [0x78] (.mk .unicodeDecodeErr Option.none "invalid utf-8".data)
      (.mk .jsonDecodeErr Option.none "Expecting value".data) ['x']).2.2.1
     (by simp) rfl).1 rfl,
   ((json_decoder_roundtrip (fun _ _ => .error (.lookup "unknown encoding".data))
      [("content-type".data, "application/json; charset=foobar".data)]
      jsonDocEx [0x78] [0x78] (.mk .lookupErr Option.none "unknown encoding".data)
      (.mk .jsonDecodeErr Option.none "Expecting value".data) ['x']).2.2.1
     (by simp) rfl).2 (by decide),
   (json_decoder_roundtrip (fun _ _ => .error (.lookup "unknown encoding".data)) []
      jsonDocEx [0xFF] [0x78] (.mk .unicodeDecodeErr Option.none "invalid utf-8".data)
      (.mk .jsonDecodeErr Option.none "Expecting value".data) ['x']).2.2.2
     (by simp) rfl rfl⟩

end Muscles
